import Mathlib

/-!
# CLI Checkers v3: move validator, promotion, chain-jump resolver and turn controller

A shallow embedding of `src/CLI_Checkers__v3.cpp`.

* The board `int grid[8][8]` is a function `Fin 8 → Fin 8 → Int`.  The C code
  indexes it with plain `int`s, so every read and write goes through `cell` /
  `setCell`, which answer `none` when an index leaves the array (undefined
  behaviour in C).  Every function that touches the board therefore returns an
  `Option`; `none` means "the C program indexed outside the array".
* What `isDoubleJumpAvailable` answers when the reads of its guard (line 848) leave the
  array is stated with `readAt`, which gives such a read the value of an arbitrary
  function `off`: `isDoubleJumpAvailableAt off` is the function under that reading, and it
  agrees with `isDoubleJumpAvailable` wherever the latter has a result.
* `int` values are modelled by `Int`.  Coordinates stay within a few units of
  `[0,7]` and a piece counter starts at 12 and only ever decreases by one per
  removed piece, so no arithmetic in the embedded code can leave the `int` range.
* A C function with reference parameters returns the new values of what it may
  have changed: `validMove` returns its `bool`, the board and the counter.
* Input typed by the players is an argument: `mainMove` takes the four coordinates that
  `getMove` passed on, `grantAnswer` the two numbers typed at the prompt of
  `grantDoubleJump`.  The controller is a step function on `Control`, the two places
  where the program waits for input.

Cell values (source, lines 115-120): 0 empty, 1 player-1 man, 2 player-2 man,
3 player-1 king, 4 player-2 king.
-/

namespace Checkers

/-- The array `int grid[8][8]`. -/
abbrev Grid := Fin 8 → Fin 8 → Int

/-- Both indices of `grid[x][y]` are inside the array. -/
def inRange (x y : Int) : Prop := 0 ≤ x ∧ x ≤ 7 ∧ 0 ≤ y ∧ y ≤ 7

instance (x y : Int) : Decidable (inRange x y) := by
  unfold inRange; infer_instance

/-- The array index denoted by an `int` that lies in `[0,7]` (only used under `inRange`). -/
def idx (x : Int) : Fin 8 := ⟨x.toNat % 8, Nat.mod_lt _ (by decide)⟩

/-- The read `grid[x][y]`; `none` when an index is outside the array. -/
def cell (grid : Grid) (x y : Int) : Option Int :=
  if inRange x y then some (grid (idx x) (idx y)) else none

/-- The board that differs from `grid` at `(x, y)` only, where it holds `v`. -/
def upd (grid : Grid) (x y v : Int) : Grid :=
  fun i j => if i = idx x ∧ j = idx y then v else grid i j

/-- The write `grid[x][y] = v`; `none` when an index is outside the array. -/
def setCell (grid : Grid) (x y v : Int) : Option Grid :=
  if inRange x y then some (upd grid x y v) else none

/-- The four copies of the "jumped square" block of `validMove`
(lines 716-724, 730-735, 788-797, 802-807, each followed by `pieces--; return true;`
at 741-743 or 812-814), with the jumped square `grid[a][b]` as a parameter:
an empty square or a square holding `turn`, `turn + 2` or `turn - 2` gives `false`,
anything else is set to 0 and the counter is decremented. -/
def captureAt (a b turn : Int) (grid : Grid) (pieces : Int) : Option (Bool × Grid × Int) :=
  (cell grid a b).bind fun m =>
    if m = 0 then some (false, grid, pieces)
    else if m = turn ∨ m = turn + 2 ∨ m = turn - 2 then some (false, grid, pieces)
    else (setCell grid a b 0).bind fun grid1 => some (true, grid1, pieces - 1)

/-- The function `validMove` (lines 672-823).  The result is the returned `bool`, the board
after the call and the counter `pieces` after the call. -/
def validMove (xFrom xTo yFrom yTo turn : Int) (grid : Grid) (pieces : Int) :
    Option (Bool × Grid × Int) :=
  (cell grid xTo yTo).bind fun dst =>
    if dst ≠ 0 then some (false, grid, pieces)
    else if (xTo = xFrom + 1 ∨ xTo = xFrom + 2) ∧
        (yTo = yFrom + 1 ∨ yTo = yFrom - 1 ∨ yTo = yFrom + 2 ∨ yTo = yFrom - 2) then
      (cell grid xFrom yFrom).bind fun src =>
        if src = 2 then some (false, grid, pieces)
        else if (yTo = yFrom + 2 ∨ yTo = yFrom - 2) ∧ ¬ (xTo = xFrom + 2) then
          some (false, grid, pieces)
        else if xTo = xFrom + 2 then
          if yTo < yFrom then captureAt (xTo - 1) (yTo + 1) turn grid pieces
          else captureAt (xTo - 1) (yTo - 1) turn grid pieces
        else some (true, grid, pieces)
    else
      (cell grid xFrom yFrom).bind fun src =>
        if src = 1 then some (false, grid, pieces)
        else if yTo = yFrom ∨ yTo > yFrom + 2 ∨ yTo < yFrom - 2 then some (false, grid, pieces)
        else if (yTo = yFrom + 2 ∨ yTo = yFrom - 2) ∧ (xTo = xFrom + 1 ∨ xTo = xFrom - 1) then
          some (false, grid, pieces)
        else if xTo = xFrom - 2 then
          if yTo < yFrom then captureAt (xTo + 1) (yTo + 1) turn grid pieces
          else captureAt (xTo + 1) (yTo - 1) turn grid pieces
        else some (true, grid, pieces)

/-- A board given row by row (row 0 first); missing entries are empty. -/
def ofRows (rows : List (List Int)) : Grid :=
  fun i j => (rows.getD i.val []).getD j.val 0

/-- Every cell holds one of the five cell values 0..4. -/
def wellFormed (grid : Grid) : Prop := ∀ i j, 0 ≤ grid i j ∧ grid i j ≤ 4

instance (grid : Grid) : Decidable (wellFormed grid) := by
  unfold wellFormed; infer_instance

/-- The number of pieces (men and kings) of `player` on the board. -/
def piecesOf (player : Int) (grid : Grid) : Nat :=
  (Finset.univ.filter fun c : Fin 8 × Fin 8 =>
    grid c.1 c.2 = player ∨ grid c.1 c.2 = player + 2).card

/-- The row on which a man of `turn` is crowned: row 7 for player 1, row 0 for player 2. -/
def backRank (turn : Int) : Int := if turn = 1 then 7 else 0

/-- The inner loops of `arrangeGrid`: `grid[i][k] = v` for each column `k` of `ks` in turn. -/
def writeRow (grid : Grid) (i v : Int) (ks : List Int) : Option Grid :=
  ks.foldlM (fun g k => setCell g i k v) grid

/-- The function `arrangeGrid` (lines 418-482): first every cell is set to 0 (rows and columns
0..7), then rows 0 and 2 get a 1 on columns 1,3,5,7, row 1 a 1 on columns 0,2,4,6, rows 5
and 7 a 2 on columns 0,2,4,6 and row 6 a 2 on columns 1,3,5,7. -/
def arrangeGrid (grid : Grid) : Option Grid :=
  ([0, 1, 2, 3, 4, 5, 6, 7].foldlM (fun g i => writeRow g i 0 [0, 1, 2, 3, 4, 5, 6, 7]) grid).bind
    fun cleared =>
      [0, 1, 2, 3, 4, 5, 6, 7].foldlM (fun g (i : Int) =>
        if i = 0 ∨ i = 2 then writeRow g i 1 [1, 3, 5, 7]
        else if i = 1 then writeRow g i 1 [0, 2, 4, 6]
        else if i = 5 ∨ i = 7 then writeRow g i 2 [0, 2, 4, 6]
        else if i = 6 then writeRow g i 2 [1, 3, 5, 7]
        else some g) cleared

/-- The relocation in `main` after an accepted move: lines 208-213 when `turn == 1`,
lines 264-269 otherwise. -/
def relocateMain (turn xFrom xTo yFrom yTo : Int) (grid : Grid) : Option Grid :=
  if turn = 1 then
    (cell grid xFrom yFrom).bind fun src =>
      (setCell grid xTo yTo (if src = 3 ∨ xTo = 7 then 3 else 1)).bind fun g1 =>
        setCell g1 xFrom yFrom 0
  else
    (cell grid xFrom yFrom).bind fun src =>
      (setCell grid xTo yTo (if src = 4 ∨ xTo = 0 then 4 else 2)).bind fun g1 =>
        setCell g1 xFrom yFrom 0

/-- The relocation at the end of `grantDoubleJump` (lines 1129-1140): the result is the
board and the new values of the reference parameters `x` and `y`. -/
def relocateChain (player x y xDest yDest : Int) (grid : Grid) : Option (Grid × Int × Int) :=
  (cell grid x y).bind fun src =>
    (setCell grid xDest yDest
      (if src = player + 2 ∨ (xDest = 7 ∧ player = 1) ∨ (xDest = 0 ∧ player = 2)
        then player + 2 else player)).bind fun g1 =>
      (setCell g1 x y 0).bind fun g2 => some (g2, xDest, yDest)

/-- The starting position. -/
def initialGrid : Grid := ofRows
  [[0, 1, 0, 1, 0, 1, 0, 1],
   [1, 0, 1, 0, 1, 0, 1, 0],
   [0, 1, 0, 1, 0, 1, 0, 1],
   [0, 0, 0, 0, 0, 0, 0, 0],
   [0, 0, 0, 0, 0, 0, 0, 0],
   [2, 0, 2, 0, 2, 0, 2, 0],
   [0, 2, 0, 2, 0, 2, 0, 2],
   [2, 0, 2, 0, 2, 0, 2, 0]]

/-- A position reached from the start by 1: (2,7)→(3,6), 2: (5,2)→(4,3), 1: (1,6)→(2,7),
2: (4,3)→(3,2); player 1 is to move and can jump from (2,1) over (3,2) to (4,3). -/
def jumpGrid : Grid := ofRows
  [[0, 1, 0, 1, 0, 1, 0, 1],
   [1, 0, 1, 0, 1, 0, 0, 0],
   [0, 1, 0, 1, 0, 1, 0, 1],
   [0, 0, 2, 0, 0, 0, 1, 0],
   [0, 0, 0, 0, 0, 0, 0, 0],
   [2, 0, 0, 0, 2, 0, 2, 0],
   [0, 2, 0, 2, 0, 2, 0, 2],
   [2, 0, 2, 0, 2, 0, 2, 0]]

/-- The position after player 1 has opened with (2,1)→(3,2); player 2 is to move. -/
def openingGrid : Grid := ofRows
  [[0, 1, 0, 1, 0, 1, 0, 1],
   [1, 0, 1, 0, 1, 0, 1, 0],
   [0, 0, 0, 1, 0, 1, 0, 1],
   [0, 0, 1, 0, 0, 0, 0, 0],
   [0, 0, 0, 0, 0, 0, 0, 0],
   [2, 0, 2, 0, 2, 0, 2, 0],
   [0, 2, 0, 2, 0, 2, 0, 2],
   [2, 0, 2, 0, 2, 0, 2, 0]]

/-- The position after 1: (2,1)→(3,2), 2: (5,2)→(4,3), 1: (2,5)→(3,6); player 2 is to
move and has a man on (4,3). -/
def midGrid : Grid := ofRows
  [[0, 1, 0, 1, 0, 1, 0, 1],
   [1, 0, 1, 0, 1, 0, 1, 0],
   [0, 0, 0, 1, 0, 0, 0, 1],
   [0, 0, 1, 0, 0, 0, 1, 0],
   [0, 0, 0, 2, 0, 0, 0, 0],
   [2, 0, 0, 0, 2, 0, 2, 0],
   [0, 2, 0, 2, 0, 2, 0, 2],
   [2, 0, 2, 0, 2, 0, 2, 0]]

/-- The position after 1: (2,1)→(3,2), 2: (5,0)→(5,1), 1: (2,3)→(3,4), 2: (5,1)→(4,2);
player 1 is to move, with a man on (3,2) and player 2's man straight below it on (4,2). -/
def offGrid : Grid := ofRows
  [[0, 1, 0, 1, 0, 1, 0, 1],
   [1, 0, 1, 0, 1, 0, 1, 0],
   [0, 0, 0, 0, 0, 1, 0, 1],
   [0, 0, 1, 0, 1, 0, 0, 0],
   [0, 0, 2, 0, 0, 0, 0, 0],
   [0, 0, 2, 0, 2, 0, 2, 0],
   [0, 2, 0, 2, 0, 2, 0, 2],
   [2, 0, 2, 0, 2, 0, 2, 0]]

/-- An endgame position with a player-1 man on (6,5) and (5,4) empty. -/
def lateGrid : Grid := ofRows
  [[0, 1, 0, 0, 0, 0, 0, 0],
   [0, 0, 0, 0, 0, 0, 0, 0],
   [0, 0, 0, 1, 0, 0, 0, 0],
   [0, 0, 0, 0, 0, 0, 0, 0],
   [0, 0, 0, 0, 0, 0, 0, 2],
   [0, 0, 0, 0, 0, 0, 0, 0],
   [0, 0, 0, 0, 0, 1, 0, 0],
   [2, 0, 0, 0, 0, 0, 2, 0]]

/-- A position with player 1 to move in which the man on (2,1) can jump over (3,2) to
(4,3) and from there over (5,4) to (6,5). -/
def chainGrid : Grid := ofRows
  [[0, 1, 0, 1, 0, 1, 0, 1],
   [1, 0, 1, 0, 1, 0, 0, 0],
   [0, 1, 0, 1, 0, 1, 0, 1],
   [0, 0, 2, 0, 0, 0, 1, 0],
   [0, 0, 0, 0, 0, 0, 0, 0],
   [2, 0, 0, 0, 2, 0, 2, 0],
   [0, 2, 0, 2, 0, 0, 0, 2],
   [2, 0, 2, 0, 2, 0, 2, 0]]

/-- The position `chainGrid` after the jump (2,1)→(4,3): the man stands on (4,3), the
squares (2,1) and (3,2) are empty. -/
def chainGridJumped : Grid := upd (upd (upd chainGrid 3 2 0) 4 3 1) 2 1 0

/-! ## The chain-jump resolver and the turn controller -/

/-- The array `int jumpReg[4][2]`: four (row, column) entries. -/
abbrev JumpReg := Fin 4 → Int × Int

/-- The registry after the loops at lines 855-861: every entry is (-1, -1). -/
def clearedReg : JumpReg := fun _ => (-1, -1)

/-- The registry with (6,5) in entry 0 and the sentinel elsewhere. -/
def chainReg : JumpReg := Function.update clearedReg 0 (6, 5)

/-- The test `grid[a][b] != 0 && grid[c][d] == 0` of line 848, with the short-circuit
evaluation of `&&`: the second cell is read only when the first is not 0. -/
def occupiedThenEmpty (grid : Grid) (a b c d : Int) : Option Bool :=
  (cell grid a b).bind fun m =>
    if m ≠ 0 then (cell grid c d).bind fun l => some (decide (l = 0)) else some false

/-- The operator `||` of C on two tests that read the board: the second test is evaluated
only when the first one yields false. -/
def orElse (p q : Option Bool) : Option Bool :=
  p.bind fun b => if b then some true else q

/-- The condition of the `if` at line 848:
`x == 1 && !(A || B) || x == 7 && !(C || D)`, where `A`..`D` are the four tests
`grid[x±1][y±1] != 0 && grid[x±2][y±2] == 0` in the order of the source. -/
def edgeGuard (x y : Int) (grid : Grid) : Option Bool :=
  orElse
    (if x = 1 then
      (orElse (occupiedThenEmpty grid (x + 1) (y + 1) (x + 2) (y + 2))
        (occupiedThenEmpty grid (x + 1) (y - 1) (x + 2) (y - 2))).map not
     else some false)
    (if x = 7 then
      (orElse (occupiedThenEmpty grid (x - 1) (y - 1) (x - 2) (y - 2))
        (occupiedThenEmpty grid (x - 1) (y + 1) (x - 2) (y + 2))).map not
     else some false)

/-- The eight copies of the search block of `isDoubleJumpAvailable` (lines 875-891, 893-904,
911-922, 924-935, 941-952, 954-965, 971-982, 984-995): under the bounds test `ok`, if the
neighbour `grid[mx][my]` holds `a` or `b` and the square beyond, `grid[lx][ly]`, is 0, then
entry `slot` of the registry becomes `(lx, ly)` and `retVal` becomes true.  The state is
`(retVal, jumpReg)`. -/
def probe (grid : Grid) (ok : Bool) (mx my lx ly a b : Int) (slot : Fin 4)
    (st : Bool × JumpReg) : Option (Bool × JumpReg) :=
  if ok then
    (cell grid mx my).bind fun m =>
      if m = a ∨ m = b then
        (cell grid lx ly).bind fun l =>
          if l = 0 then some (true, Function.update st.2 slot (lx, ly)) else some st
      else some st
  else some st

/-- The function `isDoubleJumpAvailable` from line 841 on, with the value `pieceType` read
at line 840 as a parameter.  The result is the returned `bool` and the registry after the
call (on the early return at line 849 the registry is as it was). -/
def isDoubleJumpAvailableBody (pieceType x y turn : Int) (grid : Grid) (jumpReg : JumpReg) :
    Option (Bool × JumpReg) :=
  (edgeGuard x y grid).bind fun early =>
    if early then some (false, jumpReg)
    else
      let st : Bool × JumpReg := (if x = -1 ∨ y = -1 then false else false, clearedReg)
      if turn = 1 then
        (probe grid (decide (¬ (x + 2 > 7) ∧ ¬ (y + 2 > 7)))
            (x + 1) (y + 1) (x + 2) (y + 2) 2 4 0 st).bind fun s0 =>
        (probe grid (decide (¬ (x + 2 > 7) ∧ ¬ (y - 2 < 0)))
            (x + 1) (y - 1) (x + 2) (y - 2) 2 4 1 s0).bind fun s1 =>
        if pieceType = 3 then
          (probe grid (decide (¬ (x - 2 < 0) ∧ ¬ (y + 2 > 7)))
              (x - 1) (y + 1) (x - 2) (y + 2) 2 4 2 s1).bind fun s2 =>
          probe grid (decide (¬ (x - 2 < 0) ∧ ¬ (y - 2 < 0)))
              (x - 1) (y - 1) (x - 2) (y - 2) 2 4 3 s2
        else some s1
      else if turn = 2 then
        (probe grid (decide (¬ (x - 2 < 0) ∧ ¬ (y + 2 > 7)))
            (x - 1) (y + 1) (x - 2) (y + 2) 1 3 0 st).bind fun s0 =>
        (probe grid (decide (¬ (x - 2 < 0) ∧ ¬ (y - 2 < 0)))
            (x - 1) (y - 1) (x - 2) (y - 2) 1 3 1 s0).bind fun s1 =>
        if pieceType = 4 then
          (probe grid (decide (¬ (x + 2 > 7) ∧ ¬ (y + 2 > 7)))
              (x + 1) (y + 1) (x + 2) (y + 2) 1 3 2 s1).bind fun s2 =>
          probe grid (decide (¬ (x + 2 > 7) ∧ ¬ (y - 2 < 0)))
              (x + 1) (y - 1) (x + 2) (y - 2) 1 3 3 s2
        else some s1
      else some st

/-- The function `isDoubleJumpAvailable` (lines 838-999): `pieceType = grid[x][y]` is read
first (line 840), then the rest runs. -/
def isDoubleJumpAvailable (x y turn : Int) (grid : Grid) (jumpReg : JumpReg) :
    Option (Bool × JumpReg) :=
  (cell grid x y).bind fun pieceType => isDoubleJumpAvailableBody pieceType x y turn grid jumpReg

/-- The variables of `main` that outlive one move: `turn`, the two counters, the board and
the registry. -/
structure Game where
  /-- The player to move: 1 or 2. -/
  turn : Int
  /-- The counter of player 1's pieces. -/
  p1Pieces : Int
  /-- The counter of player 2's pieces. -/
  p2Pieces : Int
  /-- The board. -/
  grid : Grid
  /-- The jump registry. -/
  jumpReg : JumpReg

/-- The counter `main` passes to `validMove` and `grantDoubleJump`: the opponent's. -/
def oppPieces (g : Game) : Int := if g.turn = 1 then g.p2Pieces else g.p1Pieces

/-- The game with the board and the opponent's counter replaced. -/
def withBoard (g : Game) (grid : Grid) (pieces : Int) : Game :=
  if g.turn = 1 then Game.mk g.turn g.p1Pieces pieces grid g.jumpReg
  else Game.mk g.turn pieces g.p2Pieces grid g.jumpReg

/-- The game with the registry replaced. -/
def withReg (g : Game) (jumpReg : JumpReg) : Game :=
  Game.mk g.turn g.p1Pieces g.p2Pieces g.grid jumpReg

/-- The assignment `turn = 2` of line 227, respectively `turn = 1` of line 277. -/
def passTurn (g : Game) : Game :=
  Game.mk (if g.turn = 1 then 2 else 1) g.p1Pieces g.p2Pieces g.grid g.jumpReg

/-- The program inside `grantDoubleJump`, at the prompt of line 1017: the game, the
position `x`, `y` of the piece and the flag `legal` (`valid` is false whenever the prompt
is reached). -/
structure Prompt where
  /-- The variables of `main`. -/
  game : Game
  /-- The row of the piece. -/
  x : Int
  /-- The column of the piece. -/
  y : Int
  /-- The flag `legal`, which is set at line 1092 and never reset. -/
  legal : Bool

/-- What one pass through the `do ... while` of `grantDoubleJump` leads to. -/
inductive GrantResult where
  /-- The loop repeats: the prompt is shown again. -/
  | again (p : Prompt)
  /-- The function returns, with these variables of `main` and these values of `x`, `y`. -/
  | ret (g : Game) (x y : Int)

/-- Where the turn controller waits for input. -/
inductive Control where
  /-- In `main`, for the next move (top of the `while` body). -/
  | move (g : Game)
  /-- In `grantDoubleJump`, for a chain destination. -/
  | chain (p : Prompt)

/-- The scan of lines 1088-1107: some entry of the registry equals `(xDest, yDest)`. -/
def inRegistry (jumpReg : JumpReg) (xDest yDest : Int) : Bool :=
  decide (∃ i : Fin 4, jumpReg i = (xDest, yDest))

/-- One pass through the `do ... while` of `grantDoubleJump` (lines 1015-1124) and, when the
loop ends, the relocation (lines 1129-1140).  `xIn`, `yIn` are the two numbers typed at the
prompt (`yIn` is not read when `xIn` is 0).  The validator is a parameter, `vm`, so that
"`validMove` is not called" can be stated as "the result does not depend on `vm`". -/
def grantBodyWith (vm : Int → Int → Int → Int → Int → Grid → Int → Option (Bool × Grid × Int))
    (p : Prompt) (xIn yIn : Int) : Option GrantResult :=
  if xIn = 0 then some (.ret p.game (-1) (-1))
  else if yIn = 0 then some (.ret p.game (-1) (-1))
  else
    let xDest := xIn - 1
    let yDest := yIn - 1
    if xDest < 0 ∨ xDest > 7 ∨ yDest < 0 ∨ yDest > 7 then some (.ret p.game xDest yDest)
    else
      let legal := p.legal || inRegistry p.game.jumpReg xDest yDest
      if legal then
        (vm p.x xDest p.y yDest p.game.turn p.game.grid (oppPieces p.game)).bind fun r =>
          if r.1 then
            (relocateChain p.game.turn p.x p.y xDest yDest r.2.1).bind fun m =>
              some (.ret (withBoard p.game m.1 r.2.2) m.2.1 m.2.2)
          else some (.again (Prompt.mk (withBoard p.game r.2.1 r.2.2) p.x p.y legal))
      else some (.again (Prompt.mk p.game p.x p.y legal))

/-- The function `grantDoubleJump` on one answer: `grantBodyWith` with `validMove`. -/
def grantBody (p : Prompt) (xIn yIn : Int) : Option GrantResult :=
  grantBodyWith validMove p xIn yIn

/-- The loop head `while(isDoubleJumpAvailable(xTo, yTo, turn, grid, jumpReg))` of `main`
(lines 221 and 273): when the answer is true `grantDoubleJump` is entered (with `legal`
false), otherwise the turn passes to the other player (lines 227 and 277). -/
def chainWhile (g : Game) (x y : Int) : Option Control :=
  (isDoubleJumpAvailable x y g.turn g.grid g.jumpReg).bind fun r =>
    if r.1 then some (.chain (Prompt.mk (withReg g r.2) x y false))
    else some (.move (passTurn (withReg g r.2)))

/-- One answer typed at the prompt of `grantDoubleJump`, followed by what `main` does when
the function returns. -/
def grantAnswer (p : Prompt) (xIn yIn : Int) : Option Control :=
  (grantBody p xIn yIn).bind fun r =>
    match r with
    | .again q => some (.chain q)
    | .ret g x y => chainWhile g x y

/-- The flag `jumped` of `main` (lines 182 and 253). -/
def jumped (xFrom xTo : Int) : Bool := decide (xTo < xFrom - 1 ∨ xTo > xFrom + 1)

/-- One pass through the `while` body of `main` (lines 149-232 and 233-280) for a move that
`getMove` has passed on and that is not the quit signal. -/
def mainMove (g : Game) (xFrom xTo yFrom yTo : Int) : Option Control :=
  (validMove xFrom xTo yFrom yTo g.turn g.grid (oppPieces g)).bind fun r =>
    if r.1 then
      (relocateMain g.turn xFrom xTo yFrom yTo r.2.1).bind fun grid1 =>
        if jumped xFrom xTo then chainWhile (withBoard g grid1 r.2.2) xTo yTo
        else some (.move (passTurn (withBoard g grid1 r.2.2)))
    else some (.move (withBoard g r.2.1 r.2.2))

/-- The square `d` is a capturing continuation from `(x, y)` for `turn`: two rows and two
columns away, Empty (hence on the board), with the opponent's man (3 - turn) or king
(5 - turn) on the midpoint, and in the forward direction of `turn` (row x + 2 for player 1,
x - 2 for player 2) unless `(x, y)` holds the King of `turn`. -/
def qualifies (grid : Grid) (x y turn : Int) (d : Int × Int) : Prop :=
  (d.1 = x + 2 ∨ d.1 = x - 2) ∧ (d.2 = y + 2 ∨ d.2 = y - 2) ∧
  cell grid d.1 d.2 = some 0 ∧
  (cell grid ((x + d.1) / 2) ((y + d.2) / 2) = some (3 - turn) ∨
    cell grid ((x + d.1) / 2) ((y + d.2) / 2) = some (5 - turn)) ∧
  (cell grid x y ≠ some (turn + 2) → d.1 = x + (if turn = 1 then 2 else -2))

instance (grid : Grid) (x y turn : Int) (d : Int × Int) : Decidable (qualifies grid x y turn d) := by
  unfold qualifies; infer_instance

/-- The prompt of `grantDoubleJump` after player 1's jump (2,1)→(4,3) in `chainGrid`. -/
def chainPrompt : Prompt := Prompt.mk (Game.mk 1 12 11 chainGridJumped chainReg) 4 3 false

/-- A position reached when player 2's man has just jumped from (3,2) over (2,1) to (1,0). -/
def edgeGridA : Grid := ofRows
  [[0, 1, 0, 1, 0, 1, 0, 1],
   [2, 0, 1, 0, 1, 0, 1, 0],
   [0, 0, 0, 1, 0, 1, 0, 0],
   [1, 0, 0, 0, 0, 0, 1, 0],
   [0, 0, 0, 0, 0, 0, 0, 0],
   [2, 0, 0, 0, 2, 0, 2, 0],
   [0, 2, 0, 2, 0, 2, 0, 2],
   [2, 0, 2, 0, 2, 0, 2, 0]]

/-- A position reached when player 2's man has just jumped from (3,4) over (2,5) to (1,6);
player 1 has a man on (2,7). -/
def edgeGridB : Grid := ofRows
  [[0, 1, 0, 1, 0, 1, 0, 1],
   [1, 0, 1, 0, 1, 0, 2, 0],
   [0, 1, 0, 1, 0, 0, 0, 1],
   [0, 0, 0, 0, 0, 0, 1, 0],
   [0, 0, 0, 0, 0, 0, 0, 0],
   [2, 0, 2, 0, 0, 0, 2, 0],
   [0, 2, 0, 2, 0, 2, 0, 2],
   [2, 0, 2, 0, 2, 0, 2, 0]]

/-- The position `chainGridJumped` with a King of player 2 on the corner (0,0); (1,1) is
empty. -/
def cornerGrid : Grid := ofRows
  [[4, 1, 0, 1, 0, 1, 0, 1],
   [1, 0, 1, 0, 1, 0, 0, 0],
   [0, 0, 0, 1, 0, 1, 0, 1],
   [0, 0, 0, 0, 0, 0, 1, 0],
   [0, 0, 0, 1, 0, 0, 0, 0],
   [2, 0, 0, 0, 2, 0, 2, 0],
   [0, 2, 0, 2, 0, 0, 0, 2],
   [2, 0, 2, 0, 2, 0, 2, 0]]

/-- A position in which player 2's man has just jumped to (3,2) and can jump on over (2,1)
to (1,0); player 1 has a King on (7,4), and (6,5) is empty. -/
def backRankGrid : Grid := ofRows
  [[0, 1, 0, 1, 0, 1, 0, 1],
   [0, 0, 1, 0, 1, 0, 1, 0],
   [0, 1, 0, 0, 0, 0, 0, 0],
   [0, 0, 2, 0, 0, 0, 0, 0],
   [0, 0, 0, 0, 0, 0, 0, 0],
   [2, 0, 2, 0, 0, 0, 2, 0],
   [0, 2, 0, 2, 0, 0, 0, 2],
   [2, 0, 2, 0, 3, 0, 2, 0]]

/-- The board at a point where the controller waits for input. -/
def boardOf (c : Control) : Grid :=
  match c with
  | .move g => g.grid
  | .chain p => p.game.grid

/-- At a chain prompt the position holds a man or king of the player to move, who is
player 1 or 2; in `main` the player to move is player 1 or 2. -/
def wellPlaced (c : Control) : Prop :=
  match c with
  | .move g => g.turn = 1 ∨ g.turn = 2
  | .chain p => (p.game.turn = 1 ∨ p.game.turn = 2) ∧
      (cell p.game.grid p.x p.y = some p.game.turn ∨
        cell p.game.grid p.x p.y = some (p.game.turn + 2))

/-- The places the controller can come to, from the start of a game, through steps that
have a defined result: a move that `getMove` passes on (the source holds a piece of the
player to move) and an answer at the chain prompt. -/
inductive Reach : Control → Prop where
  /-- The start: the board of `arrangeGrid`, player 1 to move, both counters 12. -/
  | start (g0 : Grid) (grid : Grid) (reg : JumpReg) (h : arrangeGrid g0 = some grid) :
      Reach (.move (Game.mk 1 12 12 grid reg))
  /-- A pass through the loop body of `main`. -/
  | move (g : Game) (xFrom xTo yFrom yTo : Int) (c : Control) (hr : Reach (.move g))
      (hsrc : cell g.grid xFrom yFrom = some g.turn ∨
        cell g.grid xFrom yFrom = some (g.turn + 2))
      (h : mainMove g xFrom xTo yFrom yTo = some c) : Reach c
  /-- An answer at the prompt of `grantDoubleJump`. -/
  | answer (p : Prompt) (xIn yIn : Int) (c : Control) (hr : Reach (.chain p))
      (h : grantAnswer p xIn yIn = some c) : Reach c

/-- The function `getMove` (lines 518-670) on the four numbers typed at its prompts, in the
order they are read: `xFromIn`, `yFromIn`, `xToIn`, `yToIn` (a number behind an early return
is not read).  `xTo0`, `yTo0` are the values the variables `xTo`, `yTo` of `main` hold
before the call.  The result is the returned flag with the values of `xFrom`, `xTo`,
`yFrom`, `yTo` on return. -/
def getMove (xFromIn yFromIn xToIn yToIn xTo0 yTo0 turn : Int) (grid : Grid) :
    Option (Bool × Int × Int × Int × Int) :=
  if xFromIn = 0 then some (true, -1, -1, -1, -1)
  else if yFromIn = 0 then some (true, -1, -1, -1, -1)
  else if xFromIn < 0 ∨ xFromIn > 8 ∨ yFromIn < 0 ∨ yFromIn > 8 then
    some (false, xFromIn, xTo0, yFromIn, yTo0)
  else
    let xFrom := xFromIn - 1
    let yFrom := yFromIn - 1
    (cell grid xFrom yFrom).bind fun src =>
      if src ≠ turn ∧ src ≠ turn + 2 then some (false, xFrom, xTo0, yFrom, yTo0)
      else if xToIn = 0 then some (true, -1, -1, -1, -1)
      else if yToIn = 0 then some (true, -1, -1, -1, -1)
      else if xToIn < 0 ∨ xToIn > 8 ∨ yToIn < 0 ∨ yFrom > 8 then
        some (false, xFrom, xToIn, yFrom, yToIn)
      else some (true, xFrom, xToIn - 1, yFrom, yToIn - 1)

/-- The test of lines 172 and 246 for the quit signal: all four variables are -1. -/
def isQuit (xFrom xTo yFrom yTo : Int) : Bool :=
  decide (xFrom = -1 ∧ yFrom = -1 ∧ xTo = -1 ∧ yTo = -1)

/-- The condition of the `while` loop of `main` (line 144). -/
def loopCondition (g : Game) : Bool := decide (g.p1Pieces > 0 ∧ g.p2Pieces > 0)

/-- The player congratulated once the loop is left (lines 293-296). -/
def winner (g : Game) : Int := if g.p1Pieces > 0 then 1 else 2

/-- What one evaluation of the loop of `main` leads to. -/
inductive Outcome where
  /-- The program goes on and waits for input at this place. -/
  | goOn (c : Control)
  /-- The quit signal: the program ends at line 176 or 250, and nobody is congratulated. -/
  | quit
  /-- The loop is left and this player is congratulated: the program ends at line 298. -/
  | won (player : Int)

/-- The loop of `main` from its condition (line 144) to the next wait for input: when the
condition holds, `getMove` reads the four numbers typed and the move it passes on is
played by `mainMove`; otherwise the winner is announced. -/
def mainPass (g : Game) (xFromIn yFromIn xToIn yToIn xTo0 yTo0 : Int) : Option Outcome :=
  if loopCondition g then
    (getMove xFromIn yFromIn xToIn yToIn xTo0 yTo0 g.turn g.grid).bind fun m =>
      if !m.1 then some (.goOn (.move g))
      else if isQuit m.2.1 m.2.2.1 m.2.2.2.1 m.2.2.2.2 then some .quit
      else (mainMove g m.2.1 m.2.2.1 m.2.2.2.1 m.2.2.2.2).map .goOn
  else some (.won (winner g))

/-- The search of `isDoubleJumpAvailable` alone (lines 855-998): the function body with the
early return of lines 848-853 taken out. -/
def isDoubleJumpAvailableNoGuardBody (pieceType x y turn : Int) (grid : Grid) :
    Option (Bool × JumpReg) :=
  let st : Bool × JumpReg := (if x = -1 ∨ y = -1 then false else false, clearedReg)
  if turn = 1 then
    (probe grid (decide (¬ (x + 2 > 7) ∧ ¬ (y + 2 > 7)))
        (x + 1) (y + 1) (x + 2) (y + 2) 2 4 0 st).bind fun s0 =>
    (probe grid (decide (¬ (x + 2 > 7) ∧ ¬ (y - 2 < 0)))
        (x + 1) (y - 1) (x + 2) (y - 2) 2 4 1 s0).bind fun s1 =>
    if pieceType = 3 then
      (probe grid (decide (¬ (x - 2 < 0) ∧ ¬ (y + 2 > 7)))
          (x - 1) (y + 1) (x - 2) (y + 2) 2 4 2 s1).bind fun s2 =>
      probe grid (decide (¬ (x - 2 < 0) ∧ ¬ (y - 2 < 0)))
          (x - 1) (y - 1) (x - 2) (y - 2) 2 4 3 s2
    else some s1
  else if turn = 2 then
    (probe grid (decide (¬ (x - 2 < 0) ∧ ¬ (y + 2 > 7)))
        (x - 1) (y + 1) (x - 2) (y + 2) 1 3 0 st).bind fun s0 =>
    (probe grid (decide (¬ (x - 2 < 0) ∧ ¬ (y - 2 < 0)))
        (x - 1) (y - 1) (x - 2) (y - 2) 1 3 1 s0).bind fun s1 =>
    if pieceType = 4 then
      (probe grid (decide (¬ (x + 2 > 7) ∧ ¬ (y + 2 > 7)))
          (x + 1) (y + 1) (x + 2) (y + 2) 1 3 2 s1).bind fun s2 =>
      probe grid (decide (¬ (x + 2 > 7) ∧ ¬ (y - 2 < 0)))
          (x + 1) (y - 1) (x + 2) (y - 2) 1 3 3 s2
    else some s1
  else some st

/-- The function `isDoubleJumpAvailable` with the guard of lines 848-853 removed: the read
of `pieceType` (line 840), then the search. -/
def isDoubleJumpAvailableNoGuard (x y turn : Int) (grid : Grid) : Option (Bool × JumpReg) :=
  (cell grid x y).bind fun pieceType => isDoubleJumpAvailableNoGuardBody pieceType x y turn grid

/-- A read of `grid[x][y]` whose indices may leave the array: on the board it is the cell,
elsewhere it is `off x y`, which stands for whatever value such a read yields. -/
def readAt (off : Int → Int → Int) (grid : Grid) (x y : Int) : Int :=
  if inRange x y then grid (idx x) (idx y) else off x y

/-- The test of line 848 with its reads done by `readAt`: a read that leaves the array
yields the value `off` gives it. -/
def edgeGuardAt (off : Int → Int → Int) (x y : Int) (grid : Grid) : Bool :=
  decide
    ((x = 1 ∧
        ¬ ((readAt off grid (x + 1) (y + 1) ≠ 0 ∧ readAt off grid (x + 2) (y + 2) = 0) ∨
          (readAt off grid (x + 1) (y - 1) ≠ 0 ∧ readAt off grid (x + 2) (y - 2) = 0))) ∨
      (x = 7 ∧
        ¬ ((readAt off grid (x - 1) (y - 1) ≠ 0 ∧ readAt off grid (x - 2) (y - 2) = 0) ∨
          (readAt off grid (x - 1) (y + 1) ≠ 0 ∧ readAt off grid (x - 2) (y + 2) = 0))))

/-- The function `isDoubleJumpAvailable` (lines 838-999) as it runs when the reads of its
guard that leave the array yield the values `off` gives them: `pieceType = grid[x][y]` is
read (line 840), the guard returns false early (line 849, the registry is left as it
is), otherwise the registry is reset and the search runs (lines 855-998). -/
def isDoubleJumpAvailableAt (off : Int → Int → Int) (x y turn : Int) (grid : Grid)
    (jumpReg : JumpReg) : Option (Bool × JumpReg) :=
  (cell grid x y).bind fun pieceType =>
    if edgeGuardAt off x y grid then some (false, jumpReg)
    else isDoubleJumpAvailableNoGuardBody pieceType x y turn grid

/-- A chain of `n` jumps by `turn` as `main` and `grantDoubleJump` carry it out, from a board
and a position to a board and a position: before each jump `isDoubleJumpAvailable` answers
true and fills the registry, the destination is an entry of the registry other than the
sentinel, `validMove` accepts it and the piece is relocated. -/
inductive ChainRun (turn : Int) : Grid → Int → Int → Nat → Grid → Int → Int → Prop where
  /-- No jump. -/
  | done (grid : Grid) (x y : Int) : ChainRun turn grid x y 0 grid x y
  /-- One jump, then a chain of `n` jumps. -/
  | jump (grid : Grid) (x y : Int) (reg0 reg : JumpReg) (i : Fin 4) (pieces pieces1 : Int)
      (grid1 grid2 : Grid) (n : Nat) (grid3 : Grid) (x3 y3 : Int)
      (havail : isDoubleJumpAvailable x y turn grid reg0 = some (true, reg))
      (hentry : reg i ≠ (-1, -1))
      (hvalid : validMove x (reg i).1 y (reg i).2 turn grid pieces = some (true, grid1, pieces1))
      (hmove : relocateChain turn x y (reg i).1 (reg i).2 grid1 =
        some (grid2, (reg i).1, (reg i).2))
      (hrest : ChainRun turn grid2 (reg i).1 (reg i).2 n grid3 x3 y3) :
      ChainRun turn grid x y (n + 1) grid3 x3 y3

/-- A position in which player 1's man has just jumped from (5,2) over (6,1) to (7,0) and
has been crowned there. -/
def crownGrid : Grid := ofRows
  [[0, 1, 0, 1, 0, 1, 0, 1],
   [1, 0, 1, 0, 1, 0, 1, 0],
   [0, 0, 0, 1, 0, 1, 0, 1],
   [0, 0, 0, 0, 0, 0, 0, 0],
   [0, 0, 0, 0, 0, 2, 0, 0],
   [2, 0, 0, 0, 0, 0, 2, 0],
   [0, 0, 0, 2, 0, 2, 0, 2],
   [3, 0, 0, 0, 2, 0, 2, 0]]

/-- A position in which player 1's man has just jumped from (5,4) over (6,5) to (7,6) and
has been crowned there; player 2 has a man on (6,7). -/
def crownGridB : Grid := ofRows
  [[0, 1, 0, 1, 0, 1, 0, 1],
   [1, 0, 1, 0, 1, 0, 1, 0],
   [0, 0, 0, 1, 0, 1, 0, 1],
   [0, 0, 0, 0, 0, 0, 0, 0],
   [0, 2, 0, 0, 0, 0, 0, 0],
   [2, 0, 2, 0, 0, 0, 0, 0],
   [0, 2, 0, 2, 0, 0, 0, 2],
   [2, 0, 2, 0, 0, 0, 3, 0]]

/-! ## Reading and writing cells -/

theorem idx_inj {x a : Int} (hx : 0 ≤ x ∧ x ≤ 7) (ha : 0 ≤ a ∧ a ≤ 7) :
    idx x = idx a ↔ x = a := by
  unfold idx
  rw [Fin.mk.injEq]
  omega

theorem cell_some (grid : Grid) {x y : Int} (h : inRange x y) :
    cell grid x y = some (grid (idx x) (idx y)) := by
  simp [cell, h]

theorem cell_none {grid : Grid} {x y : Int} (h : ¬ inRange x y) :
    cell grid x y = none := by
  simp [cell, h]

theorem cell_inRange {grid : Grid} {x y v : Int} (h : cell grid x y = some v) :
    inRange x y := by
  by_contra hn
  rw [cell_none hn] at h
  exact Option.noConfusion h

theorem setCell_some {grid : Grid} {x y : Int} (v : Int) (h : inRange x y) :
    setCell grid x y v = some (upd grid x y v) := by
  simp [setCell, h]

theorem cell_upd_same {grid : Grid} {a b : Int} (v : Int) (h : inRange a b) :
    cell (upd grid a b v) a b = some v := by
  simp [cell, h, upd]

theorem cell_upd_other {grid : Grid} {a b x y : Int} (v : Int) (h : inRange a b)
    (hne : ¬ (x = a ∧ y = b)) : cell (upd grid a b v) x y = cell grid x y := by
  by_cases hxy : inRange x y
  · have h1 : ¬ (idx x = idx a ∧ idx y = idx b) := by
      unfold inRange at h hxy
      rw [idx_inj ⟨hxy.1, hxy.2.1⟩ ⟨h.1, h.2.1⟩, idx_inj ⟨hxy.2.2.1, hxy.2.2.2⟩ ⟨h.2.2.1, h.2.2.2⟩]
      exact hne
    simp [cell, hxy, upd, h1]
  · rw [cell_none hxy, cell_none hxy]

theorem wellFormed_cell {grid : Grid} (hw : wellFormed grid) {x y v : Int}
    (h : cell grid x y = some v) : 0 ≤ v ∧ v ≤ 4 := by
  have hr := cell_inRange h
  rw [cell_some _ hr] at h
  cases h
  exact hw _ _

/-- What the jumped-square block does when the jumped square holds `m`. -/
theorem captureAt_eq {grid : Grid} {a b m : Int} (turn pieces : Int)
    (h : cell grid a b = some m) :
    captureAt a b turn grid pieces =
      if m = 0 ∨ m = turn ∨ m = turn + 2 ∨ m = turn - 2 then some (false, grid, pieces)
      else some (true, upd grid a b 0, pieces - 1) := by
  have hr := cell_inRange h
  unfold captureAt
  rw [h, setCell_some 0 hr]
  by_cases h0 : m = 0
  · simp [h0]
  · by_cases h1 : m = turn ∨ m = turn + 2 ∨ m = turn - 2
    · simp [h0, h1]
    · simp [h0, h1]

/-! ## The outcomes of `validMove` -/

/-- An occupied destination: the first test of `validMove` answers false. -/
theorem validMove_occupied {grid : Grid} {xTo yTo d : Int} (xFrom yFrom turn pieces : Int)
    (hto : cell grid xTo yTo = some d) (hd : d ≠ 0) :
    validMove xFrom xTo yFrom yTo turn grid pieces = some (false, grid, pieces) := by
  unfold validMove
  rw [hto]
  simp [hd]

/-- The body of `validMove` once an empty destination and the source have been read. -/
theorem validMove_eq {grid : Grid} {xFrom xTo yFrom yTo s : Int} (turn pieces : Int)
    (hto : cell grid xTo yTo = some 0) (hfrom : cell grid xFrom yFrom = some s) :
    validMove xFrom xTo yFrom yTo turn grid pieces =
      if (xTo = xFrom + 1 ∨ xTo = xFrom + 2) ∧
          (yTo = yFrom + 1 ∨ yTo = yFrom - 1 ∨ yTo = yFrom + 2 ∨ yTo = yFrom - 2) then
        if s = 2 then some (false, grid, pieces)
        else if (yTo = yFrom + 2 ∨ yTo = yFrom - 2) ∧ ¬ (xTo = xFrom + 2) then
          some (false, grid, pieces)
        else if xTo = xFrom + 2 then
          if yTo < yFrom then captureAt (xTo - 1) (yTo + 1) turn grid pieces
          else captureAt (xTo - 1) (yTo - 1) turn grid pieces
        else some (true, grid, pieces)
      else
        if s = 1 then some (false, grid, pieces)
        else if yTo = yFrom ∨ yTo > yFrom + 2 ∨ yTo < yFrom - 2 then some (false, grid, pieces)
        else if (yTo = yFrom + 2 ∨ yTo = yFrom - 2) ∧ (xTo = xFrom + 1 ∨ xTo = xFrom - 1) then
          some (false, grid, pieces)
        else if xTo = xFrom - 2 then
          if yTo < yFrom then captureAt (xTo + 1) (yTo + 1) turn grid pieces
          else captureAt (xTo + 1) (yTo - 1) turn grid pieces
        else some (true, grid, pieces) := by
  unfold validMove
  rw [hto, hfrom]
  rfl

/-- The two outcomes of the jumped-square block on an in-range square. -/
theorem captureAt_cases (grid : Grid) {a b : Int} (turn pieces : Int) (h : inRange a b) :
    captureAt a b turn grid pieces = some (false, grid, pieces) ∨
    ∃ m, captureAt a b turn grid pieces = some (true, upd grid a b 0, pieces - 1) ∧
      cell grid a b = some m ∧ m ≠ 0 ∧ m ≠ turn ∧ m ≠ turn + 2 ∧ m ≠ turn - 2 := by
  rw [captureAt_eq turn pieces (cell_some grid h)]
  by_cases hm : grid (idx a) (idx b) = 0 ∨ grid (idx a) (idx b) = turn ∨
      grid (idx a) (idx b) = turn + 2 ∨ grid (idx a) (idx b) = turn - 2
  · left; rw [if_pos hm]
  · right
    rw [if_neg hm]
    refine ⟨_, rfl, cell_some grid h, ?_, ?_, ?_, ?_⟩ <;> intro hh <;> apply hm <;> simp [hh]

/-- The three possible outcomes of `validMove` on in-range squares: rejection with nothing
changed, acceptance with nothing changed (the row distance is not two), or acceptance of a
two-row move with the jumped square `((xFrom+xTo)/2, b)` emptied and the counter decremented;
`b` is the column next to the destination on the side of the source, and the jumped square
held something other than 0, `turn`, `turn + 2` and `turn - 2`. -/
theorem validMove_cases (xFrom xTo yFrom yTo turn : Int) (grid : Grid) (pieces : Int)
    (hfrom : inRange xFrom yFrom) (hto : inRange xTo yTo) :
    validMove xFrom xTo yFrom yTo turn grid pieces = some (false, grid, pieces) ∨
    (validMove xFrom xTo yFrom yTo turn grid pieces = some (true, grid, pieces) ∧
      cell grid xTo yTo = some 0 ∧ xTo ≠ xFrom + 2 ∧ xTo ≠ xFrom - 2) ∨
    (∃ b m, validMove xFrom xTo yFrom yTo turn grid pieces =
        some (true, upd grid ((xFrom + xTo) / 2) b 0, pieces - 1) ∧
      cell grid xTo yTo = some 0 ∧ (xTo = xFrom + 2 ∨ xTo = xFrom - 2) ∧
      (b = yTo + 1 ∧ yTo < yFrom ∨ b = yTo - 1 ∧ yFrom < yTo) ∧
      yTo - yFrom ≤ 2 ∧ yFrom - yTo ≤ 2 ∧
      cell grid ((xFrom + xTo) / 2) b = some m ∧
      m ≠ 0 ∧ m ≠ turn ∧ m ≠ turn + 2 ∧ m ≠ turn - 2) := by
  have hs := cell_some grid hfrom
  have hd := cell_some grid hto
  by_cases hd0 : grid (idx xTo) (idx yTo) = 0
  swap
  · left; exact validMove_occupied _ _ _ _ hd hd0
  rw [hd0] at hd
  rw [validMove_eq turn pieces hd hs]
  unfold inRange at hfrom hto
  split_ifs
  all_goals first
    | exact Or.inl rfl
    | exact Or.inr (Or.inl ⟨rfl, hd, by omega, by omega⟩)
    | (have e : (xFrom + xTo) / 2 = xTo - 1 := by omega
       have hm : inRange (xTo - 1) (yTo + 1) := by unfold inRange; omega
       rw [e]
       rcases captureAt_cases grid turn pieces hm with h | ⟨m, h, h1, h2⟩
       · exact Or.inl h
       · exact Or.inr (Or.inr ⟨yTo + 1, m, h, hd, by omega, by omega, by omega, by omega, h1, h2⟩))
    | (have e : (xFrom + xTo) / 2 = xTo - 1 := by omega
       have hm : inRange (xTo - 1) (yTo - 1) := by unfold inRange; omega
       rw [e]
       rcases captureAt_cases grid turn pieces hm with h | ⟨m, h, h1, h2⟩
       · exact Or.inl h
       · exact Or.inr (Or.inr ⟨yTo - 1, m, h, hd, by omega, by omega, by omega, by omega, h1, h2⟩))
    | (have e : (xFrom + xTo) / 2 = xTo + 1 := by omega
       have hm : inRange (xTo + 1) (yTo + 1) := by unfold inRange; omega
       rw [e]
       rcases captureAt_cases grid turn pieces hm with h | ⟨m, h, h1, h2⟩
       · exact Or.inl h
       · exact Or.inr (Or.inr ⟨yTo + 1, m, h, hd, by omega, by omega, by omega, by omega, h1, h2⟩))
    | (have e : (xFrom + xTo) / 2 = xTo + 1 := by omega
       have hm : inRange (xTo + 1) (yTo - 1) := by unfold inRange; omega
       rw [e]
       rcases captureAt_cases grid turn pieces hm with h | ⟨m, h, h1, h2⟩
       · exact Or.inl h
       · exact Or.inr (Or.inr ⟨yTo - 1, m, h, hd, by omega, by omega, by omega, by omega, h1, h2⟩))

/-- The function `arrangeGrid` always succeeds and yields the starting position, whatever
the array held before. -/
theorem arrangeGrid_eq (g0 : Grid) : arrangeGrid g0 = some initialGrid := by
  have h : (arrangeGrid g0).isSome = true := rfl
  obtain ⟨g, hg⟩ := Option.isSome_iff_exists.mp h
  have hget : g = (arrangeGrid g0).get h := by simp [hg]
  rw [hg]
  congr 1
  funext i j
  rw [hget]
  fin_cases i <;> fin_cases j <;> rfl

/-- Emptying a square removes at most the piece that stood there from a player's count. -/
theorem piecesOf_upd_zero {grid : Grid} {a b m : Int} (k : Int) (hk : k ≠ 0) (hk2 : k + 2 ≠ 0)
    (h : cell grid a b = some m) :
    piecesOf k (upd grid a b 0) + (if m = k ∨ m = k + 2 then 1 else 0) = piecesOf k grid := by
  have hr := cell_inRange h
  rw [cell_some _ hr] at h
  injection h with h
  unfold piecesOf
  have hset : (Finset.univ.filter fun c : Fin 8 × Fin 8 =>
        upd grid a b 0 c.1 c.2 = k ∨ upd grid a b 0 c.1 c.2 = k + 2) =
      (Finset.univ.filter fun c : Fin 8 × Fin 8 =>
        grid c.1 c.2 = k ∨ grid c.1 c.2 = k + 2).erase (idx a, idx b) := by
    ext ⟨i, j⟩
    simp only [Finset.mem_filter, Finset.mem_univ, true_and, Finset.mem_erase, upd,
      Prod.mk.injEq, ne_eq]
    by_cases hc : i = idx a ∧ j = idx b
    · rw [if_pos hc]
      constructor
      · intro h0
        rcases h0 with h0 | h0
        · exact absurd h0.symm hk
        · exact absurd h0.symm hk2
      · intro h0
        exact absurd hc h0.1
    · rw [if_neg hc]
      exact ⟨fun h0 => ⟨hc, h0⟩, fun h0 => h0.2⟩
  rw [hset]
  by_cases hm : m = k ∨ m = k + 2
  · rw [if_pos hm]
    apply Finset.card_erase_add_one
    simp only [Finset.mem_filter, Finset.mem_univ, true_and]
    rw [h]
    exact hm
  · rw [if_neg hm, Nat.add_zero, Finset.erase_eq_of_not_mem]
    simp only [Finset.mem_filter, Finset.mem_univ, true_and]
    rw [h]
    exact hm

/-- A move onto the square it starts from is always refused. -/
theorem validMove_same_square (x y turn : Int) (grid : Grid) (pieces : Int)
    (hr : inRange x y) :
    validMove x x y y turn grid pieces = some (false, grid, pieces) := by
  by_cases h0 : grid (idx x) (idx y) = 0
  · have hc := cell_some grid hr
    rw [h0] at hc
    rw [validMove_eq turn pieces hc hc]
    have h1 : ¬ ((x = x + 1 ∨ x = x + 2) ∧ (y = y + 1 ∨ y = y - 1 ∨ y = y + 2 ∨ y = y - 2)) := by
      omega
    rw [if_neg h1, if_neg (by decide), if_pos (Or.inl rfl)]
  · exact validMove_occupied _ _ _ _ (cell_some grid hr) h0

/-- The two writes of a relocation, on distinct in-range squares: the destination holds
`v`, the source 0, every other square what it held. -/
theorem relocation_writes (grid : Grid) {xFrom xTo yFrom yTo : Int} (v : Int)
    (hfrom : inRange xFrom yFrom) (hto : inRange xTo yTo)
    (hne : ¬ (xTo = xFrom ∧ yTo = yFrom)) :
    (setCell grid xTo yTo v).bind (fun g1 => setCell g1 xFrom yFrom 0) =
        some (upd (upd grid xTo yTo v) xFrom yFrom 0) ∧
      cell (upd (upd grid xTo yTo v) xFrom yFrom 0) xTo yTo = some v ∧
      cell (upd (upd grid xTo yTo v) xFrom yFrom 0) xFrom yFrom = some 0 ∧
      ∀ x y, ¬ (x = xTo ∧ y = yTo) → ¬ (x = xFrom ∧ y = yFrom) →
        cell (upd (upd grid xTo yTo v) xFrom yFrom 0) x y = cell grid x y := by
  refine ⟨?_, ?_, cell_upd_same 0 hfrom, ?_⟩
  · rw [setCell_some v hto, Option.some_bind, setCell_some 0 hfrom]
  · rw [cell_upd_other 0 hfrom hne, cell_upd_same v hto]
  · intro x y h1 h2
    rw [cell_upd_other 0 hfrom h2, cell_upd_other v hto h1]

/-! ## The search of `isDoubleJumpAvailable` -/

/-- A search block keeps "every entry is the sentinel or satisfies `Q`, and if `retVal` is
true some entry satisfies `Q`", provided the square it may register satisfies `Q`. -/
theorem probe_inv {grid : Grid} {ok : Bool} {mx my lx ly a b : Int} {slot : Fin 4}
    {st st1 : Bool × JumpReg} (Q : Int × Int → Prop)
    (hQ : ok = true → ∀ m, cell grid mx my = some m → (m = a ∨ m = b) →
      cell grid lx ly = some 0 → Q (lx, ly))
    (hst : (∀ i, st.2 i = (-1, -1) ∨ Q (st.2 i)) ∧ (st.1 = true → ∃ i, Q (st.2 i)))
    (h : probe grid ok mx my lx ly a b slot st = some st1) :
    (∀ i, st1.2 i = (-1, -1) ∨ Q (st1.2 i)) ∧ (st1.1 = true → ∃ i, Q (st1.2 i)) := by
  unfold probe at h
  by_cases hok : ok = true
  · rw [if_pos hok] at h
    rcases hm : cell grid mx my with _ | m
    · rw [hm] at h
      exact Option.noConfusion h
    · rw [hm, Option.some_bind] at h
      by_cases hab : m = a ∨ m = b
      · rw [if_pos hab] at h
        rcases hl : cell grid lx ly with _ | l
        · rw [hl] at h
          exact Option.noConfusion h
        · rw [hl, Option.some_bind] at h
          by_cases h0 : l = 0
          · rw [if_pos h0] at h
            injection h with h
            rw [← h]
            rw [h0] at hl
            have hnew : Q (lx, ly) := hQ hok m hm hab hl
            refine ⟨fun i => ?_, fun _ => ⟨slot, ?_⟩⟩
            · by_cases hi : i = slot
              · right
                rw [hi]
                simp only [Function.update_same]
                exact hnew
              · simp only [Function.update_noteq hi]
                exact hst.1 i
            · simp only [Function.update_same]
              exact hnew
          · rw [if_neg h0] at h
            injection h with h
            rw [← h]
            exact hst
      · rw [if_neg hab] at h
        injection h with h
        rw [← h]
        exact hst
  · rw [if_neg hok] at h
    injection h with h
    rw [← h]
    exact hst

/-- A search block never turns `retVal` back to false. -/
theorem probe_true {grid : Grid} {ok : Bool} {mx my lx ly a b : Int} {slot : Fin 4}
    {r : JumpReg} {st1 : Bool × JumpReg}
    (h : probe grid ok mx my lx ly a b slot (true, r) = some st1) : st1.1 = true := by
  unfold probe at h
  split_ifs at h
  · rcases hm : cell grid mx my with _ | m
    · rw [hm] at h
      exact Option.noConfusion h
    · rw [hm, Option.some_bind] at h
      split_ifs at h
      · rcases hl : cell grid lx ly with _ | l
        · rw [hl] at h
          exact Option.noConfusion h
        · rw [hl, Option.some_bind] at h
          split_ifs at h <;> (injection h with h; rw [← h])
      · injection h with h
        rw [← h]
  · injection h with h
    rw [← h]

/-- Every entry of the registry that `isDoubleJumpAvailable` returns with `true` is the
sentinel or a capturing continuation, and at least one entry is a capturing continuation. -/
theorem registry_sound {grid : Grid} {x y turn : Int} {reg0 reg : JumpReg}
    (h : isDoubleJumpAvailable x y turn grid reg0 = some (true, reg)) :
    (∀ i, reg i = (-1, -1) ∨ qualifies grid x y turn (reg i)) ∧
    ∃ i, qualifies grid x y turn (reg i) := by
  unfold isDoubleJumpAvailable at h
  rcases hp : cell grid x y with _ | pieceType
  · rw [hp] at h
    exact Option.noConfusion h
  rw [hp, Option.some_bind] at h
  unfold isDoubleJumpAvailableBody at h
  rcases hg : edgeGuard x y grid with _ | early
  · rw [hg] at h
    exact Option.noConfusion h
  rw [hg, Option.some_bind] at h
  cases early
  swap
  · simp at h
  simp only [Bool.false_eq_true, if_false, ite_self] at h
  have h0 : (∀ i, ((false, clearedReg) : Bool × JumpReg).2 i = (-1, -1) ∨
        qualifies grid x y turn (((false, clearedReg) : Bool × JumpReg).2 i)) ∧
      (((false, clearedReg) : Bool × JumpReg).1 = true →
        ∃ i, qualifies grid x y turn (((false, clearedReg) : Bool × JumpReg).2 i)) :=
    ⟨fun i => Or.inl rfl, fun hf => Bool.noConfusion hf⟩
  have hhalf : ∀ v : Int, (v + (v + 2)) / 2 = v + 1 ∧ (v + (v - 2)) / 2 = v - 1 := by
    intro v; omega
  by_cases ht1 : turn = 1
  · subst ht1
    rw [if_pos rfl] at h
    simp only [Option.bind_eq_some] at h
    obtain ⟨s0, hs0, s1, hs1, h⟩ := h
    have i0 := probe_inv (qualifies grid x y 1) (fun _ m hm hab hl => by
      refine ⟨Or.inl rfl, Or.inl rfl, hl, ?_, fun _ => rfl⟩
      simp only [(hhalf x).1, (hhalf y).1, hm]
      rcases hab with hab | hab <;> simp [hab]) h0 hs0
    have i1 := probe_inv (qualifies grid x y 1) (fun _ m hm hab hl => by
      refine ⟨Or.inl rfl, Or.inr rfl, hl, ?_, fun _ => rfl⟩
      simp only [(hhalf x).1, (hhalf y).2, hm]
      rcases hab with hab | hab <;> simp [hab]) i0 hs1
    by_cases hk : pieceType = 3
    · subst hk
      rw [if_pos rfl] at h
      simp only [Option.bind_eq_some] at h
      obtain ⟨s2, hs2, h⟩ := h
      have i2 := probe_inv (qualifies grid x y 1) (fun _ m hm hab hl => by
        refine ⟨Or.inr rfl, Or.inl rfl, hl, ?_, fun hne => absurd hp hne⟩
        simp only [(hhalf x).2, (hhalf y).1, hm]
        rcases hab with hab | hab <;> simp [hab]) i1 hs2
      have i3 := probe_inv (qualifies grid x y 1) (fun _ m hm hab hl => by
        refine ⟨Or.inr rfl, Or.inr rfl, hl, ?_, fun hne => absurd hp hne⟩
        simp only [(hhalf x).2, (hhalf y).2, hm]
        rcases hab with hab | hab <;> simp [hab]) i2 h
      exact ⟨i3.1, i3.2 rfl⟩
    · rw [if_neg hk] at h
      injection h with h
      rw [h] at i1
      exact ⟨i1.1, i1.2 rfl⟩
  · rw [if_neg ht1] at h
    by_cases ht2 : turn = 2
    · subst ht2
      rw [if_pos rfl] at h
      simp only [Option.bind_eq_some] at h
      obtain ⟨s0, hs0, s1, hs1, h⟩ := h
      have i0 := probe_inv (qualifies grid x y 2) (fun _ m hm hab hl => by
        refine ⟨Or.inr rfl, Or.inl rfl, hl, ?_, fun _ => rfl⟩
        simp only [(hhalf x).2, (hhalf y).1, hm]
        rcases hab with hab | hab <;> simp [hab]) h0 hs0
      have i1 := probe_inv (qualifies grid x y 2) (fun _ m hm hab hl => by
        refine ⟨Or.inr rfl, Or.inr rfl, hl, ?_, fun _ => rfl⟩
        simp only [(hhalf x).2, (hhalf y).2, hm]
        rcases hab with hab | hab <;> simp [hab]) i0 hs1
      by_cases hk : pieceType = 4
      · subst hk
        rw [if_pos rfl] at h
        simp only [Option.bind_eq_some] at h
        obtain ⟨s2, hs2, h⟩ := h
        have i2 := probe_inv (qualifies grid x y 2) (fun _ m hm hab hl => by
          refine ⟨Or.inl rfl, Or.inl rfl, hl, ?_, fun hne => absurd hp hne⟩
          simp only [(hhalf x).1, (hhalf y).1, hm]
          rcases hab with hab | hab <;> simp [hab]) i1 hs2
        have i3 := probe_inv (qualifies grid x y 2) (fun _ m hm hab hl => by
          refine ⟨Or.inl rfl, Or.inr rfl, hl, ?_, fun hne => absurd hp hne⟩
          simp only [(hhalf x).1, (hhalf y).2, hm]
          rcases hab with hab | hab <;> simp [hab]) i2 h
        exact ⟨i3.1, i3.2 rfl⟩
      · rw [if_neg hk] at h
        injection h with h
        rw [h] at i1
        exact ⟨i1.1, i1.2 rfl⟩
    · rw [if_neg ht2] at h
      simp at h

/-- A search block whose bounds test passes and whose two squares fit registers the landing
square in its entry and sets `retVal`. -/
theorem probe_hit {grid : Grid} {ok : Bool} {mx my lx ly a b : Int} {slot : Fin 4}
    {st st1 : Bool × JumpReg} (hok : ok = true)
    (hm : cell grid mx my = some a ∨ cell grid mx my = some b)
    (hl : cell grid lx ly = some 0)
    (h : probe grid ok mx my lx ly a b slot st = some st1) :
    st1.1 = true ∧ st1.2 slot = (lx, ly) := by
  unfold probe at h
  rw [if_pos hok] at h
  rcases hm with hm | hm
  · rw [hm, Option.some_bind, if_pos (Or.inl rfl), hl, Option.some_bind, if_pos rfl] at h
    injection h with h
    rw [← h]
    exact ⟨rfl, Function.update_same _ _ _⟩
  · rw [hm, Option.some_bind, if_pos (Or.inr rfl), hl, Option.some_bind, if_pos rfl] at h
    injection h with h
    rw [← h]
    exact ⟨rfl, Function.update_same _ _ _⟩

/-- A search block leaves a true `retVal` and the other entries of the registry alone. -/
theorem probe_keep {grid : Grid} {ok : Bool} {mx my lx ly a b : Int} {slot k : Fin 4}
    {st st1 : Bool × JumpReg} {d : Int × Int} (hk : k ≠ slot)
    (hst : st.1 = true ∧ st.2 k = d)
    (h : probe grid ok mx my lx ly a b slot st = some st1) :
    st1.1 = true ∧ st1.2 k = d := by
  obtain ⟨b0, r0⟩ := st
  simp only at hst
  obtain ⟨hb, hr⟩ := hst
  subst hb
  refine ⟨probe_true h, ?_⟩
  unfold probe at h
  split_ifs at h
  · rcases hm : cell grid mx my with _ | m
    · rw [hm] at h
      exact Option.noConfusion h
    · rw [hm, Option.some_bind] at h
      split_ifs at h
      · rcases hl : cell grid lx ly with _ | l
        · rw [hl] at h
          exact Option.noConfusion h
        · rw [hl, Option.some_bind] at h
          split_ifs at h
          · injection h with h
            rw [← h]
            simp only [Function.update_noteq hk]
            exact hr
          · injection h with h
            rw [← h]
            exact hr
      · injection h with h
        rw [← h]
        exact hr
  · injection h with h
    rw [← h]
    exact hr

/-- The test `grid[a][b] != 0 && grid[c][d] == 0` on an occupied square followed by an
empty one. -/
theorem occupiedThenEmpty_true {grid : Grid} {a b c d m : Int} (hm : cell grid a b = some m)
    (hne : m ≠ 0) (hl : cell grid c d = some 0) :
    occupiedThenEmpty grid a b c d = some true := by
  unfold occupiedThenEmpty
  rw [hm, Option.some_bind, if_pos hne, hl, Option.some_bind]
  rfl

/-- The `||` of two board tests is true as soon as it is defined and one of them is true. -/
theorem orElse_true {p q : Option Bool} {r : Bool} (h : orElse p q = some r)
    (hpq : p = some true ∨ q = some true) : r = true := by
  unfold orElse at h
  rcases p with _ | bp
  · exact Option.noConfusion h
  · rw [Option.some_bind] at h
    cases bp
    · simp only [Bool.false_eq_true, if_false] at h
      rcases hpq with hp | hq
      · injection hp with hp
        exact Bool.noConfusion hp
      · rw [hq] at h
        injection h with h
        exact h.symm
    · simp only [if_true] at h
      injection h with h
      exact h.symm

/-- When a capturing continuation exists from an in-range square, the test of line 848, if
it has a value at all, is false: the early return is not taken. -/
theorem edgeGuard_false_of_jump {grid : Grid} {x y turn : Int} {d : Int × Int} {early : Bool}
    (ht : turn = 1 ∨ turn = 2) (hpos : inRange x y) (hq : qualifies grid x y turn d)
    (hg : edgeGuard x y grid = some early) : early = false := by
  obtain ⟨d1, d2⟩ := d
  obtain ⟨hx, hy, hl, hm, _⟩ := hq
  simp only at hx hy hl hm
  have hdr := cell_inRange hl
  have hmid : ∃ m, cell grid ((x + d1) / 2) ((y + d2) / 2) = some m ∧ m ≠ 0 := by
    rcases hm with hm | hm
    · exact ⟨_, hm, by omega⟩
    · exact ⟨_, hm, by omega⟩
  obtain ⟨m, hm1, hm0⟩ := hmid
  unfold inRange at hpos hdr
  unfold edgeGuard at hg
  by_cases h1 : x = 1
  · subst h1
    have hd1 : d1 = 1 + 2 := by omega
    subst hd1
    rw [if_pos rfl, if_neg (by decide)] at hg
    rcases hab : orElse (occupiedThenEmpty grid (1 + 1) (y + 1) (1 + 2) (y + 2))
        (occupiedThenEmpty grid (1 + 1) (y - 1) (1 + 2) (y - 2)) with _ | r
    · rw [hab] at hg
      exact Option.noConfusion hg
    · have hr : r = true := by
        apply orElse_true hab
        rcases hy with hy | hy
        · subst hy
          left
          have e2 : (y + (y + 2)) / 2 = y + 1 := by omega
          rw [e2] at hm1
          exact occupiedThenEmpty_true hm1 hm0 hl
        · subst hy
          right
          have e2 : (y + (y - 2)) / 2 = y - 1 := by omega
          rw [e2] at hm1
          exact occupiedThenEmpty_true hm1 hm0 hl
      rw [hab, hr] at hg
      injection hg with hg
      exact hg.symm
  · rw [if_neg h1] at hg
    by_cases h7 : x = 7
    · subst h7
      have hd1 : d1 = 7 - 2 := by omega
      subst hd1
      rw [if_pos rfl] at hg
      rcases hab : orElse (occupiedThenEmpty grid (7 - 1) (y - 1) (7 - 2) (y - 2))
          (occupiedThenEmpty grid (7 - 1) (y + 1) (7 - 2) (y + 2)) with _ | r
      · rw [hab] at hg
        exact Option.noConfusion hg
      · have hr : r = true := by
          apply orElse_true hab
          rcases hy with hy | hy
          · subst hy
            right
            have e2 : (y + (y + 2)) / 2 = y + 1 := by omega
            rw [e2] at hm1
            exact occupiedThenEmpty_true hm1 hm0 hl
          · subst hy
            left
            have e2 : (y + (y - 2)) / 2 = y - 1 := by omega
            rw [e2] at hm1
            exact occupiedThenEmpty_true hm1 hm0 hl
        rw [hab, hr] at hg
        injection hg with hg
        exact hg.symm
    · rw [if_neg h7] at hg
      injection hg with hg
      exact hg.symm
/-- Every capturing continuation from an in-range square is found: if the call has a result
at all, the result is true and the continuation is in the registry. -/
theorem registry_complete {grid : Grid} {x y turn : Int} {reg0 reg : JumpReg} {b : Bool}
    {d : Int × Int} (ht : turn = 1 ∨ turn = 2) (hpos : inRange x y)
    (hq : qualifies grid x y turn d)
    (h : isDoubleJumpAvailable x y turn grid reg0 = some (b, reg)) :
    b = true ∧ ∃ i, reg i = d := by
  unfold isDoubleJumpAvailable at h
  have hp := cell_some grid hpos
  rw [hp, Option.some_bind] at h
  unfold isDoubleJumpAvailableBody at h
  rcases hg : edgeGuard x y grid with _ | early
  · rw [hg] at h
    exact Option.noConfusion h
  rw [hg, Option.some_bind, edgeGuard_false_of_jump ht hpos hq hg] at h
  simp only [Bool.false_eq_true, if_false, ite_self] at h
  obtain ⟨d1, d2⟩ := d
  obtain ⟨hx, hy, hl, hm, hdir⟩ := hq
  simp only at hx hy hl hm hdir
  have hdr := cell_inRange hl
  unfold inRange at hdr hpos
  have key : ∀ st : Bool × JumpReg, ∀ k : Fin 4, (st.1 = true ∧ st.2 k = (d1, d2)) →
      st = (b, reg) → b = true ∧ ∃ i, reg i = (d1, d2) := by
    intro st k hst he
    rw [he] at hst
    exact ⟨hst.1, k, hst.2⟩
  rcases ht with ht | ht
  · subst ht
    rw [if_pos rfl] at h
    simp only [Option.bind_eq_some] at h
    obtain ⟨s0, hs0, s1, hs1, h⟩ := h
    rcases hx with hx | hx
    · subst hx
      have e1 : (x + (x + 2)) / 2 = x + 1 := by omega
      rw [e1] at hm
      have hfin : (s1.1 = true ∧ s1.2 0 = (x + 2, d2)) ∨ (s1.1 = true ∧ s1.2 1 = (x + 2, d2)) := by
        rcases hy with hy | hy
        · subst hy
          have e2 : (y + (y + 2)) / 2 = y + 1 := by omega
          rw [e2] at hm
          left
          exact probe_keep (by decide)
            (probe_hit (decide_eq_true (by omega)) hm hl hs0) hs1
        · subst hy
          have e2 : (y + (y - 2)) / 2 = y - 1 := by omega
          rw [e2] at hm
          right
          exact probe_hit (decide_eq_true (by omega)) hm hl hs1
      by_cases hk : grid (idx x) (idx y) = 3
      · rw [if_pos hk] at h
        simp only [Option.bind_eq_some] at h
        obtain ⟨s2, hs2, h⟩ := h
        rcases hfin with hfin | hfin
        · exact key _ 0 (probe_keep (by decide) (probe_keep (by decide) hfin hs2) h) rfl
        · exact key _ 1 (probe_keep (by decide) (probe_keep (by decide) hfin hs2) h) rfl
      · rw [if_neg hk] at h
        injection h with h
        rcases hfin with hfin | hfin
        · exact key _ 0 hfin h
        · exact key _ 1 hfin h
    · subst hx
      have hk : grid (idx x) (idx y) = 3 := by
        by_contra hne
        have := hdir (by rw [hp]; intro hc; injection hc with hc; exact hne hc)
        rw [if_pos rfl] at this
        omega
      rw [if_pos hk] at h
      simp only [Option.bind_eq_some] at h
      obtain ⟨s2, hs2, h⟩ := h
      have e1 : (x + (x - 2)) / 2 = x - 1 := by omega
      rw [e1] at hm
      rcases hy with hy | hy
      · subst hy
        have e2 : (y + (y + 2)) / 2 = y + 1 := by omega
        rw [e2] at hm
        exact key _ 2 (probe_keep (by decide)
          (probe_hit (decide_eq_true (by omega)) hm hl hs2) h) rfl
      · subst hy
        have e2 : (y + (y - 2)) / 2 = y - 1 := by omega
        rw [e2] at hm
        exact key _ 3 (probe_hit (decide_eq_true (by omega)) hm hl h) rfl
  · subst ht
    rw [if_neg (by decide), if_pos rfl] at h
    simp only [Option.bind_eq_some] at h
    obtain ⟨s0, hs0, s1, hs1, h⟩ := h
    rcases hx with hx | hx
    swap
    · subst hx
      have e1 : (x + (x - 2)) / 2 = x - 1 := by omega
      rw [e1] at hm
      have hfin : (s1.1 = true ∧ s1.2 0 = (x - 2, d2)) ∨ (s1.1 = true ∧ s1.2 1 = (x - 2, d2)) := by
        rcases hy with hy | hy
        · subst hy
          have e2 : (y + (y + 2)) / 2 = y + 1 := by omega
          rw [e2] at hm
          left
          exact probe_keep (by decide)
            (probe_hit (decide_eq_true (by omega)) hm hl hs0) hs1
        · subst hy
          have e2 : (y + (y - 2)) / 2 = y - 1 := by omega
          rw [e2] at hm
          right
          exact probe_hit (decide_eq_true (by omega)) hm hl hs1
      by_cases hk : grid (idx x) (idx y) = 4
      · rw [if_pos hk] at h
        simp only [Option.bind_eq_some] at h
        obtain ⟨s2, hs2, h⟩ := h
        rcases hfin with hfin | hfin
        · exact key _ 0 (probe_keep (by decide) (probe_keep (by decide) hfin hs2) h) rfl
        · exact key _ 1 (probe_keep (by decide) (probe_keep (by decide) hfin hs2) h) rfl
      · rw [if_neg hk] at h
        injection h with h
        rcases hfin with hfin | hfin
        · exact key _ 0 hfin h
        · exact key _ 1 hfin h
    · subst hx
      have hk : grid (idx x) (idx y) = 4 := by
        by_contra hne
        have := hdir (by rw [hp]; intro hc; injection hc with hc; exact hne hc)
        rw [if_neg (by decide)] at this
        omega
      rw [if_pos hk] at h
      simp only [Option.bind_eq_some] at h
      obtain ⟨s2, hs2, h⟩ := h
      have e1 : (x + (x + 2)) / 2 = x + 1 := by omega
      rw [e1] at hm
      rcases hy with hy | hy
      · subst hy
        have e2 : (y + (y + 2)) / 2 = y + 1 := by omega
        rw [e2] at hm
        exact key _ 2 (probe_keep (by decide)
          (probe_hit (decide_eq_true (by omega)) hm hl hs2) h) rfl
      · subst hy
        have e2 : (y + (y - 2)) / 2 = y - 1 := by omega
        rw [e2] at hm
        exact key _ 3 (probe_hit (decide_eq_true (by omega)) hm hl h) rfl
/-- What `isDoubleJumpAvailable` answers whenever it has a result, for an in-range position
and either player: true exactly when a capturing continuation exists, and then the
registry holds every capturing continuation and nothing else but sentinels. -/
theorem isDoubleJumpAvailable_result {grid : Grid} {x y turn : Int} {reg0 reg : JumpReg}
    {b : Bool} (ht : turn = 1 ∨ turn = 2) (hpos : inRange x y)
    (h : isDoubleJumpAvailable x y turn grid reg0 = some (b, reg)) :
    (b = true ↔ ∃ d, qualifies grid x y turn d) ∧
    (b = true → ∀ d, qualifies grid x y turn d ↔ (d ≠ (-1, -1) ∧ ∃ i, reg i = d)) := by
  constructor
  · constructor
    · intro hb
      subst hb
      obtain ⟨i, hi⟩ := (registry_sound h).2
      exact ⟨_, hi⟩
    · rintro ⟨d, hd⟩
      exact (registry_complete ht hpos hd h).1
  · intro hb d
    subst hb
    constructor
    · intro hd
      refine ⟨?_, (registry_complete ht hpos hd h).2⟩
      intro hc
      have hr := cell_inRange hd.2.2.1
      rw [hc] at hr
      exact absurd hr (by decide)
    · rintro ⟨hne, i, hi⟩
      rcases (registry_sound h).1 i with h1 | h1
      · rw [hi] at h1
        exact absurd h1 hne
      · rw [hi] at h1
        exact h1

/-- From row 1 or row 6, without a capturing jump to row 3, respectively row 4, the answer
of `isDoubleJumpAvailable`, whenever it has one, is false. -/
theorem row_edge_result {grid : Grid} {x y turn : Int} {reg0 reg : JumpReg} {b : Bool}
    (hpos : inRange x y) (hx : x = 1 ∨ x = 6)
    (hno : ∀ c, (c = y + 2 ∨ c = y - 2) →
      ¬ (cell grid (if x = 1 then 3 else 4) c = some 0 ∧
        (cell grid (if x = 1 then 2 else 5) ((y + c) / 2) = some (3 - turn) ∨
          cell grid (if x = 1 then 2 else 5) ((y + c) / 2) = some (5 - turn))))
    (h : isDoubleJumpAvailable x y turn grid reg0 = some (b, reg)) : b = false := by
  cases b
  · rfl
  · exfalso
    obtain ⟨i, hdx, hdy, hl, hm, _⟩ := (registry_sound h).2
    have hr := cell_inRange hl
    unfold inRange at hr hpos
    rcases hx with hx | hx
    · subst hx
      have h3 : (reg i).1 = 3 := by omega
      rw [h3] at hl hm
      exact hno (reg i).2 hdy ⟨hl, hm⟩
    · subst hx
      have h4 : (reg i).1 = 4 := by omega
      rw [h4] at hl hm
      exact hno (reg i).2 hdy ⟨hl, hm⟩

/-- A search block has a result when its bounds test keeps its two squares on the board. -/
theorem probe_total (grid : Grid) {ok : Bool} {mx my lx ly : Int} (a b : Int) (slot : Fin 4)
    (st : Bool × JumpReg) (hok : ok = true → inRange mx my ∧ inRange lx ly) :
    ∃ st1, probe grid ok mx my lx ly a b slot st = some st1 := by
  unfold probe
  by_cases h : ok = true
  · rw [if_pos h, cell_some grid (hok h).1, Option.some_bind, cell_some grid (hok h).2,
      Option.some_bind]
    split_ifs <;> exact ⟨_, rfl⟩
  · rw [if_neg h]
    exact ⟨_, rfl⟩

/-- The test of line 848 has a value when the row is neither 1 nor 7, or the column is
between 2 and 5. -/
theorem edgeGuard_total (grid : Grid) {x y : Int} (hpos : inRange x y)
    (hsafe : (x ≠ 1 ∧ x ≠ 7) ∨ (2 ≤ y ∧ y ≤ 5)) : ∃ e, edgeGuard x y grid = some e := by
  have hocc : ∀ a b c d, inRange a b → inRange c d →
      ∃ r, occupiedThenEmpty grid a b c d = some r := by
    intro a b c d hab hcd
    unfold occupiedThenEmpty
    rw [cell_some grid hab, Option.some_bind, cell_some grid hcd, Option.some_bind]
    split_ifs <;> exact ⟨_, rfl⟩
  have hor : ∀ p q : Option Bool, (∃ r, p = some r) → (∃ r, q = some r) →
      ∃ r, orElse p q = some r := by
    rintro p q ⟨r1, rfl⟩ ⟨r2, rfl⟩
    unfold orElse
    rw [Option.some_bind]
    split_ifs <;> exact ⟨_, rfl⟩
  unfold inRange at hpos
  unfold edgeGuard
  apply hor
  · by_cases h1 : x = 1
    · rw [if_pos h1]
      obtain ⟨r, hr⟩ := hor _ _
        (hocc (x + 1) (y + 1) (x + 2) (y + 2) (by unfold inRange; omega) (by unfold inRange; omega))
        (hocc (x + 1) (y - 1) (x + 2) (y - 2) (by unfold inRange; omega) (by unfold inRange; omega))
      rw [hr]
      exact ⟨_, rfl⟩
    · rw [if_neg h1]
      exact ⟨_, rfl⟩
  · by_cases h7 : x = 7
    · rw [if_pos h7]
      obtain ⟨r, hr⟩ := hor _ _
        (hocc (x - 1) (y - 1) (x - 2) (y - 2) (by unfold inRange; omega) (by unfold inRange; omega))
        (hocc (x - 1) (y + 1) (x - 2) (y + 2) (by unfold inRange; omega) (by unfold inRange; omega))
      rw [hr]
      exact ⟨_, rfl⟩
    · rw [if_neg h7]
      exact ⟨_, rfl⟩

/-- The call `isDoubleJumpAvailable` has a result for every in-range position whose row is
neither 1 nor 7 or whose column is between 2 and 5. -/
theorem isDoubleJumpAvailable_total (grid : Grid) {x y : Int} (turn : Int) (reg0 : JumpReg)
    (hpos : inRange x y) (hsafe : (x ≠ 1 ∧ x ≠ 7) ∨ (2 ≤ y ∧ y ≤ 5)) :
    ∃ r, isDoubleJumpAvailable x y turn grid reg0 = some r := by
  obtain ⟨e, he⟩ := edgeGuard_total grid hpos hsafe
  unfold isDoubleJumpAvailable
  rw [cell_some grid hpos, Option.some_bind]
  unfold isDoubleJumpAvailableBody
  rw [he, Option.some_bind]
  by_cases hearly : e = true
  · rw [if_pos hearly]
    exact ⟨_, rfl⟩
  rw [if_neg hearly]
  unfold inRange at hpos
  have hb : ∀ (c : Prop) [Decidable c] (mx my lx ly : Int),
      (c → inRange mx my ∧ inRange lx ly) →
      (decide c = true → inRange mx my ∧ inRange lx ly) :=
    fun c _ mx my lx ly hc hd => hc (of_decide_eq_true hd)
  have pt : ∀ (c : Prop) [Decidable c] (mx my lx ly a b : Int) (slot : Fin 4)
      (st : Bool × JumpReg), (c → inRange mx my ∧ inRange lx ly) →
      ∃ st1, probe grid (decide c) mx my lx ly a b slot st = some st1 :=
    fun c _ mx my lx ly a b slot st hc =>
      probe_total grid a b slot st (hb c mx my lx ly hc)
  have r1 : ¬ (x + 2 > 7) ∧ ¬ (y + 2 > 7) → inRange (x + 1) (y + 1) ∧ inRange (x + 2) (y + 2) := by
    intro hc; unfold inRange; omega
  have r2 : ¬ (x + 2 > 7) ∧ ¬ (y - 2 < 0) → inRange (x + 1) (y - 1) ∧ inRange (x + 2) (y - 2) := by
    intro hc; unfold inRange; omega
  have r3 : ¬ (x - 2 < 0) ∧ ¬ (y + 2 > 7) → inRange (x - 1) (y + 1) ∧ inRange (x - 2) (y + 2) := by
    intro hc; unfold inRange; omega
  have r4 : ¬ (x - 2 < 0) ∧ ¬ (y - 2 < 0) → inRange (x - 1) (y - 1) ∧ inRange (x - 2) (y - 2) := by
    intro hc; unfold inRange; omega
  simp only [ite_self]
  by_cases ht1 : turn = 1
  · rw [if_pos ht1]
    obtain ⟨s0, hs0⟩ := pt _ _ _ _ _ 2 4 0 (false, clearedReg) r1
    rw [hs0, Option.some_bind]
    obtain ⟨s1, hs1⟩ := pt _ _ _ _ _ 2 4 1 s0 r2
    rw [hs1, Option.some_bind]
    split_ifs
    · obtain ⟨s2, hs2⟩ := pt _ _ _ _ _ 2 4 2 s1 r3
      rw [hs2, Option.some_bind]
      exact pt _ _ _ _ _ 2 4 3 s2 r4
    · exact ⟨_, rfl⟩
  · rw [if_neg ht1]
    by_cases ht2 : turn = 2
    · rw [if_pos ht2]
      obtain ⟨s0, hs0⟩ := pt _ _ _ _ _ 1 3 0 (false, clearedReg) r3
      rw [hs0, Option.some_bind]
      obtain ⟨s1, hs1⟩ := pt _ _ _ _ _ 1 3 1 s0 r4
      rw [hs1, Option.some_bind]
      split_ifs
      · obtain ⟨s2, hs2⟩ := pt _ _ _ _ _ 1 3 2 s1 r1
        rw [hs2, Option.some_bind]
        exact pt _ _ _ _ _ 1 3 3 s2 r2
      · exact ⟨_, rfl⟩
    · rw [if_neg ht2]
      exact ⟨_, rfl⟩

/-- A capturing jump in an allowed direction is accepted: the result of `validMove`. -/
theorem validMove_jump {grid : Grid} {xFrom xTo yFrom yTo turn s m : Int} (pieces : Int)
    (ht : turn = 1 ∨ turn = 2)
    (hfrom : cell grid xFrom yFrom = some s)
    (hto : cell grid xTo yTo = some 0)
    (hx : xTo = xFrom + 2 ∨ xTo = xFrom - 2) (hy : yTo = yFrom + 2 ∨ yTo = yFrom - 2)
    (hd1 : s ≠ 1 ∨ xTo = xFrom + 2) (hd2 : s ≠ 2 ∨ xTo = xFrom - 2)
    (hmid : cell grid ((xFrom + xTo) / 2) ((yFrom + yTo) / 2) = some m)
    (hm : m = 3 - turn ∨ m = 5 - turn) :
    validMove xFrom xTo yFrom yTo turn grid pieces =
      some (true, upd grid ((xFrom + xTo) / 2) ((yFrom + yTo) / 2) 0, pieces - 1) := by
  have hne : ¬ (m = 0 ∨ m = turn ∨ m = turn + 2 ∨ m = turn - 2) := by omega
  have hres : captureAt ((xFrom + xTo) / 2) ((yFrom + yTo) / 2) turn grid pieces =
      some (true, upd grid ((xFrom + xTo) / 2) ((yFrom + yTo) / 2) 0, pieces - 1) := by
    rw [captureAt_eq turn pieces hmid, if_neg hne]
  rw [validMove_eq turn pieces hto hfrom]
  clear hne hm ht hmid hfrom hto
  split_ifs
  all_goals first
    | omega
    | (have e1 : (xFrom + xTo) / 2 = xTo - 1 := by omega
       have e2 : (yFrom + yTo) / 2 = yTo + 1 := by omega
       rw [e1, e2] at hres ⊢
       exact hres)
    | (have e1 : (xFrom + xTo) / 2 = xTo - 1 := by omega
       have e2 : (yFrom + yTo) / 2 = yTo - 1 := by omega
       rw [e1, e2] at hres ⊢
       exact hres)
    | (have e1 : (xFrom + xTo) / 2 = xTo + 1 := by omega
       have e2 : (yFrom + yTo) / 2 = yTo + 1 := by omega
       rw [e1, e2] at hres ⊢
       exact hres)
    | (have e1 : (xFrom + xTo) / 2 = xTo + 1 := by omega
       have e2 : (yFrom + yTo) / 2 = yTo - 1 := by omega
       rw [e1, e2] at hres ⊢
       exact hres)

/-- From a square that holds the mover's man or king, `validMove` accepts every capturing
continuation, empties the midpoint and decrements the counter. -/
theorem validMove_qualifies {grid : Grid} {x y turn s : Int} {d : Int × Int} (pieces : Int)
    (ht : turn = 1 ∨ turn = 2) (hpos : cell grid x y = some s) (hs : s = turn ∨ s = turn + 2)
    (hq : qualifies grid x y turn d) :
    validMove x d.1 y d.2 turn grid pieces =
      some (true, upd grid ((x + d.1) / 2) ((y + d.2) / 2) 0, pieces - 1) := by
  obtain ⟨hx, hy, hl, hm, hdir⟩ := hq
  have hfwd : s = turn → d.1 = x + (if turn = 1 then 2 else -2) := by
    intro hst
    apply hdir
    rw [hpos]
    intro hc
    injection hc with hc
    omega
  have hd1 : s ≠ 1 ∨ d.1 = x + 2 := by
    by_cases h1 : s = 1
    · right
      have h2 : s = turn := by omega
      have h3 := hfwd h2
      rw [if_pos (by omega)] at h3
      exact h3
    · exact Or.inl h1
  have hd2 : s ≠ 2 ∨ d.1 = x - 2 := by
    by_cases h1 : s = 2
    · right
      have h2 : s = turn := by omega
      have h3 := hfwd h2
      rw [if_neg (by omega)] at h3
      omega
    · exact Or.inl h1
  rcases hm with hm | hm
  · exact validMove_jump pieces ht hpos hl hx hy hd1 hd2 hm (Or.inl rfl)
  · exact validMove_jump pieces ht hpos hl hx hy hd1 hd2 hm (Or.inr rfl)

/-- The game is unchanged when its own board and opponent counter are put back. -/
theorem withBoard_self (g : Game) : withBoard g g.grid (oppPieces g) = g := by
  unfold withBoard oppPieces
  split_ifs <;> rfl

/-- A `false` from `validMove` on in-range squares comes with the board and the counter of
the call. -/
theorem validMove_false {grid grid1 : Grid} {xFrom xTo yFrom yTo turn pieces pieces1 : Int}
    (hfrom : inRange xFrom yFrom) (hto : inRange xTo yTo)
    (h : validMove xFrom xTo yFrom yTo turn grid pieces = some (false, grid1, pieces1)) :
    grid1 = grid ∧ pieces1 = pieces := by
  rcases validMove_cases xFrom xTo yFrom yTo turn grid pieces hfrom hto with
    h1 | ⟨h1, _⟩ | ⟨b, m, h1, _⟩
  · rw [h1] at h
    simp only [Option.some.injEq, Prod.mk.injEq, true_and] at h
    exact ⟨h.1.symm, h.2.symm⟩
  · rw [h1] at h
    simp at h
  · rw [h1] at h
    simp at h

/-- On in-range squares the relocation of `grantDoubleJump` succeeds and reports the
destination as the new position. -/
theorem relocateChain_some (player : Int) {x y xDest yDest : Int} (grid : Grid)
    (hpos : inRange x y) (hdest : inRange xDest yDest) :
    ∃ g2, relocateChain player x y xDest yDest grid = some (g2, xDest, yDest) := by
  unfold relocateChain
  rw [cell_some grid hpos, Option.some_bind, setCell_some _ hdest, Option.some_bind,
    setCell_some _ hpos, Option.some_bind]
  exact ⟨_, rfl⟩

/-- The scan of the registry finds `(a, b)` exactly when some entry holds it. -/
theorem inRegistry_iff (reg : JumpReg) (a b : Int) :
    inRegistry reg a b = true ↔ ∃ i, reg i = (a, b) := by
  unfold inRegistry
  exact decide_eq_true_iff

/-! ## Piece counts along the steps of the controller -/

/-- Writing `v` on a square that held `m` changes a player's count by the difference of the
two indicators "is a piece of that player". -/
theorem piecesOf_upd {grid : Grid} {a b m : Int} (k v : Int) (h : cell grid a b = some m) :
    piecesOf k (upd grid a b v) + (if m = k ∨ m = k + 2 then 1 else 0) =
      piecesOf k grid + (if v = k ∨ v = k + 2 then 1 else 0) := by
  have hr := cell_inRange h
  rw [cell_some _ hr] at h
  injection h with h
  unfold piecesOf
  have herase : (Finset.univ.filter fun c : Fin 8 × Fin 8 =>
        upd grid a b v c.1 c.2 = k ∨ upd grid a b v c.1 c.2 = k + 2).erase (idx a, idx b) =
      (Finset.univ.filter fun c : Fin 8 × Fin 8 =>
        grid c.1 c.2 = k ∨ grid c.1 c.2 = k + 2).erase (idx a, idx b) := by
    ext ⟨i, j⟩
    simp only [Finset.mem_filter, Finset.mem_univ, true_and, Finset.mem_erase, upd,
      Prod.mk.injEq, ne_eq]
    by_cases hc : i = idx a ∧ j = idx b
    · exact ⟨fun h0 => absurd hc h0.1, fun h0 => absurd hc h0.1⟩
    · rw [if_neg hc]
  have hnew : (idx a, idx b) ∈ (Finset.univ.filter fun c : Fin 8 × Fin 8 =>
        upd grid a b v c.1 c.2 = k ∨ upd grid a b v c.1 c.2 = k + 2) ↔ (v = k ∨ v = k + 2) := by
    simp only [Finset.mem_filter, Finset.mem_univ, true_and, upd, and_self, if_true]
  have hold : (idx a, idx b) ∈ (Finset.univ.filter fun c : Fin 8 × Fin 8 =>
        grid c.1 c.2 = k ∨ grid c.1 c.2 = k + 2) ↔ (m = k ∨ m = k + 2) := by
    simp only [Finset.mem_filter, Finset.mem_univ, true_and]
    rw [h]
  have e1 : (Finset.univ.filter fun c : Fin 8 × Fin 8 =>
        upd grid a b v c.1 c.2 = k ∨ upd grid a b v c.1 c.2 = k + 2).card =
      ((Finset.univ.filter fun c : Fin 8 × Fin 8 =>
        grid c.1 c.2 = k ∨ grid c.1 c.2 = k + 2).erase (idx a, idx b)).card +
        (if v = k ∨ v = k + 2 then 1 else 0) := by
    rw [← herase]
    by_cases hv : v = k ∨ v = k + 2
    · rw [if_pos hv, Finset.card_erase_add_one (hnew.mpr hv)]
    · rw [if_neg hv, Finset.erase_eq_of_not_mem (fun hc => hv (hnew.mp hc)), Nat.add_zero]
  have e2 : (Finset.univ.filter fun c : Fin 8 × Fin 8 =>
        grid c.1 c.2 = k ∨ grid c.1 c.2 = k + 2).card =
      ((Finset.univ.filter fun c : Fin 8 × Fin 8 =>
        grid c.1 c.2 = k ∨ grid c.1 c.2 = k + 2).erase (idx a, idx b)).card +
        (if m = k ∨ m = k + 2 then 1 else 0) := by
    by_cases hm : m = k ∨ m = k + 2
    · rw [if_pos hm, Finset.card_erase_add_one (hold.mpr hm)]
    · rw [if_neg hm, Finset.erase_eq_of_not_mem (fun hc => hm (hold.mp hc)), Nat.add_zero]
  rw [e1, e2]
  omega

/-- Emptying a square never raises the count of player 1 or 2. -/
theorem piecesOf_upd_zero_le {grid : Grid} {a b : Int} (k : Int) (hk : k = 1 ∨ k = 2)
    (hr : inRange a b) : piecesOf k (upd grid a b 0) ≤ piecesOf k grid := by
  have h := piecesOf_upd k 0 (cell_some grid hr)
  have h0 : ¬ ((0 : Int) = k ∨ (0 : Int) = k + 2) := by omega
  rw [if_neg h0] at h
  omega

/-- Moving a piece of `turn` from its square to an empty one, as a man or as a king of
`turn`, leaves the counts of both players as they were. -/
theorem piecesOf_relocated {grid : Grid} {turn xFrom xTo yFrom yTo s v : Int} (k : Int)
    (ht : turn = 1 ∨ turn = 2) (hk : k = 1 ∨ k = 2)
    (hfrom : cell grid xFrom yFrom = some s) (hs : s = turn ∨ s = turn + 2)
    (hto : cell grid xTo yTo = some 0) (hv : v = turn ∨ v = turn + 2) :
    piecesOf k (upd (upd grid xTo yTo v) xFrom yFrom 0) = piecesOf k grid := by
  have hne : ¬ (xFrom = xTo ∧ yFrom = yTo) := by
    rintro ⟨hx, hy⟩
    rw [hx, hy, hto] at hfrom
    injection hfrom with hfrom
    omega
  have h1 := piecesOf_upd k v hto
  have hsrc : cell (upd grid xTo yTo v) xFrom yFrom = some s := by
    rw [cell_upd_other v (cell_inRange hto) hne]
    exact hfrom
  have h2 := piecesOf_upd k 0 hsrc
  have h0 : ¬ ((0 : Int) = k ∨ (0 : Int) = k + 2) := by omega
  rw [if_neg h0] at h1 h2
  by_cases hkt : k = turn
  · have hs1 : s = k ∨ s = k + 2 := by omega
    have hv1 : v = k ∨ v = k + 2 := by omega
    rw [if_pos hv1] at h1
    rw [if_pos hs1] at h2
    omega
  · have hs1 : ¬ (s = k ∨ s = k + 2) := by omega
    have hv1 : ¬ (v = k ∨ v = k + 2) := by omega
    rw [if_neg hv1] at h1
    rw [if_neg hs1] at h2
    omega

/-- The two relocation steps on distinct in-range squares: both write the man or the king
of `turn` on the destination and empty the source. -/
theorem relocate_eq {grid : Grid} {turn xFrom xTo yFrom yTo s : Int}
    (ht : turn = 1 ∨ turn = 2) (hfrom : cell grid xFrom yFrom = some s)
    (hto : inRange xTo yTo) (hne : ¬ (xTo = xFrom ∧ yTo = yFrom)) :
    ∃ v, (v = turn ∨ v = turn + 2) ∧
      relocateMain turn xFrom xTo yFrom yTo grid =
        some (upd (upd grid xTo yTo v) xFrom yFrom 0) ∧
      relocateChain turn xFrom yFrom xTo yTo grid =
        some (upd (upd grid xTo yTo v) xFrom yFrom 0, xTo, yTo) := by
  have hfr := cell_inRange hfrom
  unfold relocateMain relocateChain
  rw [hfrom]
  simp only [Option.some_bind]
  rcases ht with ht | ht <;> subst ht
  · by_cases hc : s = 3 ∨ xTo = 7
    · refine ⟨3, Or.inr rfl, ?_, ?_⟩
      · rw [if_pos rfl, if_pos hc]
        exact (relocation_writes grid 3 hfr hto hne).1
      · have hc2 : s = 1 + 2 ∨ (xTo = 7 ∧ (1 : Int) = 1) ∨ (xTo = 0 ∧ (1 : Int) = 2) := by
          rcases hc with hc | hc
          · exact Or.inl hc
          · exact Or.inr (Or.inl ⟨hc, rfl⟩)
        rw [if_pos hc2, setCell_some _ hto, Option.some_bind, setCell_some _ hfr,
          Option.some_bind]
        rfl
    · refine ⟨1, Or.inl rfl, ?_, ?_⟩
      · rw [if_pos rfl, if_neg hc]
        exact (relocation_writes grid 1 hfr hto hne).1
      · have hc2 : ¬ (s = 1 + 2 ∨ (xTo = 7 ∧ (1 : Int) = 1) ∨ (xTo = 0 ∧ (1 : Int) = 2)) := by
          rintro (h1 | ⟨h1, _⟩ | ⟨_, h1⟩)
          · exact hc (Or.inl h1)
          · exact hc (Or.inr h1)
          · exact absurd h1 (by decide)
        rw [if_neg hc2, setCell_some _ hto, Option.some_bind, setCell_some _ hfr,
          Option.some_bind]
  · by_cases hc : s = 4 ∨ xTo = 0
    · refine ⟨4, Or.inr rfl, ?_, ?_⟩
      · rw [if_neg (by decide), if_pos hc]
        exact (relocation_writes grid 4 hfr hto hne).1
      · have hc2 : s = 2 + 2 ∨ (xTo = 7 ∧ (2 : Int) = 1) ∨ (xTo = 0 ∧ (2 : Int) = 2) := by
          rcases hc with hc | hc
          · exact Or.inl hc
          · exact Or.inr (Or.inr ⟨hc, rfl⟩)
        rw [if_pos hc2, setCell_some _ hto, Option.some_bind, setCell_some _ hfr,
          Option.some_bind]
        rfl
    · refine ⟨2, Or.inl rfl, ?_, ?_⟩
      · rw [if_neg (by decide), if_neg hc]
        exact (relocation_writes grid 2 hfr hto hne).1
      · have hc2 : ¬ (s = 2 + 2 ∨ (xTo = 7 ∧ (2 : Int) = 1) ∨ (xTo = 0 ∧ (2 : Int) = 2)) := by
          rintro (h1 | ⟨_, h1⟩ | ⟨h1, _⟩)
          · exact hc (Or.inl h1)
          · exact absurd h1 (by decide)
          · exact hc (Or.inr h1)
        rw [if_neg hc2, setCell_some _ hto, Option.some_bind, setCell_some _ hfr,
          Option.some_bind]

/-- What an accepted `validMove` leaves behind, on in-range squares: the source as it was,
the destination empty, and no more pieces of player 1 or 2 than before. -/
theorem validMove_accept_frame {grid grid1 : Grid}
    {xFrom xTo yFrom yTo turn pieces pieces1 : Int}
    (hfrom : inRange xFrom yFrom) (hto : inRange xTo yTo)
    (hacc : validMove xFrom xTo yFrom yTo turn grid pieces = some (true, grid1, pieces1)) :
    cell grid1 xFrom yFrom = cell grid xFrom yFrom ∧ cell grid1 xTo yTo = some 0 ∧
    ∀ k, (k = 1 ∨ k = 2) → piecesOf k grid1 ≤ piecesOf k grid := by
  rcases validMove_cases xFrom xTo yFrom yTo turn grid pieces hfrom hto with
    h | ⟨h, hd, _, _⟩ | ⟨b, m, h, hd, hx, _, _, _, hm, _⟩
  · rw [h] at hacc
    simp at hacc
  · rw [h] at hacc
    simp only [Option.some.injEq, Prod.mk.injEq, true_and] at hacc
    rw [← hacc.1]
    exact ⟨rfl, hd, fun _ _ => le_refl _⟩
  · rw [h] at hacc
    simp only [Option.some.injEq, Prod.mk.injEq, true_and] at hacc
    rw [← hacc.1]
    have hmr := cell_inRange hm
    refine ⟨cell_upd_other 0 hmr (by omega), ?_, fun k hk => piecesOf_upd_zero_le k hk hmr⟩
    rw [cell_upd_other 0 hmr (by omega)]
    exact hd

/-- Replacing board and counter puts that board in place and keeps the player to move. -/
theorem withBoard_grid (g : Game) (grid : Grid) (pieces : Int) :
    (withBoard g grid pieces).grid = grid ∧ (withBoard g grid pieces).turn = g.turn := by
  unfold withBoard
  split_ifs <;> exact ⟨rfl, rfl⟩

/-- The loop head of `main` leaves the board alone; when it enters `grantDoubleJump` the
position and the player to move are those it was called with, and when it does not, the
turn passes from 1 to 2 or from 2 to 1. -/
theorem chainWhile_board {g : Game} {x y : Int} {c : Control}
    (h : chainWhile g x y = some c) :
    boardOf c = g.grid ∧
    ((∃ reg, c = .chain (Prompt.mk (withReg g reg) x y false)) ∨
      ∃ g1, c = .move g1 ∧ (g1.turn = 1 ∨ g1.turn = 2)) := by
  unfold chainWhile at h
  rcases hr : isDoubleJumpAvailable x y g.turn g.grid g.jumpReg with _ | r
  · rw [hr] at h
    exact Option.noConfusion h
  · rw [hr, Option.some_bind] at h
    split_ifs at h
    · injection h with h
      rw [← h]
      exact ⟨rfl, Or.inl ⟨_, rfl⟩⟩
    · injection h with h
      rw [← h]
      refine ⟨rfl, Or.inr ⟨_, rfl, ?_⟩⟩
      unfold passTurn withReg
      simp only
      split_ifs
      · exact Or.inr rfl
      · exact Or.inl rfl

/-- After the loop head of `main`, called on a square that holds the mover's piece, the
controller is well placed. -/
theorem chainWhile_wellPlaced {g : Game} {x y : Int} {c : Control}
    (ht : g.turn = 1 ∨ g.turn = 2)
    (hpos : cell g.grid x y = some g.turn ∨ cell g.grid x y = some (g.turn + 2))
    (h : chainWhile g x y = some c) : wellPlaced c := by
  rcases (chainWhile_board h).2 with ⟨reg, hc⟩ | ⟨g1, hc, hg1⟩
  · rw [hc]
    exact ⟨ht, hpos⟩
  · rw [hc]
    exact hg1

/-- An accepted move and its relocation, from a square that holds the mover's man or king:
the relocation of `main` and that of `grantDoubleJump` succeed with the same board, on
which the destination holds the mover's man or king and neither player has more pieces
than before the call of `validMove`. -/
theorem accepted_then_relocated {grid grid1 : Grid}
    {xFrom xTo yFrom yTo turn pieces pieces1 s : Int}
    (ht : turn = 1 ∨ turn = 2) (hsrc : cell grid xFrom yFrom = some s)
    (hs : s = turn ∨ s = turn + 2)
    (hacc : validMove xFrom xTo yFrom yTo turn grid pieces = some (true, grid1, pieces1)) :
    ∃ grid2, relocateMain turn xFrom xTo yFrom yTo grid1 = some grid2 ∧
      relocateChain turn xFrom yFrom xTo yTo grid1 = some (grid2, xTo, yTo) ∧
      (cell grid2 xTo yTo = some turn ∨ cell grid2 xTo yTo = some (turn + 2)) ∧
      ∀ k, (k = 1 ∨ k = 2) → piecesOf k grid2 ≤ piecesOf k grid := by
  have hfr := cell_inRange hsrc
  have hto : inRange xTo yTo := by
    by_contra hn
    unfold validMove at hacc
    rw [cell_none hn] at hacc
    exact Option.noConfusion hacc
  obtain ⟨f1, f2, f3⟩ := validMove_accept_frame hfr hto hacc
  rw [hsrc] at f1
  have hne : ¬ (xTo = xFrom ∧ yTo = yFrom) := by
    rintro ⟨hx, hy⟩
    rw [hx, hy, f1] at f2
    injection f2 with f2
    omega
  obtain ⟨v, hv, r1, r2⟩ := relocate_eq ht f1 hto hne
  refine ⟨_, r1, r2, ?_, fun k hk => ?_⟩
  · rw [cell_upd_other 0 hfr hne, cell_upd_same v hto]
    rcases hv with hv | hv
    · exact Or.inl (by rw [hv])
    · exact Or.inr (by rw [hv])
  · rw [piecesOf_relocated k ht hk f1 hs f2 hv]
    exact f3 k hk

/-- A pass through the loop body of `main`, for a move from a square that holds the mover's
man or king: if it has a result, neither player has more pieces on the board than before,
and the controller is well placed. -/
theorem mainMove_step {g : Game} {xFrom xTo yFrom yTo : Int} {c : Control}
    (ht : g.turn = 1 ∨ g.turn = 2)
    (hsrc : cell g.grid xFrom yFrom = some g.turn ∨
      cell g.grid xFrom yFrom = some (g.turn + 2))
    (h : mainMove g xFrom xTo yFrom yTo = some c) :
    wellPlaced c ∧ ∀ k, (k = 1 ∨ k = 2) → piecesOf k (boardOf c) ≤ piecesOf k g.grid := by
  have hsrc1 : ∃ s, cell g.grid xFrom yFrom = some s ∧ (s = g.turn ∨ s = g.turn + 2) := by
    rcases hsrc with h1 | h1
    · exact ⟨_, h1, Or.inl rfl⟩
    · exact ⟨_, h1, Or.inr rfl⟩
  obtain ⟨s, hs1, hs2⟩ := hsrc1
  unfold mainMove at h
  rcases hv : validMove xFrom xTo yFrom yTo g.turn g.grid (oppPieces g) with _ | ⟨b, grid1, pieces1⟩
  · rw [hv] at h
    exact Option.noConfusion h
  rw [hv, Option.some_bind] at h
  cases b
  · simp only [Bool.false_eq_true, if_false] at h
    injection h with h
    rw [← h]
    have hto : inRange xTo yTo := by
      by_contra hn
      unfold validMove at hv
      rw [cell_none hn] at hv
      exact Option.noConfusion hv
    obtain ⟨e1, _⟩ := validMove_false (cell_inRange hs1) hto hv
    have hg := withBoard_grid g grid1 pieces1
    refine ⟨?_, fun k _ => ?_⟩
    · show (withBoard g grid1 pieces1).turn = 1 ∨ (withBoard g grid1 pieces1).turn = 2
      rw [hg.2]
      exact ht
    · show piecesOf k (withBoard g grid1 pieces1).grid ≤ piecesOf k g.grid
      rw [hg.1, e1]
  · simp only [if_true] at h
    obtain ⟨grid2, r1, _, hdest, hcount⟩ := accepted_then_relocated ht hs1 hs2 hv
    rw [r1, Option.some_bind] at h
    have hg := withBoard_grid g grid2 pieces1
    split_ifs at h
    · have ht2 : (withBoard g grid2 pieces1).turn = 1 ∨ (withBoard g grid2 pieces1).turn = 2 := by
        rw [hg.2]
        exact ht
      have hb := (chainWhile_board h).1
      refine ⟨chainWhile_wellPlaced ht2 ?_ h, fun k hk => ?_⟩
      · rw [hg.1, hg.2]
        exact hdest
      · rw [hb, hg.1]
        exact hcount k hk
    · injection h with h
      rw [← h]
      refine ⟨?_, fun k hk => ?_⟩
      · show (passTurn (withBoard g grid2 pieces1)).turn = 1 ∨
          (passTurn (withBoard g grid2 pieces1)).turn = 2
        unfold passTurn
        simp only
        split_ifs
        · exact Or.inr rfl
        · exact Or.inl rfl
      · show piecesOf k (passTurn (withBoard g grid2 pieces1)).grid ≤ piecesOf k g.grid
        unfold passTurn
        simp only
        rw [hg.1]
        exact hcount k hk

/-- An answer at the prompt of `grantDoubleJump`, when the position holds the mover's man
or king: if the step has a result, neither player has more pieces on the board than
before, and the controller is well placed. -/
theorem grantAnswer_step {p : Prompt} {xIn yIn : Int} {c : Control}
    (hp : wellPlaced (.chain p)) (h : grantAnswer p xIn yIn = some c) :
    wellPlaced c ∧
    ∀ k, (k = 1 ∨ k = 2) → piecesOf k (boardOf c) ≤ piecesOf k p.game.grid := by
  obtain ⟨ht, hpos⟩ := hp
  have hsrc1 : ∃ s, cell p.game.grid p.x p.y = some s ∧
      (s = p.game.turn ∨ s = p.game.turn + 2) := by
    rcases hpos with h1 | h1
    · exact ⟨_, h1, Or.inl rfl⟩
    · exact ⟨_, h1, Or.inr rfl⟩
  obtain ⟨s, hs1, hs2⟩ := hsrc1
  have hout : ∀ x y, ¬ inRange x y → chainWhile p.game x y = some c → False := by
    intro x y hn hc
    unfold chainWhile isDoubleJumpAvailable at hc
    rw [cell_none hn] at hc
    exact Option.noConfusion hc
  unfold grantAnswer grantBody grantBodyWith at h
  by_cases hx0 : xIn = 0
  · rw [if_pos hx0, Option.some_bind] at h
    exact absurd h (fun hc => hout _ _ (by decide) hc)
  rw [if_neg hx0] at h
  by_cases hy0 : yIn = 0
  · rw [if_pos hy0, Option.some_bind] at h
    exact absurd h (fun hc => hout _ _ (by decide) hc)
  rw [if_neg hy0] at h
  by_cases hrange : xIn - 1 < 0 ∨ xIn - 1 > 7 ∨ yIn - 1 < 0 ∨ yIn - 1 > 7
  · simp only [if_pos hrange, Option.some_bind] at h
    exact absurd h (fun hc => hout _ _ (by unfold inRange; omega) hc)
  simp only [if_neg hrange] at h
  by_cases hlegal : (p.legal || inRegistry p.game.jumpReg (xIn - 1) (yIn - 1)) = true
  · rw [if_pos hlegal] at h
    rcases hv : validMove p.x (xIn - 1) p.y (yIn - 1) p.game.turn p.game.grid
        (oppPieces p.game) with _ | ⟨b, grid1, pieces1⟩
    · rw [hv] at h
      exact Option.noConfusion h
    rw [hv, Option.some_bind] at h
    cases b
    · simp only [Bool.false_eq_true, if_false, Option.some_bind] at h
      injection h with h
      rw [← h]
      obtain ⟨e1, _⟩ := validMove_false (cell_inRange hs1) (by unfold inRange; omega) hv
      have hg := withBoard_grid p.game grid1 pieces1
      refine ⟨⟨?_, ?_⟩, fun k _ => ?_⟩
      · show (withBoard p.game grid1 pieces1).turn = 1 ∨ (withBoard p.game grid1 pieces1).turn = 2
        rw [hg.2]
        exact ht
      · show cell (withBoard p.game grid1 pieces1).grid p.x p.y =
            some (withBoard p.game grid1 pieces1).turn ∨
          cell (withBoard p.game grid1 pieces1).grid p.x p.y =
            some ((withBoard p.game grid1 pieces1).turn + 2)
        rw [hg.1, hg.2, e1]
        exact hpos
      · show piecesOf k (withBoard p.game grid1 pieces1).grid ≤ piecesOf k p.game.grid
        rw [hg.1, e1]
    · simp only [if_true] at h
      obtain ⟨grid2, _, r2, hdest, hcount⟩ := accepted_then_relocated ht hs1 hs2 hv
      rw [r2] at h
      simp only [Option.some_bind] at h
      have hg := withBoard_grid p.game grid2 pieces1
      have ht2 : (withBoard p.game grid2 pieces1).turn = 1 ∨
          (withBoard p.game grid2 pieces1).turn = 2 := by
        rw [hg.2]
        exact ht
      have hb := (chainWhile_board h).1
      refine ⟨chainWhile_wellPlaced ht2 ?_ h, fun k hk => ?_⟩
      · rw [hg.1, hg.2]
        exact hdest
      · rw [hb, hg.1]
        exact hcount k hk
  · rw [if_neg hlegal] at h
    simp only [Option.some_bind] at h
    injection h with h
    rw [← h]
    exact ⟨⟨ht, hpos⟩, fun k _ => le_refl _⟩

/-- Through every step that has a defined result, from the start of a game, the
controller stays well placed and each player has at most 12 pieces on the board. -/
theorem reach_counts {c : Control} (h : Reach c) :
    wellPlaced c ∧ piecesOf 1 (boardOf c) ≤ 12 ∧ piecesOf 2 (boardOf c) ≤ 12 := by
  induction h with
  | start g0 grid reg h =>
    rw [arrangeGrid_eq g0] at h
    injection h with h
    rw [← h]
    exact ⟨Or.inl rfl, le_of_eq rfl, le_of_eq rfl⟩
  | move g xFrom xTo yFrom yTo c _ hsrc h ih =>
    obtain ⟨hw, h1, h2⟩ := ih
    obtain ⟨hw2, hc⟩ := mainMove_step hw hsrc h
    exact ⟨hw2, le_trans (hc 1 (Or.inl rfl)) h1, le_trans (hc 2 (Or.inr rfl)) h2⟩
  | answer p xIn yIn c _ h ih =>
    obtain ⟨hw, h1, h2⟩ := ih
    obtain ⟨hw2, hc⟩ := grantAnswer_step hw h
    exact ⟨hw2, le_trans (hc 1 (Or.inl rfl)) h1, le_trans (hc 2 (Or.inr rfl)) h2⟩

/-! ## Reading a move, the search without the guard, and chains of jumps -/

/-- What `getMove` passes on as a move: the source is on the board and holds the mover's
man or king, the destination row is on the board, and the destination column is not
negative. -/
theorem getMove_passed {xFromIn yFromIn xToIn yToIn xTo0 yTo0 turn : Int} {grid : Grid}
    {xFrom xTo yFrom yTo : Int}
    (h : getMove xFromIn yFromIn xToIn yToIn xTo0 yTo0 turn grid =
      some (true, xFrom, xTo, yFrom, yTo))
    (hq : isQuit xFrom xTo yFrom yTo = false) :
    inRange xFrom yFrom ∧
    (cell grid xFrom yFrom = some turn ∨ cell grid xFrom yFrom = some (turn + 2)) ∧
    0 ≤ xTo ∧ xTo ≤ 7 ∧ 0 ≤ yTo ∧
    xFrom = xFromIn - 1 ∧ yFrom = yFromIn - 1 ∧ xTo = xToIn - 1 ∧ yTo = yToIn - 1 := by
  have hquit : ∀ {P : Prop}, (some (true, (-1 : Int), (-1 : Int), (-1 : Int), (-1 : Int)) =
      some (true, xFrom, xTo, yFrom, yTo)) → P := by
    intro P he
    simp only [Option.some.injEq, Prod.mk.injEq, true_and] at he
    obtain ⟨e1, e2, e3, e4⟩ := he
    rw [← e1, ← e2, ← e3, ← e4] at hq
    exact absurd hq (by decide)
  unfold getMove at h
  by_cases h1 : xFromIn = 0
  · rw [if_pos h1] at h
    exact hquit h
  rw [if_neg h1] at h
  by_cases h2 : yFromIn = 0
  · rw [if_pos h2] at h
    exact hquit h
  rw [if_neg h2] at h
  by_cases h3 : xFromIn < 0 ∨ xFromIn > 8 ∨ yFromIn < 0 ∨ yFromIn > 8
  · rw [if_pos h3] at h
    simp at h
  rw [if_neg h3] at h
  dsimp only at h
  rcases hc : cell grid (xFromIn - 1) (yFromIn - 1) with _ | src
  · rw [hc] at h
    exact Option.noConfusion h
  rw [hc, Option.some_bind] at h
  by_cases h4 : src ≠ turn ∧ src ≠ turn + 2
  · rw [if_pos h4] at h
    simp at h
  rw [if_neg h4] at h
  by_cases h5 : xToIn = 0
  · rw [if_pos h5] at h
    exact hquit h
  rw [if_neg h5] at h
  by_cases h6 : yToIn = 0
  · rw [if_pos h6] at h
    exact hquit h
  rw [if_neg h6] at h
  by_cases h7 : xToIn < 0 ∨ xToIn > 8 ∨ yToIn < 0 ∨ yFromIn - 1 > 8
  · rw [if_pos h7] at h
    simp at h
  rw [if_neg h7] at h
  simp only [Option.some.injEq, Prod.mk.injEq, true_and] at h
  obtain ⟨e1, e2, e3, e4⟩ := h
  subst e1 e2 e3 e4
  have hr := cell_inRange hc
  refine ⟨hr, ?_, ?_, ?_, ?_, rfl, rfl, rfl, rfl⟩
  · rw [hc]
    by_cases hs : src = turn
    · exact Or.inl (by rw [hs])
    · by_cases hs2 : src = turn + 2
      · exact Or.inr (by rw [hs2])
      · exact absurd ⟨hs, hs2⟩ h4
  · omega
  · omega
  · omega

/-- The body of `isDoubleJumpAvailable` is its guard followed by the search. -/
theorem body_split (pieceType x y turn : Int) (grid : Grid) (jumpReg : JumpReg) :
    isDoubleJumpAvailableBody pieceType x y turn grid jumpReg =
      (edgeGuard x y grid).bind fun early =>
        if early then some (false, jumpReg)
        else isDoubleJumpAvailableNoGuardBody pieceType x y turn grid := rfl

/-- The search alone has a result for every in-range position. -/
theorem noGuard_total (grid : Grid) {x y : Int} (turn : Int) (hpos : inRange x y) :
    ∃ r, isDoubleJumpAvailableNoGuard x y turn grid = some r := by
  unfold isDoubleJumpAvailableNoGuard
  rw [cell_some grid hpos, Option.some_bind]
  unfold isDoubleJumpAvailableNoGuardBody
  unfold inRange at hpos
  have hb : ∀ (c : Prop) [Decidable c] (mx my lx ly : Int),
      (c → inRange mx my ∧ inRange lx ly) →
      (decide c = true → inRange mx my ∧ inRange lx ly) :=
    fun c _ mx my lx ly hc hd => hc (of_decide_eq_true hd)
  have pt : ∀ (c : Prop) [Decidable c] (mx my lx ly a b : Int) (slot : Fin 4)
      (st : Bool × JumpReg), (c → inRange mx my ∧ inRange lx ly) →
      ∃ st1, probe grid (decide c) mx my lx ly a b slot st = some st1 :=
    fun c _ mx my lx ly a b slot st hc =>
      probe_total grid a b slot st (hb c mx my lx ly hc)
  have r1 : ¬ (x + 2 > 7) ∧ ¬ (y + 2 > 7) → inRange (x + 1) (y + 1) ∧ inRange (x + 2) (y + 2) := by
    intro hc; unfold inRange; omega
  have r2 : ¬ (x + 2 > 7) ∧ ¬ (y - 2 < 0) → inRange (x + 1) (y - 1) ∧ inRange (x + 2) (y - 2) := by
    intro hc; unfold inRange; omega
  have r3 : ¬ (x - 2 < 0) ∧ ¬ (y + 2 > 7) → inRange (x - 1) (y + 1) ∧ inRange (x - 2) (y + 2) := by
    intro hc; unfold inRange; omega
  have r4 : ¬ (x - 2 < 0) ∧ ¬ (y - 2 < 0) → inRange (x - 1) (y - 1) ∧ inRange (x - 2) (y - 2) := by
    intro hc; unfold inRange; omega
  simp only [ite_self]
  by_cases ht1 : turn = 1
  · rw [if_pos ht1]
    obtain ⟨s0, hs0⟩ := pt _ _ _ _ _ 2 4 0 (false, clearedReg) r1
    rw [hs0, Option.some_bind]
    obtain ⟨s1, hs1⟩ := pt _ _ _ _ _ 2 4 1 s0 r2
    rw [hs1, Option.some_bind]
    split_ifs
    · obtain ⟨s2, hs2⟩ := pt _ _ _ _ _ 2 4 2 s1 r3
      rw [hs2, Option.some_bind]
      exact pt _ _ _ _ _ 2 4 3 s2 r4
    · exact ⟨_, rfl⟩
  · rw [if_neg ht1]
    by_cases ht2 : turn = 2
    · rw [if_pos ht2]
      obtain ⟨s0, hs0⟩ := pt _ _ _ _ _ 1 3 0 (false, clearedReg) r3
      rw [hs0, Option.some_bind]
      obtain ⟨s1, hs1⟩ := pt _ _ _ _ _ 1 3 1 s0 r4
      rw [hs1, Option.some_bind]
      split_ifs
      · obtain ⟨s2, hs2⟩ := pt _ _ _ _ _ 1 3 2 s1 r1
        rw [hs2, Option.some_bind]
        exact pt _ _ _ _ _ 1 3 3 s2 r2
      · exact ⟨_, rfl⟩
    · rw [if_neg ht2]
      exact ⟨_, rfl⟩

/-- When the search alone answers true, some entry of its registry is a capturing
continuation. -/
theorem noGuard_sound {grid : Grid} {x y turn : Int} {reg : JumpReg}
    (h : isDoubleJumpAvailableNoGuard x y turn grid = some (true, reg)) :
    (∀ i, reg i = (-1, -1) ∨ qualifies grid x y turn (reg i)) ∧
    ∃ i, qualifies grid x y turn (reg i) := by
  unfold isDoubleJumpAvailableNoGuard at h
  rcases hp : cell grid x y with _ | pieceType
  · rw [hp] at h
    exact Option.noConfusion h
  rw [hp, Option.some_bind] at h
  unfold isDoubleJumpAvailableNoGuardBody at h
  simp only [ite_self] at h
  have h0 : (∀ i, ((false, clearedReg) : Bool × JumpReg).2 i = (-1, -1) ∨
        qualifies grid x y turn (((false, clearedReg) : Bool × JumpReg).2 i)) ∧
      (((false, clearedReg) : Bool × JumpReg).1 = true →
        ∃ i, qualifies grid x y turn (((false, clearedReg) : Bool × JumpReg).2 i)) :=
    ⟨fun i => Or.inl rfl, fun hf => Bool.noConfusion hf⟩
  have hhalf : ∀ v : Int, (v + (v + 2)) / 2 = v + 1 ∧ (v + (v - 2)) / 2 = v - 1 := by
    intro v; omega
  by_cases ht1 : turn = 1
  · subst ht1
    rw [if_pos rfl] at h
    simp only [Option.bind_eq_some] at h
    obtain ⟨s0, hs0, s1, hs1, h⟩ := h
    have i0 := probe_inv (qualifies grid x y 1) (fun _ m hm hab hl => by
      refine ⟨Or.inl rfl, Or.inl rfl, hl, ?_, fun _ => rfl⟩
      simp only [(hhalf x).1, (hhalf y).1, hm]
      rcases hab with hab | hab <;> simp [hab]) h0 hs0
    have i1 := probe_inv (qualifies grid x y 1) (fun _ m hm hab hl => by
      refine ⟨Or.inl rfl, Or.inr rfl, hl, ?_, fun _ => rfl⟩
      simp only [(hhalf x).1, (hhalf y).2, hm]
      rcases hab with hab | hab <;> simp [hab]) i0 hs1
    by_cases hk : pieceType = 3
    · subst hk
      rw [if_pos rfl] at h
      simp only [Option.bind_eq_some] at h
      obtain ⟨s2, hs2, h⟩ := h
      have i2 := probe_inv (qualifies grid x y 1) (fun _ m hm hab hl => by
        refine ⟨Or.inr rfl, Or.inl rfl, hl, ?_, fun hne => absurd hp hne⟩
        simp only [(hhalf x).2, (hhalf y).1, hm]
        rcases hab with hab | hab <;> simp [hab]) i1 hs2
      have i3 := probe_inv (qualifies grid x y 1) (fun _ m hm hab hl => by
        refine ⟨Or.inr rfl, Or.inr rfl, hl, ?_, fun hne => absurd hp hne⟩
        simp only [(hhalf x).2, (hhalf y).2, hm]
        rcases hab with hab | hab <;> simp [hab]) i2 h
      exact ⟨i3.1, i3.2 rfl⟩
    · rw [if_neg hk] at h
      injection h with h
      rw [h] at i1
      exact ⟨i1.1, i1.2 rfl⟩
  · rw [if_neg ht1] at h
    by_cases ht2 : turn = 2
    · subst ht2
      rw [if_pos rfl] at h
      simp only [Option.bind_eq_some] at h
      obtain ⟨s0, hs0, s1, hs1, h⟩ := h
      have i0 := probe_inv (qualifies grid x y 2) (fun _ m hm hab hl => by
        refine ⟨Or.inr rfl, Or.inl rfl, hl, ?_, fun _ => rfl⟩
        simp only [(hhalf x).2, (hhalf y).1, hm]
        rcases hab with hab | hab <;> simp [hab]) h0 hs0
      have i1 := probe_inv (qualifies grid x y 2) (fun _ m hm hab hl => by
        refine ⟨Or.inr rfl, Or.inr rfl, hl, ?_, fun _ => rfl⟩
        simp only [(hhalf x).2, (hhalf y).2, hm]
        rcases hab with hab | hab <;> simp [hab]) i0 hs1
      by_cases hk : pieceType = 4
      · subst hk
        rw [if_pos rfl] at h
        simp only [Option.bind_eq_some] at h
        obtain ⟨s2, hs2, h⟩ := h
        have i2 := probe_inv (qualifies grid x y 2) (fun _ m hm hab hl => by
          refine ⟨Or.inl rfl, Or.inl rfl, hl, ?_, fun hne => absurd hp hne⟩
          simp only [(hhalf x).1, (hhalf y).1, hm]
          rcases hab with hab | hab <;> simp [hab]) i1 hs2
        have i3 := probe_inv (qualifies grid x y 2) (fun _ m hm hab hl => by
          refine ⟨Or.inl rfl, Or.inr rfl, hl, ?_, fun hne => absurd hp hne⟩
          simp only [(hhalf x).1, (hhalf y).2, hm]
          rcases hab with hab | hab <;> simp [hab]) i2 h
        exact ⟨i3.1, i3.2 rfl⟩
      · rw [if_neg hk] at h
        injection h with h
        rw [h] at i1
        exact ⟨i1.1, i1.2 rfl⟩
    · rw [if_neg ht2] at h
      simp at h

/-- Whenever `isDoubleJumpAvailable` has a result at an in-range position, the search
without the guard returns the same answer (and, when the early return is not taken, the
same registry). -/
theorem guard_agrees_when_defined {grid : Grid} {x y turn : Int} {reg0 reg : JumpReg}
    {b : Bool} (ht : turn = 1 ∨ turn = 2) (hpos : inRange x y)
    (h : isDoubleJumpAvailable x y turn grid reg0 = some (b, reg)) :
    ∃ reg1, isDoubleJumpAvailableNoGuard x y turn grid = some (b, reg1) := by
  unfold isDoubleJumpAvailable at h
  rw [cell_some grid hpos, Option.some_bind, body_split] at h
  rcases hg : edgeGuard x y grid with _ | early
  · rw [hg] at h
    exact Option.noConfusion h
  rw [hg, Option.some_bind] at h
  cases early
  · simp only [Bool.false_eq_true, if_false] at h
    refine ⟨reg, ?_⟩
    unfold isDoubleJumpAvailableNoGuard
    rw [cell_some grid hpos, Option.some_bind]
    exact h
  · simp only [if_true, Option.some.injEq, Prod.mk.injEq] at h
    obtain ⟨⟨b1, reg1⟩, hr⟩ := noGuard_total grid turn hpos
    cases b1
    · exact ⟨reg1, by rw [hr, ← h.1]⟩
    · obtain ⟨_, i, hq⟩ := noGuard_sound hr
      exact Bool.noConfusion (edgeGuard_false_of_jump ht hpos hq hg)

/-- One jump of a chain: from a square that holds the mover's man or king, after
`isDoubleJumpAvailable` has answered true, `validMove` accepts every entry of the registry
other than the sentinel, empties the midpoint, which held a piece of the opponent, and
decrements the counter; the relocation succeeds; the opponent has one piece less on the
board and the mover as many as before, and the destination holds the mover's man or
king. -/
theorem registry_jump_step {grid : Grid} {x y turn s : Int} {reg0 reg : JumpReg}
    (pieces : Int) (ht : turn = 1 ∨ turn = 2) (hpos : cell grid x y = some s)
    (hs : s = turn ∨ s = turn + 2)
    (h : isDoubleJumpAvailable x y turn grid reg0 = some (true, reg)) (i : Fin 4)
    (hi : reg i ≠ (-1, -1)) :
    ∃ grid2,
      validMove x (reg i).1 y (reg i).2 turn grid pieces =
        some (true, upd grid ((x + (reg i).1) / 2) ((y + (reg i).2) / 2) 0, pieces - 1) ∧
      (cell grid ((x + (reg i).1) / 2) ((y + (reg i).2) / 2) = some (3 - turn) ∨
        cell grid ((x + (reg i).1) / 2) ((y + (reg i).2) / 2) = some (5 - turn)) ∧
      piecesOf (3 - turn) (upd grid ((x + (reg i).1) / 2) ((y + (reg i).2) / 2) 0) + 1 =
        piecesOf (3 - turn) grid ∧
      piecesOf turn (upd grid ((x + (reg i).1) / 2) ((y + (reg i).2) / 2) 0) =
        piecesOf turn grid ∧
      relocateChain turn x y (reg i).1 (reg i).2
          (upd grid ((x + (reg i).1) / 2) ((y + (reg i).2) / 2) 0) =
        some (grid2, (reg i).1, (reg i).2) ∧
      piecesOf (3 - turn) grid2 + 1 = piecesOf (3 - turn) grid ∧
      piecesOf turn grid2 = piecesOf turn grid ∧
      (cell grid2 (reg i).1 (reg i).2 = some turn ∨
        cell grid2 (reg i).1 (reg i).2 = some (turn + 2)) := by
  have hq : qualifies grid x y turn (reg i) := by
    rcases (registry_sound h).1 i with h1 | h1
    · exact absurd h1 hi
    · exact h1
  have hv := validMove_qualifies pieces ht hpos hs hq
  obtain ⟨hdx, _, hland, hmid, _⟩ := hq
  have hfr := cell_inRange hpos
  have hto := cell_inRange hland
  obtain ⟨m, hm, hm2⟩ : ∃ m, cell grid ((x + (reg i).1) / 2) ((y + (reg i).2) / 2) = some m ∧
      (m = 3 - turn ∨ m = 5 - turn) := by
    rcases hmid with hmid | hmid
    · exact ⟨_, hmid, Or.inl rfl⟩
    · exact ⟨_, hmid, Or.inr rfl⟩
  have c1 := piecesOf_upd_zero (3 - turn) (by omega) (by omega) hm
  rw [if_pos (by omega)] at c1
  have c2 := piecesOf_upd_zero turn (by omega) (by omega) hm
  have hno : ¬ (m = turn ∨ m = turn + 2) := by omega
  rw [if_neg hno, Nat.add_zero] at c2
  obtain ⟨f1, f2, _⟩ := validMove_accept_frame hfr hto hv
  rw [hpos] at f1
  have hne : ¬ ((reg i).1 = x ∧ (reg i).2 = y) := by
    rintro ⟨hx, _⟩
    omega
  obtain ⟨v, hv2, _, r2⟩ := relocate_eq ht f1 hto hne
  have k1 := piecesOf_relocated (3 - turn) ht (by omega) f1 hs f2 hv2
  have k2 := piecesOf_relocated turn ht ht f1 hs f2 hv2
  refine ⟨_, hv, hmid, c1, c2, r2, ?_, ?_, ?_⟩
  · rw [k1]
    exact c1
  · rw [k2]
    exact c2
  · rw [cell_upd_other 0 hfr hne, cell_upd_same v hto]
    rcases hv2 with hv2 | hv2
    · exact Or.inl (by rw [hv2])
    · exact Or.inr (by rw [hv2])

/-- A chain of `n` jumps from a square that holds the mover's man or king takes exactly `n`
pieces of the opponent off the board and none of the mover, and ends on a square that
holds the mover's man or king. -/
theorem chainRun_counts {turn : Int} {grid grid3 : Grid} {x y x3 y3 : Int} {n : Nat}
    (ht : turn = 1 ∨ turn = 2) (h : ChainRun turn grid x y n grid3 x3 y3) :
    (cell grid x y = some turn ∨ cell grid x y = some (turn + 2)) →
    piecesOf (3 - turn) grid3 + n = piecesOf (3 - turn) grid ∧
    piecesOf turn grid3 = piecesOf turn grid ∧
    (cell grid3 x3 y3 = some turn ∨ cell grid3 x3 y3 = some (turn + 2)) := by
  induction h with
  | done grid x y => exact fun hpos => ⟨rfl, rfl, hpos⟩
  | jump grid x y reg0 reg i pieces pieces1 grid1 grid2 n grid3 x3 y3 havail hentry hvalid
      hmove _ ih =>
    intro hpos
    obtain ⟨s, hs1, hs2⟩ : ∃ s, cell grid x y = some s ∧ (s = turn ∨ s = turn + 2) := by
      rcases hpos with hpos | hpos
      · exact ⟨_, hpos, Or.inl rfl⟩
      · exact ⟨_, hpos, Or.inr rfl⟩
    obtain ⟨g2, e1, _, _, _, e2, e3, e4, e5⟩ :=
      registry_jump_step pieces ht hs1 hs2 havail i hentry
    rw [hvalid] at e1
    simp only [Option.some.injEq, Prod.mk.injEq, true_and] at e1
    rw [← e1.1, hmove] at e2
    simp only [Option.some.injEq, Prod.mk.injEq, and_true] at e2
    rw [← e2] at e3 e4 e5
    obtain ⟨j1, j2, j3⟩ := ih e5
    exact ⟨by omega, by omega, j3⟩

/-- From a chain prompt the controller has come to, a chain has at most 12 jumps. -/
theorem reach_chain_bound {p : Prompt} (hr : Reach (.chain p)) {grid3 : Grid} {x3 y3 : Int}
    {n : Nat} (h : ChainRun p.game.turn p.game.grid p.x p.y n grid3 x3 y3) : n ≤ 12 := by
  obtain ⟨hw, b1, b2⟩ := reach_counts hr
  obtain ⟨ht, hpos⟩ := hw
  obtain ⟨j1, _, _⟩ := chainRun_counts ht h hpos
  have b : piecesOf (3 - p.game.turn) p.game.grid ≤ 12 := by
    rcases ht with ht | ht
    · rw [ht]
      exact b2
    · rw [ht]
      exact b1
  omega

/-! ## The guard when its reads leave the array -/

/-- On the board `readAt` is the cell. -/
theorem readAt_cell (off : Int → Int → Int) {grid : Grid} {a b m : Int}
    (h : cell grid a b = some m) : readAt off grid a b = m := by
  have hr := cell_inRange h
  rw [cell_some grid hr] at h
  injection h with h
  unfold readAt
  rw [if_pos hr]
  exact h

/-- A test `grid[a][b] != 0 && grid[c][d] == 0` that has a value has the value the reads
by `readAt` give. -/
theorem occupiedThenEmpty_readAt (off : Int → Int → Int) {grid : Grid} {a b c d : Int}
    {v : Bool} (h : occupiedThenEmpty grid a b c d = some v) :
    v = true ↔ (readAt off grid a b ≠ 0 ∧ readAt off grid c d = 0) := by
  unfold occupiedThenEmpty at h
  rcases hm : cell grid a b with _ | m
  · rw [hm] at h
    exact Option.noConfusion h
  rw [hm, Option.some_bind] at h
  rw [readAt_cell off hm]
  by_cases h0 : m ≠ 0
  · rw [if_pos h0] at h
    rcases hl : cell grid c d with _ | l
    · rw [hl] at h
      exact Option.noConfusion h
    rw [hl, Option.some_bind] at h
    injection h with h
    rw [readAt_cell off hl, ← h, decide_eq_true_iff]
    exact ⟨fun hh => ⟨h0, hh⟩, fun hh => hh.2⟩
  · rw [if_neg h0] at h
    injection h with h
    rw [← h]
    exact ⟨fun hh => Bool.noConfusion hh, fun hh => absurd hh.1 h0⟩

/-- The `||` of two board tests that has a value has the value of the disjunction. -/
theorem orElse_iff {p q : Option Bool} {r : Bool} {P Q : Prop}
    (hp : ∀ v, p = some v → (v = true ↔ P)) (hq : ∀ v, q = some v → (v = true ↔ Q))
    (h : orElse p q = some r) : r = true ↔ (P ∨ Q) := by
  unfold orElse at h
  rcases p with _ | bp
  · exact Option.noConfusion h
  rw [Option.some_bind] at h
  have hP := hp bp rfl
  cases bp
  · simp only [Bool.false_eq_true, if_false] at h
    have hQ := hq r h
    rw [hQ]
    exact ⟨Or.inr, fun hh => hh.elim (fun a => Bool.noConfusion (hP.2 a)) id⟩
  · simp only [if_true] at h
    injection h with h
    rw [← h]
    exact ⟨fun _ => Or.inl (hP.1 rfl), fun _ => rfl⟩

/-- Whenever the test of line 848 has a value with all its reads on the board, the test
with `readAt` has the same value, whatever `off` is. -/
theorem edgeGuardAt_of_edgeGuard (off : Int → Int → Int) {grid : Grid} {x y : Int} {e : Bool}
    (h : edgeGuard x y grid = some e) : edgeGuardAt off x y grid = e := by
  unfold edgeGuard at h
  have hside : ∀ (c : Prop) [Decidable c] (a1 b1 c1 d1 a2 b2 c2 d2 : Int) (v : Bool),
      (if c then (orElse (occupiedThenEmpty grid a1 b1 c1 d1)
        (occupiedThenEmpty grid a2 b2 c2 d2)).map not else some false) = some v →
      (v = true ↔ (c ∧ ¬ ((readAt off grid a1 b1 ≠ 0 ∧ readAt off grid c1 d1 = 0) ∨
        (readAt off grid a2 b2 ≠ 0 ∧ readAt off grid c2 d2 = 0)))) := by
    intro c _ a1 b1 c1 d1 a2 b2 c2 d2 v hv
    by_cases hc : c
    · rw [if_pos hc] at hv
      rcases ho : orElse (occupiedThenEmpty grid a1 b1 c1 d1)
          (occupiedThenEmpty grid a2 b2 c2 d2) with _ | r
      · rw [ho] at hv
        exact Option.noConfusion hv
      rw [ho] at hv
      simp only [Option.map_some', Option.some.injEq] at hv
      have hr := orElse_iff (fun v hv => occupiedThenEmpty_readAt off hv)
        (fun v hv => occupiedThenEmpty_readAt off hv) ho
      rw [← hr, ← hv]
      cases r <;> simp [hc]
    · rw [if_neg hc] at hv
      injection hv with hv
      rw [← hv]
      exact ⟨fun hh => Bool.noConfusion hh, fun hh => absurd hh.1 hc⟩
  have hr := orElse_iff (hside (x = 1) _ _ _ _ _ _ _ _) (hside (x = 7) _ _ _ _ _ _ _ _) h
  unfold edgeGuardAt
  cases e
  · rw [decide_eq_false_iff_not, ← hr]
    exact Bool.noConfusion
  · rw [decide_eq_true_iff, ← hr]

/-- Whenever `isDoubleJumpAvailable` has a result with all its reads on the board,
`isDoubleJumpAvailableAt` has the same result, whatever `off` is. -/
theorem isDoubleJumpAvailableAt_of_defined (off : Int → Int → Int) {grid : Grid}
    {x y turn : Int} {reg0 : JumpReg} {r : Bool × JumpReg}
    (h : isDoubleJumpAvailable x y turn grid reg0 = some r) :
    isDoubleJumpAvailableAt off x y turn grid reg0 = some r := by
  unfold isDoubleJumpAvailable at h
  unfold isDoubleJumpAvailableAt
  rcases hp : cell grid x y with _ | pieceType
  · rw [hp] at h
    exact Option.noConfusion h
  rw [hp, Option.some_bind, body_split] at h
  rw [Option.some_bind]
  rcases hg : edgeGuard x y grid with _ | early
  · rw [hg] at h
    exact Option.noConfusion h
  rw [hg, Option.some_bind] at h
  rw [edgeGuardAt_of_edgeGuard off hg]
  exact h

/-- For an in-range position `isDoubleJumpAvailableAt` is the guard followed by the
search. -/
theorem isDoubleJumpAvailableAt_eq (off : Int → Int → Int) (grid : Grid) {x y : Int}
    (turn : Int) (reg0 : JumpReg) (hpos : inRange x y) :
    isDoubleJumpAvailableAt off x y turn grid reg0 =
      if edgeGuardAt off x y grid then some (false, reg0)
      else isDoubleJumpAvailableNoGuard x y turn grid := by
  unfold isDoubleJumpAvailableAt isDoubleJumpAvailableNoGuard
  rw [cell_some grid hpos, Option.some_bind, Option.some_bind]

/-- When a capturing continuation exists, the test of line 848 is false whatever its reads outside the array yield: the early return is not taken. -/
theorem edgeGuardAt_false_of_jump (off : Int → Int → Int) {grid : Grid} {x y turn : Int}
    {d : Int × Int} (ht : turn = 1 ∨ turn = 2)
    (hq : qualifies grid x y turn d) : edgeGuardAt off x y grid = false := by
  obtain ⟨d1, d2⟩ := d
  obtain ⟨hx, hy, hl, hm, _⟩ := hq
  simp only at hx hy hl hm
  have hdr := cell_inRange hl
  have hmid : ∃ m, cell grid ((x + d1) / 2) ((y + d2) / 2) = some m ∧ m ≠ 0 := by
    rcases hm with hm | hm
    · exact ⟨_, hm, by omega⟩
    · exact ⟨_, hm, by omega⟩
  obtain ⟨m, hm1, hm0⟩ := hmid
  have hl0 := readAt_cell off hl
  have hmr := readAt_cell off hm1
  unfold inRange at hdr
  unfold edgeGuardAt
  rw [decide_eq_false_iff_not]
  rintro (⟨h1, hn⟩ | ⟨h7, hn⟩)
  · apply hn
    have hd1 : d1 = x + 2 := by omega
    subst hd1
    have e1 : (x + (x + 2)) / 2 = x + 1 := by omega
    rw [e1] at hmr
    rcases hy with hy | hy
    · subst hy
      have e2 : (y + (y + 2)) / 2 = y + 1 := by omega
      rw [e2] at hmr
      exact Or.inl ⟨by rw [hmr]; exact hm0, hl0⟩
    · subst hy
      have e2 : (y + (y - 2)) / 2 = y - 1 := by omega
      rw [e2] at hmr
      exact Or.inr ⟨by rw [hmr]; exact hm0, hl0⟩
  · apply hn
    have hd1 : d1 = x - 2 := by omega
    subst hd1
    have e1 : (x + (x - 2)) / 2 = x - 1 := by omega
    rw [e1] at hmr
    rcases hy with hy | hy
    · subst hy
      have e2 : (y + (y + 2)) / 2 = y + 1 := by omega
      rw [e2] at hmr
      exact Or.inr ⟨by rw [hmr]; exact hm0, hl0⟩
    · subst hy
      have e2 : (y + (y - 2)) / 2 = y - 1 := by omega
      rw [e2] at hmr
      exact Or.inl ⟨by rw [hmr]; exact hm0, hl0⟩

/-- The search alone finds every capturing continuation from an in-range square: its
answer is true and the continuation is in the registry. -/
theorem noGuard_complete {grid : Grid} {x y turn : Int} {reg : JumpReg} {b : Bool}
    {d : Int × Int} (ht : turn = 1 ∨ turn = 2) (hpos : inRange x y)
    (hq : qualifies grid x y turn d)
    (h : isDoubleJumpAvailableNoGuard x y turn grid = some (b, reg)) :
    b = true ∧ ∃ i, reg i = d := by
  unfold isDoubleJumpAvailableNoGuard at h
  have hp := cell_some grid hpos
  rw [hp, Option.some_bind] at h
  unfold isDoubleJumpAvailableNoGuardBody at h
  simp only [ite_self] at h
  obtain ⟨d1, d2⟩ := d
  obtain ⟨hx, hy, hl, hm, hdir⟩ := hq
  simp only at hx hy hl hm hdir
  have hdr := cell_inRange hl
  unfold inRange at hdr hpos
  have key : ∀ st : Bool × JumpReg, ∀ k : Fin 4, (st.1 = true ∧ st.2 k = (d1, d2)) →
      st = (b, reg) → b = true ∧ ∃ i, reg i = (d1, d2) := by
    intro st k hst he
    rw [he] at hst
    exact ⟨hst.1, k, hst.2⟩
  rcases ht with ht | ht
  · subst ht
    rw [if_pos rfl] at h
    simp only [Option.bind_eq_some] at h
    obtain ⟨s0, hs0, s1, hs1, h⟩ := h
    rcases hx with hx | hx
    · subst hx
      have e1 : (x + (x + 2)) / 2 = x + 1 := by omega
      rw [e1] at hm
      have hfin : (s1.1 = true ∧ s1.2 0 = (x + 2, d2)) ∨ (s1.1 = true ∧ s1.2 1 = (x + 2, d2)) := by
        rcases hy with hy | hy
        · subst hy
          have e2 : (y + (y + 2)) / 2 = y + 1 := by omega
          rw [e2] at hm
          left
          exact probe_keep (by decide)
            (probe_hit (decide_eq_true (by omega)) hm hl hs0) hs1
        · subst hy
          have e2 : (y + (y - 2)) / 2 = y - 1 := by omega
          rw [e2] at hm
          right
          exact probe_hit (decide_eq_true (by omega)) hm hl hs1
      by_cases hk : grid (idx x) (idx y) = 3
      · rw [if_pos hk] at h
        simp only [Option.bind_eq_some] at h
        obtain ⟨s2, hs2, h⟩ := h
        rcases hfin with hfin | hfin
        · exact key _ 0 (probe_keep (by decide) (probe_keep (by decide) hfin hs2) h) rfl
        · exact key _ 1 (probe_keep (by decide) (probe_keep (by decide) hfin hs2) h) rfl
      · rw [if_neg hk] at h
        injection h with h
        rcases hfin with hfin | hfin
        · exact key _ 0 hfin h
        · exact key _ 1 hfin h
    · subst hx
      have hk : grid (idx x) (idx y) = 3 := by
        by_contra hne
        have := hdir (by rw [hp]; intro hc; injection hc with hc; exact hne hc)
        rw [if_pos rfl] at this
        omega
      rw [if_pos hk] at h
      simp only [Option.bind_eq_some] at h
      obtain ⟨s2, hs2, h⟩ := h
      have e1 : (x + (x - 2)) / 2 = x - 1 := by omega
      rw [e1] at hm
      rcases hy with hy | hy
      · subst hy
        have e2 : (y + (y + 2)) / 2 = y + 1 := by omega
        rw [e2] at hm
        exact key _ 2 (probe_keep (by decide)
          (probe_hit (decide_eq_true (by omega)) hm hl hs2) h) rfl
      · subst hy
        have e2 : (y + (y - 2)) / 2 = y - 1 := by omega
        rw [e2] at hm
        exact key _ 3 (probe_hit (decide_eq_true (by omega)) hm hl h) rfl
  · subst ht
    rw [if_neg (by decide), if_pos rfl] at h
    simp only [Option.bind_eq_some] at h
    obtain ⟨s0, hs0, s1, hs1, h⟩ := h
    rcases hx with hx | hx
    swap
    · subst hx
      have e1 : (x + (x - 2)) / 2 = x - 1 := by omega
      rw [e1] at hm
      have hfin : (s1.1 = true ∧ s1.2 0 = (x - 2, d2)) ∨ (s1.1 = true ∧ s1.2 1 = (x - 2, d2)) := by
        rcases hy with hy | hy
        · subst hy
          have e2 : (y + (y + 2)) / 2 = y + 1 := by omega
          rw [e2] at hm
          left
          exact probe_keep (by decide)
            (probe_hit (decide_eq_true (by omega)) hm hl hs0) hs1
        · subst hy
          have e2 : (y + (y - 2)) / 2 = y - 1 := by omega
          rw [e2] at hm
          right
          exact probe_hit (decide_eq_true (by omega)) hm hl hs1
      by_cases hk : grid (idx x) (idx y) = 4
      · rw [if_pos hk] at h
        simp only [Option.bind_eq_some] at h
        obtain ⟨s2, hs2, h⟩ := h
        rcases hfin with hfin | hfin
        · exact key _ 0 (probe_keep (by decide) (probe_keep (by decide) hfin hs2) h) rfl
        · exact key _ 1 (probe_keep (by decide) (probe_keep (by decide) hfin hs2) h) rfl
      · rw [if_neg hk] at h
        injection h with h
        rcases hfin with hfin | hfin
        · exact key _ 0 hfin h
        · exact key _ 1 hfin h
    · subst hx
      have hk : grid (idx x) (idx y) = 4 := by
        by_contra hne
        have := hdir (by rw [hp]; intro hc; injection hc with hc; exact hne hc)
        rw [if_neg (by decide)] at this
        omega
      rw [if_pos hk] at h
      simp only [Option.bind_eq_some] at h
      obtain ⟨s2, hs2, h⟩ := h
      have e1 : (x + (x + 2)) / 2 = x + 1 := by omega
      rw [e1] at hm
      rcases hy with hy | hy
      · subst hy
        have e2 : (y + (y + 2)) / 2 = y + 1 := by omega
        rw [e2] at hm
        exact key _ 2 (probe_keep (by decide)
          (probe_hit (decide_eq_true (by omega)) hm hl hs2) h) rfl
      · subst hy
        have e2 : (y + (y - 2)) / 2 = y - 1 := by omega
        rw [e2] at hm
        exact key _ 3 (probe_hit (decide_eq_true (by omega)) hm hl h) rfl

/-! ## Properties of the move validator and of the relocation step -/

/-- C7: for every board, player and in-range from/to, a destination cell that is not
Empty makes `validMove` return false (board and counter as they were). -/
theorem validMove_occupied_rejected (xFrom xTo yFrom yTo turn : Int) (grid : Grid)
    (pieces d : Int) (hto : cell grid xTo yTo = some d) (hd : d ≠ 0) :
    validMove xFrom xTo yFrom yTo turn grid pieces = some (false, grid, pieces) :=
  validMove_occupied xFrom yFrom turn pieces hto hd

/-- Witness for C7: on the starting position player 1 tries (1,0)→(2,1), a square that
holds a man. -/
theorem validMove_occupied_rejected_witness :
    validMove 1 2 0 1 1 initialGrid 12 = some (false, initialGrid, 12) :=
  validMove_occupied_rejected 1 2 0 1 1 initialGrid 12 1 (by decide) (by decide)

/-- C5: with turn = 1 and a player-1 man on the source square, every in-range move whose
destination row is less than the source row is rejected by `validMove`, whatever the
destination column and whatever the destination holds. -/
theorem validMove_p1_man_backward_rejected (xFrom xTo yFrom yTo : Int) (grid : Grid)
    (pieces : Int) (hfrom : cell grid xFrom yFrom = some 1) (hto : inRange xTo yTo)
    (hlt : xTo < xFrom) :
    validMove xFrom xTo yFrom yTo 1 grid pieces = some (false, grid, pieces) := by
  have h1 : ¬ ((xTo = xFrom + 1 ∨ xTo = xFrom + 2) ∧
      (yTo = yFrom + 1 ∨ yTo = yFrom - 1 ∨ yTo = yFrom + 2 ∨ yTo = yFrom - 2)) := by omega
  unfold validMove
  rw [cell_some grid hto, hfrom]
  simp [h1]


/-- Witness for C5: the man on (6,5) of `lateGrid` tries (6,5)→(5,4). -/
theorem validMove_p1_man_backward_rejected_witness :
    validMove 6 5 5 4 1 lateGrid 3 = some (false, lateGrid, 3) :=
  validMove_p1_man_backward_rejected 6 5 5 4 lateGrid 3 (by decide) (by decide) (by decide)

/-- C1: on a well-formed board, for either player and in-range squares, a move of exactly
two rows and two columns always gets an answer from `validMove`; if the answer is true, the
midpoint square ((xFrom+xTo)/2, (yFrom+yTo)/2) held the opponent's man (3 - turn) or king
(5 - turn) before the call and is Empty after it; and if the midpoint is Empty or holds the
mover's own man or king, the answer is false. -/
theorem validMove_jump_needs_opponent (xFrom xTo yFrom yTo turn : Int) (grid : Grid)
    (pieces : Int) (hw : wellFormed grid) (ht : turn = 1 ∨ turn = 2)
    (hfrom : inRange xFrom yFrom) (hto : inRange xTo yTo)
    (hx : xTo = xFrom + 2 ∨ xTo = xFrom - 2) (hy : yTo = yFrom + 2 ∨ yTo = yFrom - 2) :
    ∃ b grid1 pieces1 m,
      validMove xFrom xTo yFrom yTo turn grid pieces = some (b, grid1, pieces1) ∧
      cell grid ((xFrom + xTo) / 2) ((yFrom + yTo) / 2) = some m ∧
      (b = true → (m = 3 - turn ∨ m = 5 - turn) ∧
        cell grid1 ((xFrom + xTo) / 2) ((yFrom + yTo) / 2) = some 0) ∧
      (m = 0 ∨ m = turn ∨ m = turn + 2 → b = false) := by
  have hmid : inRange ((xFrom + xTo) / 2) ((yFrom + yTo) / 2) := by
    unfold inRange at *; omega
  rcases validMove_cases xFrom xTo yFrom yTo turn grid pieces hfrom hto with
    h | ⟨_, _, h1, h2⟩ | ⟨b, m, h, _, _, hb, _, _, hm, m0, m1, m2, m3⟩
  · exact ⟨false, grid, pieces, _, h, cell_some grid hmid, fun hb => Bool.noConfusion hb,
      fun _ => rfl⟩
  · omega
  · have hbe : b = (yFrom + yTo) / 2 := by omega
    subst hbe
    have hv := wellFormed_cell hw hm
    refine ⟨true, _, _, m, h, hm, fun _ => ⟨by omega, cell_upd_same 0 hmid⟩, fun hc => ?_⟩
    omega

/-- Witness for C1: player 1 jumps from (2,1) over the man on (3,2) to (4,3) in `jumpGrid`. -/
theorem validMove_jump_needs_opponent_witness :
    ∃ b grid1 pieces1 m,
      validMove 2 4 1 3 1 jumpGrid 12 = some (b, grid1, pieces1) ∧
      cell jumpGrid ((2 + 4) / 2) ((1 + 3) / 2) = some m ∧
      (b = true → (m = 3 - 1 ∨ m = 5 - 1) ∧
        cell grid1 ((2 + 4) / 2) ((1 + 3) / 2) = some 0) ∧
      (m = 0 ∨ m = 1 ∨ m = 1 + 2 → b = false) :=
  validMove_jump_needs_opponent 2 4 1 3 1 jumpGrid 12 (by decide) (by decide) (by decide)
    (by decide) (by decide) (by decide)

/-- C3: for either player, a move of exactly two rows and two columns from a square holding
that player's man or king, in a direction the piece may move (a player-1 man only to a
higher row, a player-2 man only to a lower row), onto an in-range Empty square, with the
opponent's man or king on the midpoint, is accepted by `validMove`; afterwards the midpoint
is Empty, the counter is one less and every other cell is as before. -/
theorem validMove_jump_accepted (xFrom xTo yFrom yTo turn : Int) (grid : Grid)
    (pieces s m : Int) (ht : turn = 1 ∨ turn = 2)
    (hfrom : cell grid xFrom yFrom = some s) (hs : s = turn ∨ s = turn + 2)
    (hto : cell grid xTo yTo = some 0)
    (hx : xTo = xFrom + 2 ∨ xTo = xFrom - 2) (hy : yTo = yFrom + 2 ∨ yTo = yFrom - 2)
    (hdir1 : s = 1 → xTo = xFrom + 2) (hdir2 : s = 2 → xTo = xFrom - 2)
    (hmid : cell grid ((xFrom + xTo) / 2) ((yFrom + yTo) / 2) = some m)
    (hm : m = 3 - turn ∨ m = 5 - turn) :
    ∃ grid1, validMove xFrom xTo yFrom yTo turn grid pieces = some (true, grid1, pieces - 1) ∧
      cell grid1 ((xFrom + xTo) / 2) ((yFrom + yTo) / 2) = some 0 ∧
      ∀ x y, ¬ (x = (xFrom + xTo) / 2 ∧ y = (yFrom + yTo) / 2) →
        cell grid1 x y = cell grid x y := by
  have hmr := cell_inRange hmid
  have hne : ¬ (m = 0 ∨ m = turn ∨ m = turn + 2 ∨ m = turn - 2) := by omega
  have hd1 : s ≠ 1 ∨ xTo = xFrom + 2 := by
    by_cases h : s = 1
    · exact Or.inr (hdir1 h)
    · exact Or.inl h
  have hd2 : s ≠ 2 ∨ xTo = xFrom - 2 := by
    by_cases h : s = 2
    · exact Or.inr (hdir2 h)
    · exact Or.inl h
  have hres : captureAt ((xFrom + xTo) / 2) ((yFrom + yTo) / 2) turn grid pieces =
      some (true, upd grid ((xFrom + xTo) / 2) ((yFrom + yTo) / 2) 0, pieces - 1) := by
    rw [captureAt_eq turn pieces hmid, if_neg hne]
  rw [validMove_eq turn pieces hto hfrom]
  clear hne hm hs ht hdir1 hdir2
  split_ifs
  all_goals first
    | omega
    | (have e1 : (xFrom + xTo) / 2 = xTo - 1 := by omega
       have e2 : (yFrom + yTo) / 2 = yTo + 1 := by omega
       rw [e1, e2] at hres hmr ⊢
       exact ⟨_, hres, cell_upd_same 0 hmr, fun x y hxy => cell_upd_other 0 hmr hxy⟩)
    | (have e1 : (xFrom + xTo) / 2 = xTo - 1 := by omega
       have e2 : (yFrom + yTo) / 2 = yTo - 1 := by omega
       rw [e1, e2] at hres hmr ⊢
       exact ⟨_, hres, cell_upd_same 0 hmr, fun x y hxy => cell_upd_other 0 hmr hxy⟩)
    | (have e1 : (xFrom + xTo) / 2 = xTo + 1 := by omega
       have e2 : (yFrom + yTo) / 2 = yTo + 1 := by omega
       rw [e1, e2] at hres hmr ⊢
       exact ⟨_, hres, cell_upd_same 0 hmr, fun x y hxy => cell_upd_other 0 hmr hxy⟩)
    | (have e1 : (xFrom + xTo) / 2 = xTo + 1 := by omega
       have e2 : (yFrom + yTo) / 2 = yTo - 1 := by omega
       rw [e1, e2] at hres hmr ⊢
       exact ⟨_, hres, cell_upd_same 0 hmr, fun x y hxy => cell_upd_other 0 hmr hxy⟩)

/-- Witness for C3: the jump from (2,1) over (3,2) to (4,3) in `jumpGrid`. -/
theorem validMove_jump_accepted_witness :
    ∃ grid1, validMove 2 4 1 3 1 jumpGrid 12 = some (true, grid1, 12 - 1) ∧
      cell grid1 ((2 + 4) / 2) ((1 + 3) / 2) = some 0 ∧
      ∀ x y, ¬ (x = (2 + 4) / 2 ∧ y = (1 + 3) / 2) → cell grid1 x y = cell jumpGrid x y :=
  validMove_jump_accepted 2 4 1 3 1 jumpGrid 12 1 2 (by decide) (by decide) (by decide)
    (by decide) (by decide) (by decide) (by decide) (by decide) (by decide) (by decide)

/-- C4: for either player, a move of exactly one row and one column from a square holding
that player's man or king, in a direction the piece may move (a player-1 man only to a
higher row, a player-2 man only to a lower row), onto an in-range Empty square, is accepted
by `validMove` with the board and the counter unchanged; in particular on the board that
`arrangeGrid` produces the player-1 move from (2,3) to (3,4) is accepted without capture. -/
theorem validMove_step_accepted :
    (∀ (xFrom xTo yFrom yTo turn : Int) (grid : Grid) (pieces s : Int),
      (turn = 1 ∨ turn = 2) →
      cell grid xFrom yFrom = some s → (s = turn ∨ s = turn + 2) →
      cell grid xTo yTo = some 0 →
      (xTo = xFrom + 1 ∨ xTo = xFrom - 1) → (yTo = yFrom + 1 ∨ yTo = yFrom - 1) →
      (s = 1 → xTo = xFrom + 1) → (s = 2 → xTo = xFrom - 1) →
      validMove xFrom xTo yFrom yTo turn grid pieces = some (true, grid, pieces)) ∧
    (∀ (g0 : Grid) (pieces : Int), ∃ grid, arrangeGrid g0 = some grid ∧
      validMove 2 3 3 4 1 grid pieces = some (true, grid, pieces)) := by
  constructor
  · intro xFrom xTo yFrom yTo turn grid pieces s ht hfrom hs hto hx hy hdir1 hdir2
    have hd1 : s ≠ 1 ∨ xTo = xFrom + 1 := by
      by_cases h : s = 1
      · exact Or.inr (hdir1 h)
      · exact Or.inl h
    have hd2 : s ≠ 2 ∨ xTo = xFrom - 1 := by
      by_cases h : s = 2
      · exact Or.inr (hdir2 h)
      · exact Or.inl h
    rw [validMove_eq turn pieces hto hfrom]
    clear hdir1 hdir2 hfrom hto
    split_ifs
    all_goals first
      | rfl
      | omega
  · intro g0 pieces
    exact ⟨initialGrid, arrangeGrid_eq g0, by
      rw [validMove_eq 1 pieces (s := 1) (by decide) (by decide)]
      rfl⟩

/-- Witness for C4: player 2 steps from (5,4) to (4,3) in `jumpGrid`. -/
theorem validMove_step_accepted_witness :
    validMove 5 4 4 3 2 jumpGrid 12 = some (true, jumpGrid, 12) :=
  validMove_step_accepted.1 5 4 4 3 2 jumpGrid 12 2 (by decide) (by decide) (by decide)
    (by decide) (by decide) (by decide) (by decide) (by decide)

/-- C9: on a well-formed board, for either player and in-range squares, `validMove` always
answers, and the amount by which it lowers the counter equals the number of the opponent's
pieces it takes off the board; that amount is 1 when a capture is accepted (the answer is
true on a two-row move, the only case in which the code removes a piece) and 0 otherwise
(the board is then untouched); the number of the mover's own pieces never changes.  The
function has a single counter parameter, so no other counter can change. -/
theorem validMove_counter_matches_board (xFrom xTo yFrom yTo turn : Int) (grid : Grid)
    (pieces : Int) (hw : wellFormed grid) (ht : turn = 1 ∨ turn = 2)
    (hfrom : inRange xFrom yFrom) (hto : inRange xTo yTo) :
    ∃ b grid1 pieces1,
      validMove xFrom xTo yFrom yTo turn grid pieces = some (b, grid1, pieces1) ∧
      pieces - pieces1 = (piecesOf (3 - turn) grid : Int) - (piecesOf (3 - turn) grid1 : Int) ∧
      (b = true ∧ (xTo = xFrom + 2 ∨ xTo = xFrom - 2) → pieces - pieces1 = 1) ∧
      (¬ (b = true ∧ (xTo = xFrom + 2 ∨ xTo = xFrom - 2)) →
        pieces - pieces1 = 0 ∧ grid1 = grid) ∧
      piecesOf turn grid1 = piecesOf turn grid := by
  rcases validMove_cases xFrom xTo yFrom yTo turn grid pieces hfrom hto with
    h | ⟨h, _, h1, h2⟩ | ⟨b, m, h, _, hx, _, _, _, hm, m0, m1, m2, m3⟩
  · refine ⟨false, grid, pieces, h, by simp, ?_, fun _ => ⟨by simp, rfl⟩, rfl⟩
    intro hb
    exact Bool.noConfusion hb.1
  · refine ⟨true, grid, pieces, h, by simp, ?_, fun _ => ⟨by simp, rfl⟩, rfl⟩
    intro hb
    omega
  · have hv := wellFormed_cell hw hm
    have hopp := piecesOf_upd_zero (3 - turn) (by omega) (by omega) hm
    have hown := piecesOf_upd_zero turn (by omega) (by omega) hm
    rw [if_pos (by omega)] at hopp
    rw [if_neg (by omega), Nat.add_zero] at hown
    refine ⟨true, _, _, h, ?_, fun _ => by omega, fun hn => absurd ⟨rfl, hx⟩ hn, hown⟩
    rw [← hopp]
    push_cast
    omega

/-- Witness for C9: the capturing jump from (2,1) to (4,3) in `jumpGrid`. -/
theorem validMove_counter_matches_board_witness :
    ∃ b grid1 pieces1,
      validMove 2 4 1 3 1 jumpGrid 12 = some (b, grid1, pieces1) ∧
      12 - pieces1 = (piecesOf (3 - 1) jumpGrid : Int) - (piecesOf (3 - 1) grid1 : Int) ∧
      (b = true ∧ ((4 : Int) = 2 + 2 ∨ (4 : Int) = 2 - 2) → 12 - pieces1 = 1) ∧
      (¬ (b = true ∧ ((4 : Int) = 2 + 2 ∨ (4 : Int) = 2 - 2)) →
        12 - pieces1 = 0 ∧ grid1 = jumpGrid) ∧
      piecesOf 1 grid1 = piecesOf 1 jumpGrid :=
  validMove_counter_matches_board 2 4 1 3 1 jumpGrid 12 (by decide) (by decide) (by decide)
    (by decide)

/-- C10: for in-range squares, whenever `validMove` answers true the source cell holds what
it held before, the destination cell is still Empty, and there is one square outside which
the board is as before; that square either is unchanged too or has become Empty. -/
theorem validMove_does_not_relocate (xFrom xTo yFrom yTo turn : Int) (grid grid1 : Grid)
    (pieces pieces1 : Int) (hfrom : inRange xFrom yFrom) (hto : inRange xTo yTo)
    (hacc : validMove xFrom xTo yFrom yTo turn grid pieces = some (true, grid1, pieces1)) :
    cell grid1 xFrom yFrom = cell grid xFrom yFrom ∧ cell grid1 xTo yTo = some 0 ∧
    ∃ a b, (∀ x y, ¬ (x = a ∧ y = b) → cell grid1 x y = cell grid x y) ∧
      (cell grid1 a b = cell grid a b ∨ cell grid1 a b = some 0) := by
  rcases validMove_cases xFrom xTo yFrom yTo turn grid pieces hfrom hto with
    h | ⟨h, hd, _, _⟩ | ⟨b, m, h, hd, hx, _, _, _, hm, _⟩
  · rw [h] at hacc
    simp at hacc
  · rw [h] at hacc
    simp only [Option.some.injEq, Prod.mk.injEq, true_and] at hacc
    rw [← hacc.1]
    exact ⟨rfl, hd, 0, 0, fun _ _ _ => rfl, Or.inl rfl⟩
  · rw [h] at hacc
    simp only [Option.some.injEq, Prod.mk.injEq, true_and] at hacc
    rw [← hacc.1]
    have hmr := cell_inRange hm
    refine ⟨?_, ?_, (xFrom + xTo) / 2, b, fun x y hxy => cell_upd_other 0 hmr hxy,
      Or.inr (cell_upd_same 0 hmr)⟩
    · exact cell_upd_other 0 hmr (by omega)
    · rw [cell_upd_other 0 hmr (by omega)]
      exact hd

/-- Witness for C10: the capturing jump from (2,1) to (4,3) in `jumpGrid`, which empties
(3,2). -/
theorem validMove_does_not_relocate_witness :
    cell (upd jumpGrid 3 2 0) 2 1 = cell jumpGrid 2 1 ∧ cell (upd jumpGrid 3 2 0) 4 3 = some 0 ∧
    ∃ a b, (∀ x y, ¬ (x = a ∧ y = b) → cell (upd jumpGrid 3 2 0) x y = cell jumpGrid x y) ∧
      (cell (upd jumpGrid 3 2 0) a b = cell jumpGrid a b ∨
        cell (upd jumpGrid 3 2 0) a b = some 0) :=
  validMove_does_not_relocate 2 4 1 3 1 jumpGrid (upd jumpGrid 3 2 0) 12 11 (by decide)
    (by decide) rfl

/-- C8: after an accepted move of either player, the relocation step of `main` and the one
at the end of `grantDoubleJump` both succeed and produce the same board: the destination
holds the mover's King (turn + 2) exactly when the source held that King or the destination
row is the opponent's back rank (7 for player 1, 0 for player 2), and the mover's Man (turn)
otherwise; the source is Empty; every other cell is as before.  In particular a King stays
a King. -/
theorem relocation_crowns (turn xFrom xTo yFrom yTo : Int) (grid grid1 : Grid)
    (pieces pieces1 s : Int) (ht : turn = 1 ∨ turn = 2)
    (hacc : validMove xFrom xTo yFrom yTo turn grid pieces = some (true, grid1, pieces1))
    (hfrom : cell grid1 xFrom yFrom = some s) (hto : inRange xTo yTo) :
    ∃ grid2,
      relocateMain turn xFrom xTo yFrom yTo grid1 = some grid2 ∧
      relocateChain turn xFrom yFrom xTo yTo grid1 = some (grid2, xTo, yTo) ∧
      cell grid2 xTo yTo =
        some (if s = turn + 2 ∨ xTo = backRank turn then turn + 2 else turn) ∧
      cell grid2 xFrom yFrom = some 0 ∧
      (∀ x y, ¬ (x = xTo ∧ y = yTo) → ¬ (x = xFrom ∧ y = yFrom) →
        cell grid2 x y = cell grid1 x y) ∧
      (s = turn + 2 → cell grid2 xTo yTo = some (turn + 2)) := by
  have hfr := cell_inRange hfrom
  have hne : ¬ (xTo = xFrom ∧ yTo = yFrom) := by
    rintro ⟨hx, hy⟩
    rw [hx, hy, validMove_same_square _ _ _ _ _ hfr] at hacc
    simp at hacc
  rcases ht with ht | ht <;> subst ht
  · obtain ⟨hw, hc1, hc2, hc3⟩ :=
      relocation_writes grid1 (if s = 3 ∨ xTo = 7 then 3 else 1) hfr hto hne
    have hv1 : (if s = 1 + 2 ∨ xTo = backRank 1 then (1 : Int) + 2 else 1) =
        (if s = 3 ∨ xTo = 7 then 3 else 1) := by
      norm_num [backRank]
    have hv2 : (if s = 1 + 2 ∨ (xTo = 7 ∧ (1 : Int) = 1) ∨ (xTo = 0 ∧ (1 : Int) = 2)
        then (1 : Int) + 2 else 1) = (if s = 3 ∨ xTo = 7 then 3 else 1) := by
      norm_num
    refine ⟨_, ?_, ?_, ?_, hc2, hc3, ?_⟩
    · unfold relocateMain
      rw [if_pos rfl, hfrom, Option.some_bind]
      exact hw
    · unfold relocateChain
      rw [hfrom, Option.some_bind, hv2, setCell_some _ hto, Option.some_bind,
        setCell_some _ hfr, Option.some_bind]
    · rw [hv1]
      exact hc1
    · intro hs
      rw [hc1, if_pos (Or.inl (by omega))]
      rfl
  · obtain ⟨hw, hc1, hc2, hc3⟩ :=
      relocation_writes grid1 (if s = 4 ∨ xTo = 0 then 4 else 2) hfr hto hne
    have hv1 : (if s = 2 + 2 ∨ xTo = backRank 2 then (2 : Int) + 2 else 2) =
        (if s = 4 ∨ xTo = 0 then 4 else 2) := by
      norm_num [backRank]
    have hv2 : (if s = 2 + 2 ∨ (xTo = 7 ∧ (2 : Int) = 1) ∨ (xTo = 0 ∧ (2 : Int) = 2)
        then (2 : Int) + 2 else 2) = (if s = 4 ∨ xTo = 0 then 4 else 2) := by
      norm_num
    refine ⟨_, ?_, ?_, ?_, hc2, hc3, ?_⟩
    · unfold relocateMain
      rw [if_neg (by decide), hfrom, Option.some_bind]
      exact hw
    · unfold relocateChain
      rw [hfrom, Option.some_bind, hv2, setCell_some _ hto, Option.some_bind,
        setCell_some _ hfr, Option.some_bind]
    · rw [hv1]
      exact hc1
    · intro hs
      rw [hc1, if_pos (Or.inl (by omega))]
      rfl

/-- Witness for C8: player 1 has jumped from (2,1) to (4,3) in `jumpGrid`; the man lands on
(4,3) as a man. -/
theorem relocation_crowns_witness :
    ∃ grid2,
      relocateMain 1 2 4 1 3 (upd jumpGrid 3 2 0) = some grid2 ∧
      relocateChain 1 2 1 4 3 (upd jumpGrid 3 2 0) = some (grid2, 4, 3) ∧
      cell grid2 4 3 = some (if (1 : Int) = 1 + 2 ∨ (4 : Int) = backRank 1 then 1 + 2 else 1) ∧
      cell grid2 2 1 = some 0 ∧
      (∀ x y, ¬ (x = 4 ∧ y = 3) → ¬ (x = 2 ∧ y = 1) →
        cell grid2 x y = cell (upd jumpGrid 3 2 0) x y) ∧
      ((1 : Int) = 1 + 2 → cell grid2 4 3 = some (1 + 2)) :=
  relocation_crowns 1 2 4 1 3 jumpGrid (upd jumpGrid 3 2 0) 12 11 1 (by decide) rfl
    (by decide) (by decide)

/-- C2 (the code departs from the claim): on the board after player 1's opening move,
`validMove` accepts player 2's sideways move from (5,0) to (5,1) (no row of displacement)
and player 2's move from (5,0) to (2,1) (three rows), leaving board and counter as they
were; and in `offGrid` it accepts player 1's move from (3,2) to (5,3) (two rows, one
column), taking the man on (4,2). -/
theorem validMove_accepts_other_shapes :
    validMove 5 5 0 1 2 openingGrid 12 = some (true, openingGrid, 12) ∧
    validMove 5 2 0 1 2 openingGrid 12 = some (true, openingGrid, 12) ∧
    validMove 3 5 2 3 1 offGrid 12 = some (true, upd offGrid 4 2 0, 11) :=
  ⟨rfl, rfl, rfl⟩

/-- C6 (the code departs from the claim): player 2's man on (4,3) of `midGrid` moves three
rows toward its own back rank, to the empty square (7,5), and `validMove` accepts. -/
theorem validMove_accepts_p2_man_backward :
    cell midGrid 4 3 = some 2 ∧
    validMove 4 7 3 5 2 midGrid 12 = some (true, midGrid, 12) :=
  ⟨rfl, rfl⟩

/-! ## Properties of the chain-jump resolver and of the turn controller -/

/-- C11: for in-range squares, when `validMove` returns false the board and the counter it
leaves are those of the call, and the pass through the body of `main`'s loop ends where it
began: same player to move, same counters, same board, no relocation. -/
theorem rejection_is_atomic (g : Game) (xFrom xTo yFrom yTo : Int) (grid1 : Grid)
    (pieces1 : Int) (hfrom : inRange xFrom yFrom) (hto : inRange xTo yTo)
    (hrej : validMove xFrom xTo yFrom yTo g.turn g.grid (oppPieces g) =
      some (false, grid1, pieces1)) :
    grid1 = g.grid ∧ pieces1 = oppPieces g ∧
    mainMove g xFrom xTo yFrom yTo = some (Control.move g) := by
  obtain ⟨h1, h2⟩ := validMove_false hfrom hto hrej
  refine ⟨h1, h2, ?_⟩
  unfold mainMove
  rw [hrej, Option.some_bind, h1, h2]
  simp only [Bool.false_eq_true, if_false]
  rw [withBoard_self]

/-- Witness for C11: on the starting position player 1 tries (1,0)→(2,1), an occupied
square. -/
theorem rejection_is_atomic_witness :
    initialGrid = (Game.mk 1 12 12 initialGrid clearedReg).grid ∧
    12 = oppPieces (Game.mk 1 12 12 initialGrid clearedReg) ∧
    mainMove (Game.mk 1 12 12 initialGrid clearedReg) 1 2 0 1 =
      some (Control.move (Game.mk 1 12 12 initialGrid clearedReg)) :=
  rejection_is_atomic (Game.mk 1 12 12 initialGrid clearedReg) 1 2 0 1 initialGrid 12
    (by decide) (by decide) rfl

/-- C12: for an in-range position, when `isDoubleJumpAvailable` returns true every registry
entry other than the sentinel (-1,-1) is an in-range square that is Empty, lies exactly two
rows and two columns from (x,y), has the opponent's man or king on the midpoint and, unless
(x,y) holds the mover's King (in particular when it holds no king at all), lies in the
mover's forward direction: row x+2 for player 1, row x-2 for player 2. -/
theorem registry_entries_are_jumps (x y turn : Int) (grid : Grid) (reg0 reg : JumpReg)
    (hpos : inRange x y)
    (h : isDoubleJumpAvailable x y turn grid reg0 = some (true, reg)) :
    ∀ i, reg i ≠ (-1, -1) →
      inRange (reg i).1 (reg i).2 ∧ cell grid (reg i).1 (reg i).2 = some 0 ∧
      ((reg i).1 = x + 2 ∨ (reg i).1 = x - 2) ∧ ((reg i).2 = y + 2 ∨ (reg i).2 = y - 2) ∧
      (cell grid ((x + (reg i).1) / 2) ((y + (reg i).2) / 2) = some (3 - turn) ∨
        cell grid ((x + (reg i).1) / 2) ((y + (reg i).2) / 2) = some (5 - turn)) ∧
      (cell grid x y ≠ some (turn + 2) → (reg i).1 = x + (if turn = 1 then 2 else -2)) ∧
      (cell grid x y ≠ some 3 → cell grid x y ≠ some 4 →
        (reg i).1 = x + (if turn = 1 then 2 else -2)) := by
  intro i hi
  have ht : turn = 1 ∨ turn = 2 := by
    by_contra hn
    have h1 : ¬ turn = 1 := fun hh => hn (Or.inl hh)
    have h2 : ¬ turn = 2 := fun hh => hn (Or.inr hh)
    unfold isDoubleJumpAvailable at h
    rw [cell_some grid hpos, Option.some_bind] at h
    unfold isDoubleJumpAvailableBody at h
    rcases hg : edgeGuard x y grid with _ | early
    · rw [hg] at h
      exact Option.noConfusion h
    · rw [hg, Option.some_bind] at h
      cases early <;> simp [h1, h2] at h
  rcases (registry_sound h).1 i with hs | ⟨hx, hy, hl, hm, hdir⟩
  · exact absurd hs hi
  · refine ⟨cell_inRange hl, hl, hx, hy, hm, hdir, fun h3 h4 => hdir ?_⟩
    rcases ht with ht | ht <;> subst ht
    · exact h3
    · exact h4

/-- Witness for C12: after the jump (2,1)→(4,3) in `chainGrid`, entry 0 of the registry
holds (6,5). -/
theorem registry_entries_are_jumps_witness :
    inRange (chainReg 0).1 (chainReg 0).2 ∧
    cell chainGridJumped (chainReg 0).1 (chainReg 0).2 = some 0 ∧
    ((chainReg 0).1 = 4 + 2 ∨ (chainReg 0).1 = 4 - 2) ∧
    ((chainReg 0).2 = 3 + 2 ∨ (chainReg 0).2 = 3 - 2) ∧
    (cell chainGridJumped ((4 + (chainReg 0).1) / 2) ((3 + (chainReg 0).2) / 2) =
        some (3 - 1) ∨
      cell chainGridJumped ((4 + (chainReg 0).1) / 2) ((3 + (chainReg 0).2) / 2) =
        some (5 - 1)) ∧
    (cell chainGridJumped 4 3 ≠ some (1 + 2) →
      (chainReg 0).1 = 4 + (if (1 : Int) = 1 then 2 else -2)) ∧
    (cell chainGridJumped 4 3 ≠ some 3 → cell chainGridJumped 4 3 ≠ some 4 →
      (chainReg 0).1 = 4 + (if (1 : Int) = 1 then 2 else -2)) :=
  registry_entries_are_jumps 4 3 1 chainGridJumped clearedReg chainReg (by decide) rfl 0
    (by decide)

/-- C14: in a call of `grantDoubleJump` on the registry just computed for the position of
the mover's piece, (1) an in-range destination that is not in the registry leaves the
program at the same prompt, with the same board, counter and position, whatever the
validator is (so `validMove` is not consulted); and (2) every answer is handled, leading
either back to that same prompt, or to a return with the board untouched and an
out-of-range position (a decline or an out-of-range destination), or to a return at a
destination that is in the registry. -/
theorem chain_destination_must_be_registered (p : Prompt) (reg0 : JumpReg) (s xIn yIn : Int)
    (ht : p.game.turn = 1 ∨ p.game.turn = 2)
    (hpiece : cell p.game.grid p.x p.y = some s)
    (hs : s = p.game.turn ∨ s = p.game.turn + 2)
    (hreg : isDoubleJumpAvailable p.x p.y p.game.turn p.game.grid reg0 =
      some (true, p.game.jumpReg))
    (hlegal : p.legal = false) :
    (inRange (xIn - 1) (yIn - 1) → inRegistry p.game.jumpReg (xIn - 1) (yIn - 1) = false →
      ∀ vm, grantBodyWith vm p xIn yIn = some (GrantResult.again p)) ∧
    (∃ r, grantBody p xIn yIn = some r ∧
      (r = GrantResult.again p ∨
       (∃ x1 y1, r = GrantResult.ret p.game x1 y1 ∧ ¬ inRange x1 y1) ∨
       (∃ g, r = GrantResult.ret g (xIn - 1) (yIn - 1) ∧
         inRegistry p.game.jumpReg (xIn - 1) (yIn - 1) = true))) := by
  obtain ⟨game, x, y, legal⟩ := p
  simp only at ht hpiece hs hreg hlegal ⊢
  subst hlegal
  have hstay : ∀ vm, ¬ xIn = 0 → ¬ yIn = 0 →
      ¬ (xIn - 1 < 0 ∨ xIn - 1 > 7 ∨ yIn - 1 < 0 ∨ yIn - 1 > 7) →
      inRegistry game.jumpReg (xIn - 1) (yIn - 1) = false →
      grantBodyWith vm (Prompt.mk game x y false) xIn yIn =
        some (GrantResult.again (Prompt.mk game x y false)) := by
    intro vm hx0 hy0 hrange hnot
    unfold grantBodyWith
    simp only [hx0, hy0, hrange, hnot, if_false, Bool.or_false, Bool.false_eq_true]
  constructor
  · intro hr hnot vm
    unfold inRange at hr
    exact hstay vm (by omega) (by omega) (by omega) hnot
  · by_cases hx0 : xIn = 0
    · refine ⟨GrantResult.ret game (-1) (-1), ?_, Or.inr (Or.inl ⟨-1, -1, rfl, by decide⟩)⟩
      unfold grantBody grantBodyWith
      rw [if_pos hx0]
    by_cases hy0 : yIn = 0
    · refine ⟨GrantResult.ret game (-1) (-1), ?_, Or.inr (Or.inl ⟨-1, -1, rfl, by decide⟩)⟩
      unfold grantBody grantBodyWith
      rw [if_neg hx0, if_pos hy0]
    by_cases hrange : xIn - 1 < 0 ∨ xIn - 1 > 7 ∨ yIn - 1 < 0 ∨ yIn - 1 > 7
    · refine ⟨GrantResult.ret game (xIn - 1) (yIn - 1), ?_,
        Or.inr (Or.inl ⟨xIn - 1, yIn - 1, rfl, by unfold inRange; omega⟩)⟩
      unfold grantBody grantBodyWith
      simp only [hx0, hy0, hrange, if_false, if_true]
    by_cases hin : inRegistry game.jumpReg (xIn - 1) (yIn - 1) = true
    · obtain ⟨i, hi⟩ := (inRegistry_iff _ _ _).mp hin
      have hdest : inRange (xIn - 1) (yIn - 1) := by unfold inRange; omega
      have hq : qualifies game.grid x y game.turn (xIn - 1, yIn - 1) := by
        rcases (registry_sound hreg).1 i with h1 | h1
        · rw [hi] at h1
          simp only [Prod.mk.injEq] at h1
          omega
        · rw [hi] at h1
          exact h1
      have hv := validMove_qualifies (oppPieces game) ht hpiece hs hq
      simp only at hv
      obtain ⟨g2, hg2⟩ := relocateChain_some game.turn
        (upd game.grid ((x + (xIn - 1)) / 2) ((y + (yIn - 1)) / 2) 0)
        (cell_inRange hpiece) hdest
      refine ⟨GrantResult.ret (withBoard game g2 (oppPieces game - 1)) (xIn - 1) (yIn - 1), ?_,
        Or.inr (Or.inr ⟨_, rfl, hin⟩)⟩
      unfold grantBody grantBodyWith
      simp only [hx0, hy0, hrange, hin, if_false, Bool.or_true, if_true, hv,
        Option.some_bind, hg2]
    · have hnot : inRegistry game.jumpReg (xIn - 1) (yIn - 1) = false := by
        simpa using hin
      exact ⟨_, hstay validMove hx0 hy0 hrange hnot, Or.inl rfl⟩

/-- Witness for C14: at the prompt after the jump (2,1)→(4,3) in `chainGrid`, the player
types 5 6, the square (4,5), which is not in the registry. -/
theorem chain_destination_must_be_registered_witness :
    (inRange (5 - 1) (6 - 1) → inRegistry chainPrompt.game.jumpReg (5 - 1) (6 - 1) = false →
      ∀ vm, grantBodyWith vm chainPrompt 5 6 = some (GrantResult.again chainPrompt)) ∧
    (∃ r, grantBody chainPrompt 5 6 = some r ∧
      (r = GrantResult.again chainPrompt ∨
       (∃ x1 y1, r = GrantResult.ret chainPrompt.game x1 y1 ∧ ¬ inRange x1 y1) ∨
       (∃ g, r = GrantResult.ret g (5 - 1) (6 - 1) ∧
         inRegistry chainPrompt.game.jumpReg (5 - 1) (6 - 1) = true))) :=
  chain_destination_must_be_registered chainPrompt clearedReg 1 5 6 (by decide) rfl
    (by decide) rfl rfl

/-- C13: for either player and every in-range position, whatever the reads of the guard
that leave the array yield, `isDoubleJumpAvailable` returns, its answer is true exactly
when a capturing continuation exists (two rows and two columns away, on the board, Empty,
the opponent's man or king on the midpoint, forward unless the square holds the mover's
King), and when the answer is true every capturing continuation is an entry of the
registry. -/
theorem isDoubleJumpAvailable_finds_continuations (off : Int → Int → Int) (grid : Grid)
    {x y : Int} (turn : Int) (reg0 : JumpReg) (ht : turn = 1 ∨ turn = 2)
    (hpos : inRange x y) :
    ∃ b reg, isDoubleJumpAvailableAt off x y turn grid reg0 = some (b, reg) ∧
      (b = true ↔ ∃ d, qualifies grid x y turn d) ∧
      (b = true → ∀ d, qualifies grid x y turn d → d ≠ (-1, -1) ∧ ∃ i, reg i = d) := by
  rw [isDoubleJumpAvailableAt_eq off grid turn reg0 hpos]
  by_cases hg : edgeGuardAt off x y grid = true
  · rw [if_pos hg]
    refine ⟨false, reg0, rfl, ⟨fun hb => Bool.noConfusion hb, ?_⟩, fun hb => Bool.noConfusion hb⟩
    rintro ⟨d, hd⟩
    rw [edgeGuardAt_false_of_jump off ht hd] at hg
    exact Bool.noConfusion hg
  · rw [if_neg hg]
    obtain ⟨⟨b, reg⟩, hr⟩ := noGuard_total grid turn hpos
    refine ⟨b, reg, hr, ⟨fun hb => ?_, ?_⟩, fun _ d hd => ⟨?_, (noGuard_complete ht hpos hd hr).2⟩⟩
    · subst hb
      obtain ⟨i, hi⟩ := (noGuard_sound hr).2
      exact ⟨_, hi⟩
    · rintro ⟨d, hd⟩
      exact (noGuard_complete ht hpos hd hr).1
    · intro hc
      have hrange := cell_inRange hd.2.2.1
      rw [hc] at hrange
      exact absurd hrange (by decide)

/-- The statement of C13 at (1,0) of `edgeGridA`, where player 2's man has just landed and
the guard reads `grid[2][-1]`. -/
theorem isDoubleJumpAvailable_finds_continuations_witness :
    ((2 : Int) = 1 ∨ (2 : Int) = 2) ∧ inRange 1 0 ∧
    ∃ b reg, isDoubleJumpAvailableAt (fun _ _ => 0) 1 0 2 edgeGridA clearedReg = some (b, reg) ∧
      (b = true ↔ ∃ d, qualifies edgeGridA 1 0 2 d) ∧
      (b = true → ∀ d, qualifies edgeGridA 1 0 2 d → d ≠ (-1, -1) ∧ ∃ i, reg i = d) :=
  ⟨Or.inr rfl, by decide,
    isDoubleJumpAvailable_finds_continuations (fun _ _ => 0) edgeGridA 2 clearedReg (Or.inr rfl)
      (by decide)⟩

/-- C15 (the code departs from the claim): a decline (a 0 typed as row or as column) makes
`grantDoubleJump` return with the position (-1,-1) and the game untouched; but
`isDoubleJumpAvailable` at (-1,-1) first reads `grid[-1][-1]`, outside the array (no
defined result, for every board and player), and whatever value that read yields, the rest
of the function, for player 1 on `cornerGrid`, registers (1,1) and returns true. -/
theorem decline_does_not_end_chain :
    (∀ p xIn yIn, xIn = 0 ∨ yIn = 0 →
      grantBody p xIn yIn = some (GrantResult.ret p.game (-1) (-1))) ∧
    (∀ turn grid reg, isDoubleJumpAvailable (-1) (-1) turn grid reg = none) ∧
    ∀ pieceType reg, ∃ reg1,
      isDoubleJumpAvailableBody pieceType (-1) (-1) 1 cornerGrid reg = some (true, reg1) ∧
      reg1 0 = (1, 1) := by
  refine ⟨fun p xIn yIn h0 => ?_, fun _ _ _ => rfl, fun pieceType reg => ?_⟩
  · unfold grantBody grantBodyWith
    by_cases hx : xIn = 0
    · rw [if_pos hx]
    · rw [if_neg hx, if_pos (h0.resolve_left hx)]
  by_cases hk : pieceType = 3
  · subst hk
    exact ⟨_, rfl, rfl⟩
  · refine ⟨Function.update clearedReg 0 (1, 1), ?_, rfl⟩
    unfold isDoubleJumpAvailableBody
    have hg : edgeGuard (-1) (-1) cornerGrid = some false := rfl
    rw [hg, Option.some_bind]
    simp only [Bool.false_eq_true, if_false, if_pos, if_neg hk]
    rfl

/-- C16 (the code departs from the claim): an out-of-range destination makes
`grantDoubleJump` return with that position and the game untouched; but
`isDoubleJumpAvailable` at an out-of-range position first reads `grid[x][y]`, outside the
array (no defined result, for every board and player), and at (8,3), whatever value that
read yields, the rest of the function, for player 2 on `backRankGrid`, registers (6,5) and
returns true. -/
theorem out_of_range_does_not_end_chain :
    (∀ p xIn yIn, xIn ≠ 0 → yIn ≠ 0 → ¬ inRange (xIn - 1) (yIn - 1) →
      grantBody p xIn yIn = some (GrantResult.ret p.game (xIn - 1) (yIn - 1))) ∧
    (∀ x y turn grid reg, ¬ inRange x y → isDoubleJumpAvailable x y turn grid reg = none) ∧
    ∀ pieceType reg, ∃ reg1,
      isDoubleJumpAvailableBody pieceType 8 3 2 backRankGrid reg = some (true, reg1) ∧
      reg1 0 = (6, 5) := by
  refine ⟨fun p xIn yIn hx hy hr => ?_, fun x y turn grid reg hr => ?_,
    fun pieceType reg => ?_⟩
  · have hc : xIn - 1 < 0 ∨ xIn - 1 > 7 ∨ yIn - 1 < 0 ∨ yIn - 1 > 7 := by
      unfold inRange at hr
      omega
    unfold grantBody grantBodyWith
    simp only [if_neg hx, if_neg hy, if_pos hc]
  · unfold isDoubleJumpAvailable
    rw [cell_none hr]
    rfl
  by_cases hk : pieceType = 4
  · subst hk
    exact ⟨_, rfl, rfl⟩
  · refine ⟨Function.update clearedReg 0 (6, 5), ?_, rfl⟩
    unfold isDoubleJumpAvailableBody
    have hg : edgeGuard 8 3 backRankGrid = some false := rfl
    rw [hg, Option.some_bind]
    simp only [Bool.false_eq_true, if_false, if_neg hk]
    rfl

/-- C17 (the code departs from the claim): on the board after player 1's opening move,
player 2 moves the man on (5,0) to (2,1), three rows away; `jumped` is set, `validMove`
accepts without removing a piece or touching the counter, and `main` goes on to the loop
head that calls `isDoubleJumpAvailable`. -/
theorem resolver_entered_without_capture :
    jumped 5 2 = true ∧
    validMove 5 2 0 1 2 openingGrid 12 = some (true, openingGrid, 12) ∧
    ∀ reg, mainMove (Game.mk 2 12 12 openingGrid reg) 5 2 0 1 =
      chainWhile (Game.mk 2 12 12 (upd (upd openingGrid 2 1 2) 5 0 0) reg) 2 1 :=
  ⟨rfl, rfl, fun _ => rfl⟩

/-- C18: for every board and player, from an in-range position on row 1 or on row 6 without
a capturing jump to row 3, respectively row 4 (an Empty landing square with the opponent's
man or king on the midpoint), `isDoubleJumpAvailable` returns false, whatever the reads of
its guard that leave the array yield. -/
theorem isDoubleJumpAvailable_row_edge_false (off : Int → Int → Int) (grid : Grid)
    {x y : Int} (turn : Int) (reg0 : JumpReg) (hpos : inRange x y) (hx : x = 1 ∨ x = 6)
    (hno : ∀ c, (c = y + 2 ∨ c = y - 2) →
      ¬ (cell grid (if x = 1 then 3 else 4) c = some 0 ∧
        (cell grid (if x = 1 then 2 else 5) ((y + c) / 2) = some (3 - turn) ∨
          cell grid (if x = 1 then 2 else 5) ((y + c) / 2) = some (5 - turn)))) :
    ∃ reg, isDoubleJumpAvailableAt off x y turn grid reg0 = some (false, reg) := by
  rw [isDoubleJumpAvailableAt_eq off grid turn reg0 hpos]
  by_cases hg : edgeGuardAt off x y grid = true
  · rw [if_pos hg]
    exact ⟨reg0, rfl⟩
  · rw [if_neg hg]
    obtain ⟨⟨b, reg⟩, hr⟩ := noGuard_total grid turn hpos
    cases b
    · exact ⟨reg, hr⟩
    · exfalso
      obtain ⟨i, hdx, hdy, hl, hm, _⟩ := (noGuard_sound hr).2
      have hrange := cell_inRange hl
      unfold inRange at hrange hpos
      rcases hx with hx | hx
      · subst hx
        have h3 : (reg i).1 = 3 := by omega
        rw [h3] at hl hm
        exact hno (reg i).2 hdy ⟨hl, hm⟩
      · subst hx
        have h4 : (reg i).1 = 4 := by omega
        rw [h4] at hl hm
        exact hno (reg i).2 hdy ⟨hl, hm⟩

/-- The statement of C18 at (1,6) of `edgeGridB`, where player 2's man has just landed and
the guard reads `grid[3][8]`. -/
theorem isDoubleJumpAvailable_row_edge_false_witness :
    inRange 1 6 ∧ ((1 : Int) = 1 ∨ (1 : Int) = 6) ∧
    (∀ c : Int, (c = 6 + 2 ∨ c = 6 - 2) →
      ¬ (cell edgeGridB (if (1 : Int) = 1 then 3 else 4) c = some 0 ∧
        (cell edgeGridB (if (1 : Int) = 1 then 2 else 5) ((6 + c) / 2) = some (3 - 2) ∨
          cell edgeGridB (if (1 : Int) = 1 then 2 else 5) ((6 + c) / 2) = some (5 - 2)))) ∧
    ∃ reg, isDoubleJumpAvailableAt (fun _ _ => 0) 1 6 2 edgeGridB clearedReg =
      some (false, reg) :=
  ⟨by decide, Or.inl rfl,
    fun c hc => by rcases hc with hc | hc <;> subst hc <;> decide,
    isDoubleJumpAvailable_row_edge_false (fun _ _ => 0) edgeGridB 2 clearedReg (by decide)
      (Or.inl rfl) (fun c hc => by rcases hc with hc | hc <;> subst hc <;> decide)⟩

/-- C19 (the code departs from the claim): whatever the game, the step of the controller
that follows a declined chain, or an out-of-range chain destination, has no defined
result: `main` calls `isDoubleJumpAvailable` with that position, whose first statement
reads the board outside the array. -/
theorem step_after_decline_undefined (p : Prompt) :
    (∀ yIn, grantAnswer p 0 yIn = none) ∧
    (∀ xIn, xIn ≠ 0 → grantAnswer p xIn 0 = none) ∧
    (∀ xIn yIn, xIn ≠ 0 → yIn ≠ 0 → ¬ inRange (xIn - 1) (yIn - 1) →
      grantAnswer p xIn yIn = none) := by
  have hw : ∀ g x y, ¬ inRange x y → chainWhile g x y = none := by
    intro g x y h
    unfold chainWhile isDoubleJumpAvailable
    rw [cell_none h]
    rfl
  refine ⟨fun yIn => ?_, fun xIn hx => ?_, fun xIn yIn hx hy hr => ?_⟩
  · unfold grantAnswer grantBody grantBodyWith
    rw [if_pos rfl, Option.some_bind]
    exact hw _ _ _ (by decide)
  · unfold grantAnswer grantBody grantBodyWith
    rw [if_neg hx, if_pos rfl, Option.some_bind]
    exact hw _ _ _ (by decide)
  · have hc : xIn - 1 < 0 ∨ xIn - 1 > 7 ∨ yIn - 1 < 0 ∨ yIn - 1 > 7 := by
      unfold inRange at hr
      omega
    unfold grantAnswer grantBody grantBodyWith
    simp only [if_neg hx, if_neg hy, if_pos hc, Option.some_bind]
    exact hw _ _ _ hr

/-- C20: whatever the array held, `arrangeGrid` succeeds and yields the board with
player-1 men on the odd columns of rows 0 and 2 and the even columns of row 1, player-2 men
on the even columns of rows 5 and 7 and the odd columns of row 6, and 0 elsewhere; each
player has 12 pieces on it, all of them men, and every piece stands on a square whose row
plus column is odd. -/
theorem arrangeGrid_starting_board (g0 : Grid) :
    ∃ grid, arrangeGrid g0 = some grid ∧
      (∀ i j : Fin 8, grid i j =
        if (i.val = 0 ∨ i.val = 2) ∧ j.val % 2 = 1 then 1
        else if i.val = 1 ∧ j.val % 2 = 0 then 1
        else if (i.val = 5 ∨ i.val = 7) ∧ j.val % 2 = 0 then 2
        else if i.val = 6 ∧ j.val % 2 = 1 then 2
        else 0) ∧
      piecesOf 1 grid = 12 ∧ piecesOf 2 grid = 12 ∧
      (∀ i j : Fin 8, grid i j ≠ 3 ∧ grid i j ≠ 4) ∧
      (∀ i j : Fin 8, grid i j ≠ 0 → (i.val + j.val) % 2 = 1) := by
  refine ⟨initialGrid, arrangeGrid_eq g0, ?_, ?_, ?_, ?_, ?_⟩
  · decide
  · rfl
  · rfl
  · decide
  · decide

/-! ## The loop of `main`, the reading of a move, and the indices used -/

/-- C21: the loop of `main` goes on exactly while both counters are positive: its condition
is "both counters are positive", a pass from the condition announces a winner if and only
if the condition fails, and a pass that goes on started with both counters positive.  The
winner announced is player 1 if and only if player 1's counter is positive, otherwise
player 2; so when one counter is 0 and the other is positive, the winner is the other
player. -/
theorem main_loop_and_winner (g : Game) (xFromIn yFromIn xToIn yToIn xTo0 yTo0 : Int) :
    (loopCondition g = true ↔ 0 < g.p1Pieces ∧ 0 < g.p2Pieces) ∧
    (∀ w, mainPass g xFromIn yFromIn xToIn yToIn xTo0 yTo0 = some (.won w) ↔
      (¬ (0 < g.p1Pieces ∧ 0 < g.p2Pieces) ∧ w = winner g)) ∧
    (∀ c, mainPass g xFromIn yFromIn xToIn yToIn xTo0 yTo0 = some (.goOn c) →
      0 < g.p1Pieces ∧ 0 < g.p2Pieces) ∧
    (winner g = 1 ↔ 0 < g.p1Pieces) ∧ (winner g = 2 ↔ ¬ 0 < g.p1Pieces) ∧
    (g.p1Pieces = 0 → 0 < g.p2Pieces → winner g = 2) ∧
    (g.p2Pieces = 0 → 0 < g.p1Pieces → winner g = 1) := by
  have hl : loopCondition g = true ↔ 0 < g.p1Pieces ∧ 0 < g.p2Pieces := by
    unfold loopCondition
    rw [decide_eq_true_iff]
  refine ⟨hl, fun w => ?_, fun c hc => ?_, ?_, ?_, ?_, ?_⟩
  · unfold mainPass
    by_cases hc : loopCondition g = true
    · rw [if_pos hc]
      constructor
      · intro h
        exfalso
        rcases hm : getMove xFromIn yFromIn xToIn yToIn xTo0 yTo0 g.turn g.grid with _ | m
        · rw [hm] at h
          exact Option.noConfusion h
        · rw [hm, Option.some_bind] at h
          split_ifs at h
          · simp at h
          · simp at h
          · rcases hmm : mainMove g m.2.1 m.2.2.1 m.2.2.2.1 m.2.2.2.2 with _ | c
            · rw [hmm] at h
              exact Option.noConfusion h
            · rw [hmm] at h
              simp at h
      · intro h
        exact absurd (hl.1 hc) h.1
    · rw [if_neg hc]
      constructor
      · intro h
        simp only [Option.some.injEq, Outcome.won.injEq] at h
        exact ⟨fun hb => hc (hl.2 hb), h.symm⟩
      · intro h
        rw [h.2]
  · by_contra hb
    unfold mainPass at hc
    rw [if_neg (fun hcond => hb (hl.1 hcond))] at hc
    simp at hc
  · unfold winner
    split_ifs with h <;> simp [h]
  · unfold winner
    split_ifs with h <;> simp [h]
  · intro h1 _
    unfold winner
    rw [if_neg (by omega)]
  · intro _ h1
    unfold winner
    rw [if_pos h1]

/-- C22: a move that `getMove` passes on can have its destination column off the board.  On
the starting board player 1 types the source 3 2 and the destination 4 9: the test of
line 654 compares `yFrom`, not `yTo`, with 8, `getMove` returns true with the move
(2,1) to (3,8), which is not the quit signal, and `validMove` then reads `grid[3][8]`. -/
theorem getMove_passes_column_off_board (xTo0 yTo0 : Int) :
    getMove 3 2 4 9 xTo0 yTo0 1 initialGrid = some (true, 2, 3, 1, 8) ∧
    isQuit 2 3 1 8 = false ∧ ¬ inRange 3 8 ∧ ¬ ((8 : Int) ≤ 7) ∧
    validMove 2 3 1 8 1 initialGrid 12 = none ∧
    mainPass (Game.mk 1 12 12 initialGrid clearedReg) 3 2 4 9 xTo0 yTo0 = none :=
  ⟨rfl, rfl, by decide, by decide, rfl, rfl⟩

/-- C23: for the in-range position (7,0), on every board and for every player, the guard of
line 848 evaluates `grid[x-1][y-1]`, that is `grid[6][-1]`: the column is off the board and
the call has no defined result.  The position is one the program passes: in `crownGrid`
player 1's man has just jumped from (5,2) over (6,1) to (7,0), and the pass through `main`
that plays this jump has no defined result. -/
theorem isDoubleJumpAvailable_reads_off_board (turn : Int) (grid : Grid) (jumpReg : JumpReg) :
    inRange 7 0 ∧ ¬ inRange (7 - 1) (0 - 1) ∧
    occupiedThenEmpty grid (7 - 1) (0 - 1) (7 - 2) (0 - 2) = none ∧
    edgeGuard 7 0 grid = none ∧
    isDoubleJumpAvailable 7 0 turn grid jumpReg = none ∧
    cell crownGrid 7 0 = some 3 ∧
    mainMove (Game.mk 1 12 9 (upd (upd (upd crownGrid 5 2 1) 6 1 2) 7 0 0) jumpReg) 5 7 2 0 =
      none := by
  have ho : occupiedThenEmpty grid (7 - 1) (0 - 1) (7 - 2) (0 - 2) = none := by
    unfold occupiedThenEmpty
    rw [cell_none (by decide)]
    rfl
  have hg : edgeGuard 7 0 grid = none := by
    unfold edgeGuard
    rw [if_neg (by decide), if_pos rfl, ho]
    rfl
  refine ⟨by decide, by decide, ho, hg, ?_, rfl, rfl⟩
  unfold isDoubleJumpAvailable isDoubleJumpAvailableBody
  rw [hg, cell_some grid (by decide)]
  rfl

/-- C24: the registry and the validator agree.  From a square that holds the mover's man or
king, when `isDoubleJumpAvailable` returns true, `validMove` accepts the move to every
entry of the registry other than the sentinel, empties exactly the midpoint, which held a
piece of the opponent, and decrements the counter by one; the opponent then has one piece
less on the board, before and after the relocation, and the mover as many as before.  A
chain of `n` jumps takes `n` pieces of the opponent off the board, so it has at most 12
jumps when the opponent has at most 12 pieces. -/
theorem registry_agrees_with_validMove {grid : Grid} {x y turn s : Int} {reg0 reg : JumpReg}
    (pieces : Int) (ht : turn = 1 ∨ turn = 2) (hpos : cell grid x y = some s)
    (hs : s = turn ∨ s = turn + 2)
    (h : isDoubleJumpAvailable x y turn grid reg0 = some (true, reg)) :
    (∀ i, reg i ≠ (-1, -1) → ∃ grid2,
      validMove x (reg i).1 y (reg i).2 turn grid pieces =
        some (true, upd grid ((x + (reg i).1) / 2) ((y + (reg i).2) / 2) 0, pieces - 1) ∧
      (cell grid ((x + (reg i).1) / 2) ((y + (reg i).2) / 2) = some (3 - turn) ∨
        cell grid ((x + (reg i).1) / 2) ((y + (reg i).2) / 2) = some (5 - turn)) ∧
      piecesOf (3 - turn) (upd grid ((x + (reg i).1) / 2) ((y + (reg i).2) / 2) 0) + 1 =
        piecesOf (3 - turn) grid ∧
      piecesOf turn (upd grid ((x + (reg i).1) / 2) ((y + (reg i).2) / 2) 0) =
        piecesOf turn grid ∧
      relocateChain turn x y (reg i).1 (reg i).2
          (upd grid ((x + (reg i).1) / 2) ((y + (reg i).2) / 2) 0) =
        some (grid2, (reg i).1, (reg i).2) ∧
      piecesOf (3 - turn) grid2 + 1 = piecesOf (3 - turn) grid ∧
      piecesOf turn grid2 = piecesOf turn grid ∧
      (cell grid2 (reg i).1 (reg i).2 = some turn ∨
        cell grid2 (reg i).1 (reg i).2 = some (turn + 2))) ∧
    (∀ n grid3 x3 y3, ChainRun turn grid x y n grid3 x3 y3 →
      piecesOf (3 - turn) grid3 + n = piecesOf (3 - turn) grid ∧
      (piecesOf (3 - turn) grid ≤ 12 → n ≤ 12)) := by
  refine ⟨fun i hi => registry_jump_step pieces ht hpos hs h i hi, ?_⟩
  intro n grid3 x3 y3 hc
  have hp : cell grid x y = some turn ∨ cell grid x y = some (turn + 2) := by
    rcases hs with hs | hs
    · exact Or.inl (by rw [hpos, hs])
    · exact Or.inr (by rw [hpos, hs])
  obtain ⟨j1, _, _⟩ := chainRun_counts ht hc hp
  exact ⟨j1, fun hb => by omega⟩

/-- The statement of C24 in `chainGridJumped`: player 1's man on (4,3), the registry holds
(6,5), and `validMove` accepts the jump to (6,5) over (5,4). -/
theorem registry_agrees_with_validMove_witness :
    cell chainGridJumped 4 3 = some 1 ∧
    isDoubleJumpAvailable 4 3 1 chainGridJumped clearedReg = some (true, chainReg) ∧
    chainReg 0 ≠ (-1, -1) ∧
    ∃ grid2,
      validMove 4 (chainReg 0).1 3 (chainReg 0).2 1 chainGridJumped 11 =
        some (true, upd chainGridJumped ((4 + (chainReg 0).1) / 2) ((3 + (chainReg 0).2) / 2) 0,
          11 - 1) ∧
      (cell chainGridJumped ((4 + (chainReg 0).1) / 2) ((3 + (chainReg 0).2) / 2) =
          some (3 - 1) ∨
        cell chainGridJumped ((4 + (chainReg 0).1) / 2) ((3 + (chainReg 0).2) / 2) =
          some (5 - 1)) ∧
      piecesOf (3 - 1)
          (upd chainGridJumped ((4 + (chainReg 0).1) / 2) ((3 + (chainReg 0).2) / 2) 0) + 1 =
        piecesOf (3 - 1) chainGridJumped ∧
      piecesOf 1 (upd chainGridJumped ((4 + (chainReg 0).1) / 2) ((3 + (chainReg 0).2) / 2) 0) =
        piecesOf 1 chainGridJumped ∧
      relocateChain 1 4 3 (chainReg 0).1 (chainReg 0).2
          (upd chainGridJumped ((4 + (chainReg 0).1) / 2) ((3 + (chainReg 0).2) / 2) 0) =
        some (grid2, (chainReg 0).1, (chainReg 0).2) ∧
      piecesOf (3 - 1) grid2 + 1 = piecesOf (3 - 1) chainGridJumped ∧
      piecesOf 1 grid2 = piecesOf 1 chainGridJumped ∧
      (cell grid2 (chainReg 0).1 (chainReg 0).2 = some 1 ∨
        cell grid2 (chainReg 0).1 (chainReg 0).2 = some (1 + 2)) :=
  ⟨rfl, rfl, by decide,
    (@registry_agrees_with_validMove chainGridJumped 4 3 1 1 clearedReg chainReg 11
      (Or.inl rfl) rfl (Or.inl rfl) rfl).1 0 (by decide)⟩

/-- C25: with source and destination on the board, `validMove` has a defined result, that
is, every cell it reads or writes is on the board (a read or write off the board is the
only way for the result to be undefined); in particular the jumped square it reaches in the
two-rows-down branch, `(xTo - 1, yTo + 1)` or `(xTo - 1, yTo - 1)`, and in the two-rows-up
branch, `(xTo + 1, yTo + 1)` or `(xTo + 1, yTo - 1)`, is on the board. -/
theorem validMove_indexes_safely (xFrom xTo yFrom yTo turn : Int) (grid : Grid) (pieces : Int)
    (hfrom : inRange xFrom yFrom) (hto : inRange xTo yTo) :
    (∃ r, validMove xFrom xTo yFrom yTo turn grid pieces = some r) ∧
    (xTo = xFrom + 2 →
      (yTo = yFrom + 1 ∨ yTo = yFrom - 1 ∨ yTo = yFrom + 2 ∨ yTo = yFrom - 2) →
      (yTo < yFrom → inRange (xTo - 1) (yTo + 1)) ∧
      (¬ yTo < yFrom → inRange (xTo - 1) (yTo - 1))) ∧
    (xTo = xFrom - 2 → ¬ (yTo = yFrom ∨ yTo > yFrom + 2 ∨ yTo < yFrom - 2) →
      (yTo < yFrom → inRange (xTo + 1) (yTo + 1)) ∧
      (¬ yTo < yFrom → inRange (xTo + 1) (yTo - 1))) := by
  refine ⟨?_, ?_, ?_⟩
  · rcases validMove_cases xFrom xTo yFrom yTo turn grid pieces hfrom hto with h | h | h
    · exact ⟨_, h⟩
    · exact ⟨_, h.1⟩
    · obtain ⟨b, m, h, _⟩ := h
      exact ⟨_, h⟩
  · unfold inRange at *
    intro hx hy
    constructor <;> intro hlt <;> omega
  · unfold inRange at *
    intro hx hy
    constructor <;> intro hlt <;> omega

/-- The statement of C25 at player 1's jump from (2,1) to (4,3) in `chainGrid`. -/
theorem validMove_indexes_safely_witness :
    inRange 2 1 ∧ inRange 4 3 ∧ (∃ r, validMove 2 4 1 3 1 chainGrid 12 = some r) ∧
    inRange (4 - 1) (3 - 1) :=
  ⟨by decide, by decide,
    (validMove_indexes_safely 2 4 1 3 1 chainGrid 12 (by decide) (by decide)).1,
    ((validMove_indexes_safely 2 4 1 3 1 chainGrid 12 (by decide) (by decide)).2.1 rfl
      (by decide)).2 (by decide)⟩

/-- C26: the guard at the top of `isDoubleJumpAvailable` never changes the answer: for
either player and every in-range position, whatever the reads of the guard that leave
the array yield, the function returns the answer that the same function without the
guard returns (and the same registry when the early return is not taken). -/
theorem guard_never_changes_answer (off : Int → Int → Int) (grid : Grid) {x y : Int}
    (turn : Int) (reg0 : JumpReg) (ht : turn = 1 ∨ turn = 2) (hpos : inRange x y) :
    ∃ b reg reg1, isDoubleJumpAvailableAt off x y turn grid reg0 = some (b, reg) ∧
      isDoubleJumpAvailableNoGuard x y turn grid = some (b, reg1) ∧
      (edgeGuardAt off x y grid = false → reg = reg1) := by
  rw [isDoubleJumpAvailableAt_eq off grid turn reg0 hpos]
  obtain ⟨⟨b1, reg1⟩, hr⟩ := noGuard_total grid turn hpos
  by_cases hg : edgeGuardAt off x y grid = true
  · rw [if_pos hg]
    cases b1
    · exact ⟨false, reg0, reg1, rfl, hr, fun hf => by rw [hg] at hf; exact Bool.noConfusion hf⟩
    · exfalso
      obtain ⟨i, hi⟩ := (noGuard_sound hr).2
      rw [edgeGuardAt_false_of_jump off ht hi] at hg
      exact Bool.noConfusion hg
  · rw [if_neg hg]
    exact ⟨b1, reg1, reg1, hr, hr, fun _ => rfl⟩

/-- The statement of C26 at (7,6) of `crownGridB`, where player 1's man has just been
crowned and the guard reads `grid[5][8]`. -/
theorem guard_never_changes_answer_witness :
    ((1 : Int) = 1 ∨ (1 : Int) = 2) ∧ inRange 7 6 ∧
    ∃ b reg reg1, isDoubleJumpAvailableAt (fun _ _ => 0) 7 6 1 crownGridB clearedReg =
        some (b, reg) ∧
      isDoubleJumpAvailableNoGuard 7 6 1 crownGridB = some (b, reg1) ∧
      (edgeGuardAt (fun _ _ => 0) 7 6 crownGridB = false → reg = reg1) :=
  ⟨Or.inl rfl, by decide,
    guard_never_changes_answer (fun _ _ => 0) crownGridB 1 clearedReg (Or.inl rfl) (by decide)⟩

end Checkers
